import Mathlib

/-!
# Verification development for the KNP spiking-network core

A shallow embedding of the parts of the C++ sources that the specification's
claims talk about, followed by the theorems that settle those claims.

Conventions of the embedding

* C++ member functions that mutate `*this` return the new object (paired with
  the C++ return value when there is one).
* `throw` and a failing `assert` make the function return `Except.error`; an
  error result carries no new object, the object of the caller is as it was
  before the call (the sources throw before they write a member).
* Calls to objects that are not among the sources (`subscribe`, `send_message`)
  are recorded as the list of calls in the order in which they are issued.
* `float` arithmetic is taken over an arbitrary linearly ordered field `F`
  with the exponential passed as a parameter `exp : F → F`; real arithmetic is
  the instance `F = ℝ`, `exp = Real.exp`.  Rounding is not modelled.
* `uint32_t` values are natural numbers reduced modulo `2 ^ 32` at the places
  where the source stores or subtracts them.
* In the dispatch loops of `calculate_populations` a posted task holds the
  reference its `[&]` capture takes, and the closure it refers to has a
  lifetime; a read through a reference to a destroyed closure yields `none`.
-/

namespace knp

/-! ## Identifiers -/

/-- Modelled from the spec: the class `UID` of `knp/core/uid.h` is not among the
sources.  The spec describes it as a 128-bit opaque value, comparable, hashable
and printable; it is represented by its tag.  `UID{false}` is the nil
identifier. -/
structure UID where
  tag : Nat
deriving DecidableEq, Repr

/-- The nil identifier `UID{false}`. -/
def UID.nil : UID := ⟨0⟩

/-! ## `knp/core/subscription.h` -/

namespace core

/-- The class `Subscription<T>`: receiver, set of sender UIDs (kept as strings in
an `std::unordered_set<std::string>`), and the message cache. -/
structure Subscription (T : Type) where
  receiver_ : UID
  senders_ : Finset String
  messages_ : List T

namespace Subscription

variable {T : Type}

/-- Method `Subscription::get_senders`. -/
def get_senders (self : Subscription T) : Finset String := self.senders_

/-- Method `Subscription::get_receiver_uid`. -/
def get_receiver_uid (self : Subscription T) : UID := self.receiver_

/-- Method `Subscription::remove_sender`: `senders_.erase(string(uid))`, which returns the
number of erased elements.  `str` is the conversion `static_cast<std::string>(uid)`,
declared in the absent `uid.h`. -/
def remove_sender (str : UID → String) (self : Subscription T) (uid : UID) :
    Subscription T × Nat :=
  ({ self with senders_ := self.senders_.erase (str uid) },
    if str uid ∈ self.senders_ then 1 else 0)

/-- Method `Subscription::add_sender`: `senders_.insert(string(uid)).second`, converted to
`size_t`. -/
def add_sender (str : UID → String) (self : Subscription T) (uid : UID) :
    Subscription T × Nat :=
  ({ self with senders_ := insert (str uid) self.senders_ },
    if str uid ∈ self.senders_ then 0 else 1)

/-- Method `Subscription::add_senders`: the body of the source is `return 0;` (the
insertion is commented out), so the object is returned as it was. -/
def add_senders (self : Subscription T) (_senders : List UID) : Subscription T × Nat :=
  (self, 0)

/-- Method `Subscription::has_sender`. -/
def has_sender (str : UID → String) (self : Subscription T) (uid : UID) : Bool :=
  decide (str uid ∈ self.senders_)

/-- The constructor `Subscription(reciever, senders)`: initialises the receiver and
calls `add_senders(senders)`; the sender set and the message cache start empty. -/
def ctor (reciever : UID) (senders : List UID) : Subscription T :=
  (add_senders { receiver_ := reciever, senders_ := ∅, messages_ := [] } senders).1

end Subscription

end core

/-! ## `knp/base-framework/impl/model.cpp` -/

namespace framework

/-- Modelled from the spec: the class `Network` is not among the sources.  The spec
describes it as the collection of all populations and projections with
UID-indexed lookup; it is represented by the UIDs of its populations and of its
projections. -/
structure Network where
  populations_ : List UID
  projections_ : List UID
deriving DecidableEq, Repr

/-- Modelled from the spec: `Network::is_projection_exists(uid)`. -/
def Network.is_projection_exists (self : Network) (uid : UID) : Bool :=
  decide (uid ∈ self.projections_)

/-- Modelled from the spec: `Network::is_population_exists(uid)`. -/
def Network.is_population_exists (self : Network) (uid : UID) : Bool :=
  decide (uid ∈ self.populations_)

/-- The exception `std::logic_error` with its message. -/
structure logic_error where
  what : String
deriving DecidableEq, Repr

/-- The class `Model`: the network and the two `unordered_multimap`s of channels. -/
structure Model where
  network_ : Network
  in_channels_ : Multiset (UID × UID)
  out_channels_ : Multiset (UID × UID)

/-- Method `Model::add_input_channel`. -/
def Model.add_input_channel (str : UID → String) (self : Model)
    (channel_uid projection_uid : UID) : Except logic_error Model :=
  if !self.network_.is_projection_exists projection_uid then
    .error ⟨"Projection with UID = " ++ str projection_uid ++ " doesn't exist."⟩
  else
    .ok { self with in_channels_ := (channel_uid, projection_uid) ::ₘ self.in_channels_ }

/-- Method `Model::add_output_channel`.  The guard of the source is
`!network_.is_projection_exists(projection_uid)`; the name `projection_uid` is not
a parameter of this function, so what it denotes is taken as the extra argument
`projection_uid` (the spec reads it as the population UID). -/
def Model.add_output_channel (str : UID → String) (projection_uid : UID) (self : Model)
    (channel_uid population_uid : UID) : Except logic_error Model :=
  if !self.network_.is_projection_exists projection_uid then
    .error ⟨"Population with UID = " ++ str population_uid ++ " doesn't exist."⟩
  else
    .ok { self with out_channels_ := (channel_uid, population_uid) ::ₘ self.out_channels_ }

/-- Method `Model::get_input_channels`. -/
def Model.get_input_channels (self : Model) : Multiset (UID × UID) := self.in_channels_

/-- Method `Model::get_output_channels`. -/
def Model.get_output_channels (self : Model) : Multiset (UID × UID) := self.out_channels_

end framework

/-! ## Messages -/

namespace core.messaging

/-- Modelled from the spec: the message header (`sender_uid`, `send_time`) of the
absent `messaging.h`; `send_time` is a step number (64 bits in the envelope). -/
structure MessageHeader where
  sender_uid_ : UID
  send_time_ : Nat
deriving DecidableEq, Repr

/-- Modelled from the spec: `SpikeMessage` = header and the list of `uint32_t`
neuron indexes. -/
structure SpikeMessage where
  header_ : MessageHeader
  neuron_indexes_ : List Nat
deriving DecidableEq, Repr

end core.messaging

/-! ## `knp/backends/cpu-library/impl/additive_stdp_impl.h` -/

namespace backends.cpu

open core.messaging

/-- A failed `assert(expr)`. -/
structure AssertionFailure where
  expr : String
deriving DecidableEq, Repr

/-- Modelled from the spec: the processing modes of the STDP-population table
(`SharedSynapseParameters::ProcessingType`), declared in an absent header. -/
inductive ProcessingType where
  | SpikeOnly
  | STDPOnly
  | STDPAndSpike
deriving DecidableEq, Repr

/-- Modelled from the spec: the rule record `STDPAdditiveRule` of the absent
`stdp_common.h`: two unsigned window sizes and two queues of `uint32_t` step
numbers.  The width of the window sizes is not visible in the sources; their sum
is taken without wrap-around. -/
structure STDPAdditiveRule where
  tau_plus_ : Nat
  tau_minus_ : Nat
  presynaptic_spike_times_ : List Nat
  postsynaptic_spike_times_ : List Nat
deriving DecidableEq, Repr

/-- The two values of the pointer-to-member argument `spike_queue` of
`append_spike_times`. -/
inductive SpikeQueue where
  | presynaptic_spike_times_
  | postsynaptic_spike_times_
deriving DecidableEq, Repr

/-- The access `rule.*spike_queue`. -/
def STDPAdditiveRule.queue (rule : STDPAdditiveRule) : SpikeQueue → List Nat
  | .presynaptic_spike_times_ => rule.presynaptic_spike_times_
  | .postsynaptic_spike_times_ => rule.postsynaptic_spike_times_

/-- The call `(rule.*spike_queue).push_back(t)`; the element type of the queue is
`uint32_t`, so the value stored is `t` modulo `2 ^ 32`. -/
def STDPAdditiveRule.push_back (rule : STDPAdditiveRule) (spike_queue : SpikeQueue)
    (t : Nat) : STDPAdditiveRule :=
  match spike_queue with
  | .presynaptic_spike_times_ =>
    { rule with presynaptic_spike_times_ := rule.presynaptic_spike_times_ ++ [t % 2 ^ 32] }
  | .postsynaptic_spike_times_ =>
    { rule with postsynaptic_spike_times_ := rule.postsynaptic_spike_times_ ++ [t % 2 ^ 32] }

/-- The parameters of an additive-STDP delta synapse: the delta-synapse fields of
`delta.h` (`pre_id`, `post_id`, `weight_`, `delay_`) and the rule. -/
structure synapse_parameters (F : Type) where
  pre_id : Nat
  post_id : Nat
  weight_ : F
  delay_ : Nat
  rule_ : STDPAdditiveRule
deriving DecidableEq, Repr

/-- An element `projection[i]` of a projection. -/
structure Synapse (F : Type) where
  params_ : synapse_parameters F
deriving DecidableEq, Repr

/-- Modelled from the spec: the class `Projection` of the absent `projection.h`, as
far as the plasticity kernel uses it: UIDs, the ordered synapses, and the shared
STDP-population table (an `unordered_map<UID, ProcessingType>`, looked up by
`find`). -/
structure Projection (F : Type) where
  uid_ : UID
  presynaptic_uid_ : UID
  postsynaptic_uid_ : UID
  parameters_ : List (Synapse F)
  stdp_populations_ : List (UID × ProcessingType)

/-- Indexes `i` with `pred (l[i])`, counted from `start`. -/
def indexes_from {α : Type} (pred : α → Bool) : Nat → List α → List Nat
  | _, [] => []
  | start, a :: l =>
    if pred a then start :: indexes_from pred (start + 1) l
    else indexes_from pred (start + 1) l

/-- Modelled from the spec: `Projection::get_by_presynaptic_neuron`, the forward
index from a presynaptic neuron to the indexes of the synapses that start at it. -/
def Projection.get_by_presynaptic_neuron {F : Type} (self : Projection F)
    (neuron_index : Nat) : List Nat :=
  indexes_from (fun s : Synapse F => decide (s.params_.pre_id = neuron_index)) 0
    self.parameters_

/-- Modelled from the spec: `Projection::get_by_postsynaptic_neuron`, the index from
a postsynaptic neuron to the indexes of the synapses that end at it. -/
def Projection.get_by_postsynaptic_neuron {F : Type} (self : Projection F)
    (neuron_index : Nat) : List Nat :=
  indexes_from (fun s : Synapse F => decide (s.params_.post_id = neuron_index)) 0
    self.parameters_

/-- The class `STDPFormula`. -/
structure STDPFormula (F : Type) where
  tau_plus_ : F
  tau_minus_ : F
  a_plus_ : F
  a_minus_ : F

/-- The subtraction `t_n - t_f` of two `uint32_t` values. -/
def uint32_sub (t_n t_f : Nat) : Nat :=
  (t_n % 2 ^ 32 + (2 ^ 32 - t_f % 2 ^ 32)) % 2 ^ 32

section formula

variable {F : Type} [LinearOrderedField F]

/-- Method `STDPFormula::stdp_w`. -/
def STDPFormula.stdp_w (exp : F → F) (self : STDPFormula F) (weight_diff : F) : F :=
  if weight_diff > 0 then self.a_plus_ * exp (-weight_diff / self.tau_plus_)
  else self.a_minus_ * exp (weight_diff / self.tau_minus_)

/-- Method `STDPFormula::stdp_delta_w`: the assertion on the sizes, then the double loop
that accumulates `stdp_w(t_n - t_f)`; the difference is computed in `uint32_t` and
converted to `float` at the call. -/
def STDPFormula.stdp_delta_w (exp : F → F) (self : STDPFormula F)
    (presynaptic_spikes postsynaptic_spikes : List Nat) : Except AssertionFailure F :=
  if presynaptic_spikes.length ≠ postsynaptic_spikes.length then
    .error ⟨"presynaptic_spikes.size() == postsynaptic_spikes.size()"⟩
  else
    .ok (presynaptic_spikes.foldl (fun w_j t_f =>
      postsynaptic_spikes.foldl (fun w_j t_n =>
        w_j + self.stdp_w exp ((uint32_sub t_n t_f : Nat) : F)) w_j) 0)

/-- Method `STDPFormula::operator()`. -/
def STDPFormula.call (exp : F → F) (self : STDPFormula F)
    (presynaptic_spikes postsynaptic_spikes : List Nat) : Except AssertionFailure F :=
  self.stdp_delta_w exp presynaptic_spikes postsynaptic_spikes

end formula

/-- The body of the innermost loop of `append_spike_times`: the queue of the synapse
is extended by the send time of the message if it holds fewer than
`tau_minus_ + tau_plus_` entries. -/
def append_spike_time {F : Type} (message : SpikeMessage) (spike_queue : SpikeQueue)
    (s : Synapse F) : Synapse F :=
  let rule := s.params_.rule_
  if (rule.queue spike_queue).length < rule.tau_minus_ + rule.tau_plus_ then
    { s with params_ :=
        { s.params_ with rule_ := rule.push_back spike_queue message.header_.send_time_ } }
  else s

/-- Function `append_spike_times` for one message: for every neuron index of the message and
every synapse index the getter returns for it, the selected queue of that synapse
is extended.  The getter is a closure over the projection, hence it reads the
current projection. -/
def append_spike_times {F : Type} (projection : Projection F) (message : SpikeMessage)
    (synapse_index_getter : Projection F → Nat → List Nat) (spike_queue : SpikeQueue) :
    Projection F :=
  message.neuron_indexes_.foldl (fun projection neuron_index =>
    (synapse_index_getter projection neuron_index).foldl (fun projection synapse_index =>
      { projection with
        parameters_ := List.modify (append_spike_time message spike_queue) synapse_index
          projection.parameters_ }) projection) projection

/-- The body of the message loop of `register_additive_stdp_spikes`, for one message:
the new projection and the (possibly cleared) message, or the failure of the final
assertion. -/
def register_additive_stdp_spikes_message {F : Type} (projection : Projection F)
    (msg : SpikeMessage) : Except AssertionFailure (Projection F × SpikeMessage) :=
  match projection.stdp_populations_.lookup msg.header_.sender_uid_ with
  | none => .ok (projection, msg)
  | some processing_type =>
    -- `assert(uid == msg.header_.sender_uid_)` holds for the entry `find` returns.
    let projection :=
      if processing_type = .STDPOnly ∨ processing_type = .STDPAndSpike then
        append_spike_times projection msg Projection.get_by_postsynaptic_neuron
          .postsynaptic_spike_times_
      else projection
    let projection :=
      if processing_type = .STDPAndSpike then
        append_spike_times projection msg Projection.get_by_postsynaptic_neuron
          .presynaptic_spike_times_
      else projection
    let msg :=
      if processing_type = .STDPOnly then { msg with neuron_indexes_ := [] } else msg
    if processing_type = .STDPAndSpike ∨ processing_type = .STDPOnly then
      .ok (projection, msg)
    else
      .error ⟨"processing_type == ProcessingType::STDPAndSpike || processing_type == ProcessingType::STDPOnly"⟩

/-- Function `register_additive_stdp_spikes`: the loop over `all_messages`, which are modified
in place. -/
def register_additive_stdp_spikes {F : Type} (projection : Projection F) :
    List SpikeMessage → Except AssertionFailure (Projection F × List SpikeMessage)
  | [] => .ok (projection, [])
  | msg :: all_messages =>
    match register_additive_stdp_spikes_message projection msg with
    | .error e => .error e
    | .ok (projection, msg) =>
      match register_additive_stdp_spikes projection all_messages with
      | .error e => .error e
      | .ok (projection, all_messages) => .ok (projection, msg :: all_messages)

section update

variable {F : Type} [LinearOrderedField F]

/-- The body of the loop of `update_projection_weights_additive_stdp`, for one
synapse. -/
def update_synapse_additive_stdp (exp : F → F) (s : Synapse F) :
    Except AssertionFailure (Synapse F) :=
  let rule := s.params_.rule_
  let period := rule.tau_plus_ + rule.tau_minus_
  if rule.presynaptic_spike_times_.length ≥ period ∧
      rule.postsynaptic_spike_times_.length ≥ period then
    let stdp_formula : STDPFormula F := ⟨(rule.tau_plus_ : F), (rule.tau_minus_ : F), 1, 1⟩
    match stdp_formula.call exp rule.presynaptic_spike_times_ rule.postsynaptic_spike_times_ with
    | .error e => .error e
    | .ok delta_w =>
      .ok { s with params_ :=
              { s.params_ with
                weight_ := s.params_.weight_ + delta_w
                rule_ := { rule with presynaptic_spike_times_ := [],
                                     postsynaptic_spike_times_ := [] } } }
  else .ok s

/-- The loop `for (auto &s : projection)` over a list of synapses. -/
def update_synapses_additive_stdp (exp : F → F) :
    List (Synapse F) → Except AssertionFailure (List (Synapse F))
  | [] => .ok []
  | s :: rest =>
    match update_synapse_additive_stdp exp s with
    | .error e => .error e
    | .ok s =>
      match update_synapses_additive_stdp exp rest with
      | .error e => .error e
      | .ok rest => .ok (s :: rest)

/-- Function `update_projection_weights_additive_stdp`: the loop over the synapses of
the projection. -/
def update_projection_weights_additive_stdp (exp : F → F) (projection : Projection F) :
    Except AssertionFailure (Projection F) :=
  match update_synapses_additive_stdp exp projection.parameters_ with
  | .error e => .error e
  | .ok parameters => .ok { projection with parameters_ := parameters }

end update

end backends.cpu

/-! ## `knp/backends/cpu/cpu-multi-threaded-backend/impl/backend.cpp` -/

namespace backends.multi_threaded_cpu

open core.messaging

/-- Modelled from the spec: the spike inboxes of the message endpoint (absent
`message_endpoint.h`), one list of routed `SpikeMessage`s per receiver UID. -/
structure MessageEndpoint where
  spike_inbox : UID → List SpikeMessage

/-- Modelled from the spec: `unload_messages<SpikeMessage>(receiver)` returns the
inbox of the receiver and leaves it empty. -/
def MessageEndpoint.unload_messages (self : MessageEndpoint) (receiver_uid : UID) :
    List SpikeMessage × MessageEndpoint :=
  (self.spike_inbox receiver_uid,
    { spike_inbox := fun uid => if uid = receiver_uid then [] else self.spike_inbox uid })

/-- The vector `messages` that the first loop of `calculate_projections` builds: for
each projection (given by its UID, in order) the inbox is unloaded into `msg_buf`
and the sentinel with sender `UID(false)`, send time `step_` and no neuron index
is pushed when `msg_buf` is empty, `msg_buf[0]` otherwise.  The kernel tasks that
run between two iterations get the projection, the message and the pending queue,
not the endpoint, and are left out here. -/
def calculate_projections_messages (step_ : Nat) :
    MessageEndpoint → List UID → List SpikeMessage
  | _, [] => []
  | message_endpoint_, uid :: projections_ =>
    let (msg_buf, message_endpoint_) := message_endpoint_.unload_messages uid
    (match msg_buf with
      | [] => { header_ := ⟨UID.nil, step_⟩, neuron_indexes_ := [] }
      | msg :: _ => msg) ::
      calculate_projections_messages step_ message_endpoint_ projections_

end backends.multi_threaded_cpu


/-! ## Further parts of the message model -/

/-- Modelled from the spec: the conversion `operator bool` of `UID` (absent `uid.h`),
used by the tests `if (pre_uid)` and `if (post_uid)`: every identifier but the nil
identifier `UID{false}` converts to true. -/
def UID.to_bool (uid : UID) : Bool := decide (uid ≠ UID.nil)

namespace core.messaging

/-- Modelled from the spec: one synaptic impact `{pre_index, post_index, value, kind}`.
The `float` value is kept as its 32-bit pattern and the kind as its byte; no
arithmetic is done on impacts here. -/
structure SynapticImpact where
  pre_index : Nat
  post_index : Nat
  value : Nat
  kind : Nat
deriving DecidableEq, Repr

/-- Modelled from the spec: `SynapticImpactMessage` = header, target (the
postsynaptic population UID) and the list of impacts. -/
structure SynapticImpactMessage where
  header_ : MessageHeader
  target : UID
  impacts_ : List SynapticImpact
deriving DecidableEq, Repr

/-- The tagged union `MessageVariant` = `std::variant<SpikeMessage,
SynapticImpactMessage>`, in the order of `AllMessages`. -/
inductive MessageVariant where
  | spike (message : SpikeMessage)
  | impact (message : SynapticImpactMessage)
deriving DecidableEq, Repr

/-- Little-endian bytes of `x` in a field of `width` bytes. -/
def encode_le : Nat → Nat → List Nat
  | 0, _ => []
  | width + 1, x => x % 256 :: encode_le width (x / 256)

/-- The number that a list of little-endian bytes stands for. -/
def decode_le : List Nat → Nat
  | [] => 0
  | b :: bytes => b + 256 * decode_le bytes

/-- Reads a little-endian field of `width` bytes from the front of the buffer; fails
when the buffer is shorter. -/
def read_le (width : Nat) (buffer : List Nat) : Option (Nat × List Nat) :=
  if buffer.length < width then none
  else some (decode_le (buffer.take width), buffer.drop width)

/-- Reads `n` records from the front of the buffer with the given record reader. -/
def read_many {α : Type} (read : List Nat → Option (α × List Nat)) :
    Nat → List Nat → Option (List α × List Nat)
  | 0, buffer => some ([], buffer)
  | n + 1, buffer =>
    match read buffer with
    | none => none
    | some (a, buffer) =>
      match read_many read n buffer with
      | none => none
      | some (l, buffer) => some (a :: l, buffer)

/-- Modelled from the spec: the envelope layout of one impact,
`{pre:u32, post:u32, value:f32, kind:u8}`. -/
def pack_impact (impact : SynapticImpact) : List Nat :=
  encode_le 4 impact.pre_index ++ encode_le 4 impact.post_index ++
    encode_le 4 impact.value ++ encode_le 1 impact.kind

/-- Modelled from the spec: reading one impact in the envelope layout. -/
def read_impact (buffer : List Nat) : Option (SynapticImpact × List Nat) :=
  match read_le 4 buffer with
  | none => none
  | some (pre, buffer) =>
    match read_le 4 buffer with
    | none => none
    | some (post, buffer) =>
      match read_le 4 buffer with
      | none => none
      | some (value, buffer) =>
        match read_le 1 buffer with
        | none => none
        | some (kind, buffer) => some (⟨pre, post, value, kind⟩, buffer)

/-- Modelled from the spec: `pack_to_envelope`, whose body is not among the sources
(only its declaration in `message_envelope.h`).  One byte of kind tag (the index of
the alternative in `MessageVariant`), then the payload in little-endian
fixed-width fields: `SpikeMessage` = `{uid:16, step:u64, n:u32, indexes:[u32;n]}`,
`SynapticImpactMessage` = `{uid:16, step:u64, target:16, n:u32, impacts:[...;n]}`. -/
def pack_to_envelope : MessageVariant → List Nat
  | .spike m =>
    0 :: (encode_le 16 m.header_.sender_uid_.tag ++ encode_le 8 m.header_.send_time_ ++
      encode_le 4 m.neuron_indexes_.length ++ m.neuron_indexes_.flatMap (encode_le 4))
  | .impact m =>
    1 :: (encode_le 16 m.header_.sender_uid_.tag ++ encode_le 8 m.header_.send_time_ ++
      encode_le 16 m.target.tag ++ encode_le 4 m.impacts_.length ++
      m.impacts_.flatMap pack_impact)

/-- Modelled from the spec: `extract_from_envelope`, whose body is not among the
sources: the inverse reading of the layout of `pack_to_envelope`; bytes after the
message are ignored and a buffer that does not hold a message gives `none`. -/
def extract_from_envelope (buffer : List Nat) : Option MessageVariant :=
  match buffer with
  | [] => none
  | tag :: buffer =>
    match read_le 16 buffer with
    | none => none
    | some (uid, buffer) =>
      match read_le 8 buffer with
      | none => none
      | some (step, buffer) =>
        if tag = 0 then
          match read_le 4 buffer with
          | none => none
          | some (n, buffer) =>
            match read_many (read_le 4) n buffer with
            | none => none
            | some (indexes, _) => some (.spike ⟨⟨⟨uid⟩, step⟩, indexes⟩)
        else if tag = 1 then
          match read_le 16 buffer with
          | none => none
          | some (target, buffer) =>
            match read_le 4 buffer with
            | none => none
            | some (n, buffer) =>
              match read_many read_impact n buffer with
              | none => none
              | some (impacts, _) => some (.impact ⟨⟨⟨uid⟩, step⟩, ⟨target⟩, impacts⟩)
        else none

/-- The messages the envelope layout can hold: every field fits its width. -/
def MessageVariant.valid : MessageVariant → Prop
  | .spike m =>
    m.header_.sender_uid_.tag < 2 ^ 128 ∧ m.header_.send_time_ < 2 ^ 64 ∧
    m.neuron_indexes_.length < 2 ^ 32 ∧ ∀ i ∈ m.neuron_indexes_, i < 2 ^ 32
  | .impact m =>
    m.header_.sender_uid_.tag < 2 ^ 128 ∧ m.header_.send_time_ < 2 ^ 64 ∧
    m.target.tag < 2 ^ 128 ∧ m.impacts_.length < 2 ^ 32 ∧
    ∀ i ∈ m.impacts_,
      i.pre_index < 2 ^ 32 ∧ i.post_index < 2 ^ 32 ∧ i.value < 2 ^ 32 ∧ i.kind < 2 ^ 8

end core.messaging

/-! ## Further parts of `backend.cpp` -/

namespace backends.multi_threaded_cpu

open core.messaging backends.cpu

/-- The pending-impact queue `SynapticMessageQueue` of a projection, an
`unordered_map` from step to `SynapticImpactMessage`: `find(step)` is the
application to `step`. -/
abbrev SynapticMessageQueue := Nat → Option SynapticImpactMessage

/-- The call `msg_queue.erase(msg_iter)` for the entry keyed `step`. -/
def SynapticMessageQueue.erase (msg_queue : SynapticMessageQueue) (step : Nat) :
    SynapticMessageQueue :=
  fun key => if key = step then none else msg_queue key

/-- The struct `ProjectionWrapper`: the projection `arg_` and its pending-impact queue
`messages_`. -/
structure ProjectionWrapper (F : Type) where
  arg_ : Projection F
  messages_ : SynapticMessageQueue

/-- The message types a subscription can be for. -/
inductive MessageKind where
  | SpikeMessage
  | SynapticImpactMessage
deriving DecidableEq, Repr

/-- One call `message_endpoint_.subscribe<kind>(receiver, senders)`; the endpoint
itself is not among the sources, so its calls are recorded in the order in which
they are issued. -/
structure SubscribeCall where
  kind : MessageKind
  receiver : UID
  senders : List UID
deriving DecidableEq, Repr

/-- Method `MultiThreadedCPUBackend::init`: the subscribe calls issued for the loaded
projections, in order. -/
def init {F : Type} : List (ProjectionWrapper F) → List SubscribeCall
  | [] => []
  | p :: projections_ =>
    let pre_uid := p.arg_.presynaptic_uid_
    let post_uid := p.arg_.postsynaptic_uid_
    let this_uid := p.arg_.uid_
    (if pre_uid.to_bool then [⟨.SpikeMessage, this_uid, [pre_uid]⟩] else []) ++
      (if post_uid.to_bool then [⟨.SynapticImpactMessage, post_uid, [this_uid]⟩] else []) ++
      init projections_

/-- The loop `for (index = start; index < size; index += per_thread) post(task(index))`:
the indexes for which a task is posted, in order; `none` when the loop has not
ended after `fuel` iterations. -/
def dispatch_loop (size per_thread : Nat) : Nat → Nat → Option (List Nat)
  | 0, index => if index < size then none else some []
  | fuel + 1, index =>
    if index < size then
      match dispatch_loop size per_thread fuel (index + per_thread) with
      | none => none
      | some indexes => some (index :: indexes)
    else some []

/-- The type of the kernel `calculate_projection_part(proj, msg, messages_, step_,
spike_index, spikes_per_thread_, ep_mutex_)`, which is not among the sources: it
may change the projection and its pending-impact queue. -/
abbrev ProjectionPart (F : Type) :=
  Projection F → SpikeMessage → SynapticMessageQueue → Nat → Nat → Nat →
    Projection F × SynapticMessageQueue

/-- What one iteration of the first loop of `calculate_projections` yields. -/
structure ProjectionStep (F : Type) where
  message_endpoint_ : MessageEndpoint
  projection : ProjectionWrapper F
  msg : SpikeMessage
  posted : List Nat

/-- One iteration of the first loop of `calculate_projections`: the inbox of the
projection is unloaded, the effective message is chosen, one kernel task is posted
for every `spike_index` of the dispatch loop, and `calc_pool_.join()` waits for
them; the tasks are taken to run in the order in which they were posted. -/
def calculate_projections_projection {F : Type} (calculate_projection_part : ProjectionPart F)
    (fuel step_ spikes_per_thread_ : Nat) (message_endpoint_ : MessageEndpoint)
    (projection : ProjectionWrapper F) : Option (ProjectionStep F) :=
  let uid := projection.arg_.uid_
  let (msg_buf, message_endpoint_) := message_endpoint_.unload_messages uid
  let msg : SpikeMessage :=
    match msg_buf with
    | [] => { header_ := ⟨UID.nil, step_⟩, neuron_indexes_ := [] }
    | msg :: _ => msg
  match dispatch_loop msg.neuron_indexes_.length spikes_per_thread_ fuel 0 with
  | none => none
  | some posted =>
    let result := posted.foldl (fun (acc : Projection F × SynapticMessageQueue) spike_index =>
      calculate_projection_part acc.1 msg acc.2 step_ spike_index spikes_per_thread_)
      (projection.arg_, projection.messages_)
    some { message_endpoint_ := message_endpoint_
           projection := { arg_ := result.1, messages_ := result.2 }
           msg := msg
           posted := posted }

/-- What the first loop of `calculate_projections` yields: the endpoint, the
projections, the vector `messages` and the posted task indexes per projection. -/
structure ProjectionsLoop (F : Type) where
  message_endpoint_ : MessageEndpoint
  projections_ : List (ProjectionWrapper F)
  messages : List SpikeMessage
  posted : List (List Nat)

/-- The first loop of `calculate_projections`, over the projections in order. -/
def calculate_projections_loop {F : Type} (calculate_projection_part : ProjectionPart F)
    (fuel step_ spikes_per_thread_ : Nat) :
    MessageEndpoint → List (ProjectionWrapper F) → Option (ProjectionsLoop F)
  | message_endpoint_, [] =>
    some { message_endpoint_ := message_endpoint_, projections_ := [], messages := [],
           posted := [] }
  | message_endpoint_, projection :: projections_ =>
    match calculate_projections_projection calculate_projection_part fuel step_
        spikes_per_thread_ message_endpoint_ projection with
    | none => none
    | some r =>
      match calculate_projections_loop calculate_projection_part fuel step_
          spikes_per_thread_ r.message_endpoint_ projections_ with
      | none => none
      | some rest =>
        some { message_endpoint_ := rest.message_endpoint_
               projections_ := r.projection :: rest.projections_
               messages := r.msg :: rest.messages
               posted := r.posted :: rest.posted }

/-- The sending loop of `calculate_projections`: for every projection the entry of its
pending queue keyed `step_`, if there is one, is sent and erased.  Yields the
projections and the messages passed to `send_message`, in order. -/
def calculate_projections_send {F : Type} (step_ : Nat) :
    List (ProjectionWrapper F) → List (ProjectionWrapper F) × List SynapticImpactMessage
  | [] => ([], [])
  | projection :: projections_ =>
    let rest := calculate_projections_send step_ projections_
    match projection.messages_ step_ with
    | none => (projection :: rest.1, rest.2)
    | some msg =>
      ({ projection with messages_ := projection.messages_.erase step_ } :: rest.1,
        msg :: rest.2)

/-- What `calculate_projections` yields: the endpoint after the unloads, the
projections, the vector `messages`, the posted task indexes and the impact
messages sent. -/
structure ProjectionsResult (F : Type) where
  message_endpoint_ : MessageEndpoint
  projections_ : List (ProjectionWrapper F)
  messages : List SpikeMessage
  posted : List (List Nat)
  sent : List SynapticImpactMessage

/-- Method `MultiThreadedCPUBackend::calculate_projections`: the first loop, then the
sending loop. -/
def calculate_projections {F : Type} (calculate_projection_part : ProjectionPart F)
    (fuel step_ spikes_per_thread_ : Nat) (message_endpoint_ : MessageEndpoint)
    (projections_ : List (ProjectionWrapper F)) : Option (ProjectionsResult F) :=
  match calculate_projections_loop calculate_projection_part fuel step_ spikes_per_thread_
      message_endpoint_ projections_ with
  | none => none
  | some r =>
    let sending := calculate_projections_send step_ r.projections_
    some { message_endpoint_ := r.message_endpoint_
           projections_ := sending.1
           messages := r.messages
           posted := r.posted
           sent := sending.2 }

/-- The sending loop at the end of `calculate_populations`: `populations_[i]` is given
by its UID together with `spike_container[i]`; for every non-empty spike list one
`SpikeMessage` with header `(uid, step_)` is passed to `send_message`. -/
def calculate_populations_send (step_ : Nat) : List (UID × List Nat) → List SpikeMessage
  | [] => []
  | (sender_uid, spikes) :: populations_ =>
    if spikes.isEmpty then calculate_populations_send step_ populations_
    else
      { header_ := ⟨sender_uid, step_⟩, neuron_indexes_ := spikes } ::
        calculate_populations_send step_ populations_

/-- The backend as far as `step` is concerned: the counter `step_` and the rest of the
state.  The declaration of `step_` is in the absent backend header; the spec has
`step ∈ ℕ`. -/
structure Backend (σ : Type) where
  step_ : Nat
  state : σ

/-- The four routines `step` calls, acting on the rest of the state; `none` stands
for a call that does not return.  The two calculations read the counter and do
not write it: their bodies use `step_` as an argument only, and routing and
receiving are calls to the bus and the endpoint. -/
structure StepPhases (σ : Type) where
  calculate_populations : Nat → σ → Option σ
  calculate_projections : Nat → σ → Option σ
  route_messages : σ → Option σ
  receive_all_messages : σ → Option σ

/-- Method `MultiThreadedCPUBackend::step`. -/
def step {σ : Type} (phases : StepPhases σ) (self : Backend σ) : Option (Backend σ) :=
  match phases.calculate_populations self.step_ self.state with
  | none => none
  | some state =>
    match phases.route_messages state with
    | none => none
    | some state =>
      match phases.receive_all_messages state with
      | none => none
      | some state =>
        match phases.calculate_projections self.step_ state with
        | none => none
        | some state =>
          match phases.route_messages state with
          | none => none
          | some state =>
            match phases.receive_all_messages state with
            | none => none
            | some state => some { step_ := self.step_ + 1, state := state }

/-- The result of `n` calls of `step` in a row. -/
def steps {σ : Type} (phases : StepPhases σ) : Nat → Backend σ → Option (Backend σ)
  | 0, self => some self
  | n + 1, self =>
    match step phases self with
    | none => none
    | some self => steps phases n self

end backends.multi_threaded_cpu

/-! ## `knp/neuron-traits/blifat.h` -/

namespace neuron_traits

/-- The value of `std::numeric_limits<std::size_t>::infinity()`: `size_t` has no
infinity (`has_infinity` is false), and for such a type the function of the C++
standard library returns `T()`, which is 0. -/
def numeric_limits_size_t_infinity : Nat := 0

/-- The value of `std::numeric_limits<std::size_t>::max()`, the largest `size_t`
(64 bits). -/
def numeric_limits_size_t_max : Nat := 2 ^ 64 - 1

/-- The value of `std::numeric_limits<int64_t>::max()`. -/
def numeric_limits_int64_t_max : Int := 2 ^ 63 - 1

namespace default_values

/-- The constant `default_values<BLIFATNeuron>::steps_before_firing_`. -/
def steps_before_firing_ : Nat := numeric_limits_size_t_infinity

/-- The constant `default_values<BLIFATNeuron>::reverse_inhibitory_potential_`,
which is -0.3. -/
def reverse_inhibitory_potential_ (F : Type) [LinearOrderedField F] : F := -3 / 10

/-- The constant `default_values<BLIFATNeuron>::min_potential_`, which is -1.0e9. -/
def min_potential_ (F : Type) [LinearOrderedField F] : F := -1000000000

/-- The constant `default_values<BLIFATNeuron>::activation_threshold_`. -/
def activation_threshold_ (F : Type) [LinearOrderedField F] : F := 1

/-- The constant `default_values<BLIFATNeuron>::total_blocking_period_`. -/
def total_blocking_period_ : Int := numeric_limits_int64_t_max

end default_values

/-- The struct `neuron_parameters<BLIFATNeuron>` with its default member
initialisers; `{}` is the default-constructed record. -/
structure neuron_parameters (F : Type) [LinearOrderedField F] where
  n_time_steps_since_last_firing_ : Nat := default_values.steps_before_firing_
  activation_threshold_ : F := default_values.activation_threshold_ F
  dynamic_threshold_ : F := 0
  threshold_decay_ : F := 0
  threshold_increment_ : F := 0
  postsynaptic_trace_ : F := 0
  postsynaptic_trace_decay_ : F := 0
  postsynaptic_trace_increment_ : F := 0
  inhibitory_conductance_ : F := 0
  inhibitory_conductance_decay_ : F := 0
  potential_ : F := 0
  pre_impact_potential_ : F := 0
  potential_decay_ : F := 0
  bursting_phase_ : Nat := 0
  bursting_period_ : Nat := 0
  reflexive_weight_ : F := 0
  reversive_inhibitory_potential_ : F := default_values.reverse_inhibitory_potential_ F
  absolute_refractory_period_ : Nat := 0
  potential_reset_value_ : F := 0
  min_potential_ : F := default_values.min_potential_ F
  total_blocking_period_ : Int := default_values.total_blocking_period_
  dopamine_value_ : F := 0

/-- Modelled from the spec: the refractory condition of the neuron kernel, which is
not among the sources: `n_time_steps_since_last_firing < absolute_refractory_period`. -/
def neuron_parameters.is_refractory {F : Type} [LinearOrderedField F]
    (neuron : neuron_parameters F) : Bool :=
  decide (neuron.n_time_steps_since_last_firing_ < neuron.absolute_refractory_period_)

end neuron_traits

/-! ## The dispatch loops of `calculate_populations` -/

namespace backends.multi_threaded_cpu

/-- A task in the queue of `calc_pool_`, posted by a dispatch loop of
`calculate_populations`.  The posted lambda captures with `[&]`: its `pop` refers
to the population (number `pop` in `populations_`), and its `neuron_index` refers
to the by-copy member `neuron_index` of the closure
`[this, neuron_index](auto &pop) {...}` that posted the task (number `closure` in
the order of creation); the task holds no copy of the index. -/
structure PostedTask where
  pop : Nat
  closure : Nat
deriving DecidableEq, Repr

/-- A call of the kernel (`calculate_neurons_state_part` or
`calculate_neurons_post_input_state_part`, not among the sources) made by a task
that ran: the population and the `neuron_index` the task read through its
reference.  The index is `none` when the closure it refers to was already
destroyed: the read is undefined behaviour and the language gives it no value. -/
structure KernelCall where
  pop : Nat
  neuron_index : Option Nat
deriving DecidableEq, Repr

/-- The memory and the thread pool during a dispatch loop nest of
`calculate_populations`:
* `closures`: for every temporary closure `[this, neuron_index](auto &pop) {...}`
  handed to `std::visit` so far, in the order of creation, its member
  `neuron_index`, or `none` once the closure is destroyed;
* `posted`: the tasks posted to `calc_pool_` and not yet run, oldest first;
* `calls`: the kernel calls of the tasks that ran, in the order they ran. -/
structure DispatchState where
  closures : List (Option Nat)
  posted : List PostedTask
  calls : List KernelCall
deriving DecidableEq, Repr

/-- A worker of `calc_pool_` takes the oldest posted task and runs it: the task
reads `neuron_index` through its reference and calls the kernel. -/
def DispatchState.run_task (state : DispatchState) : DispatchState :=
  match state.posted with
  | [] => state
  | task :: posted =>
    { state with
      posted := posted
      calls := state.calls ++ [⟨task.pop, (state.closures[task.closure]?).join⟩] }

/-- The workers run `count` of the posted tasks, oldest first. -/
def DispatchState.run_tasks : Nat → DispatchState → DispatchState
  | 0, state => state
  | count + 1, state => DispatchState.run_tasks count state.run_task

/-- Call `calc_pool_.join()`: every posted task runs. -/
def DispatchState.join (state : DispatchState) : DispatchState :=
  state.run_tasks state.posted.length

/-- One call
`std::visit([this, neuron_index](auto &pop) { post(calc_pool_, [&]() {...}); }, population)`
of a dispatch loop: the temporary closure is created with a copy of the loop
variable, the task is posted with a reference into that closure, the workers run
`running` tasks while the call is still executing, and the closure is destroyed
at the end of the call expression. -/
def DispatchState.visit (state : DispatchState) (running pop neuron_index : Nat) :
    DispatchState :=
  let closure := state.closures.length
  let posting : DispatchState :=
    { state with
      closures := state.closures ++ [some neuron_index]
      posted := state.posted ++ [⟨pop, closure⟩] }
  let returning := posting.run_tasks running
  { returning with closures := returning.closures.set closure none }

/-- The loop `for (size_t neuron_index = 0; neuron_index < pop_size;
neuron_index += neurons_per_thread_)` of the first loop nest of
`calculate_populations` (pre-message neuron state) for the population number
`pop`; `schedule c` is the number of tasks the workers run during the `std::visit`
call that creates the closure number `c`; `none` when the loop has not ended after
`fuel` iterations. -/
def calculate_populations_pre_message_loop (schedule : Nat → Nat)
    (pop pop_size neurons_per_thread_ : Nat) : Nat → Nat → DispatchState → Option DispatchState
  | 0, neuron_index, state => if neuron_index < pop_size then none else some state
  | fuel + 1, neuron_index, state =>
    if neuron_index < pop_size then
      calculate_populations_pre_message_loop schedule pop pop_size neurons_per_thread_ fuel
        (neuron_index + neurons_per_thread_)
        (state.visit (schedule state.closures.length) pop neuron_index)
    else some state

/-- The loop `for (auto &population : populations_)` around the first dispatch loop;
the populations are given by their sizes, `pop` is the number of the first one. -/
def calculate_populations_pre_message_nest (schedule : Nat → Nat)
    (neurons_per_thread_ fuel : Nat) : List Nat → Nat → DispatchState → Option DispatchState
  | [], _, state => some state
  | pop_size :: populations_, pop, state =>
    match calculate_populations_pre_message_loop schedule pop pop_size neurons_per_thread_
        fuel 0 state with
    | none => none
    | some state =>
      calculate_populations_pre_message_nest schedule neurons_per_thread_ fuel populations_
        (pop + 1) state

/-- The first phase of `calculate_populations`: the first loop nest and the
`calc_pool_.join()` after it. -/
def calculate_populations_pre_message (schedule : Nat → Nat) (neurons_per_thread_ fuel : Nat)
    (populations_ : List Nat) : Option DispatchState :=
  (calculate_populations_pre_message_nest schedule neurons_per_thread_ fuel populations_ 0
    ⟨[], [], []⟩).map DispatchState.join

/-- The loop `for (size_t neuron_index = 0; neuron_index < population_size;
neuron_index += neurons_per_thread_)` of the third loop nest of
`calculate_populations` (post-input state and outputs) for the population number
`pop_index`; `do_work` captures with `[&]` and is copied into the pool. -/
def calculate_populations_post_input_loop (schedule : Nat → Nat)
    (pop_index population_size neurons_per_thread_ : Nat) :
    Nat → Nat → DispatchState → Option DispatchState
  | 0, neuron_index, state => if neuron_index < population_size then none else some state
  | fuel + 1, neuron_index, state =>
    if neuron_index < population_size then
      calculate_populations_post_input_loop schedule pop_index population_size
        neurons_per_thread_ fuel (neuron_index + neurons_per_thread_)
        (state.visit (schedule state.closures.length) pop_index neuron_index)
    else some state

/-- The loop `for (size_t pop_index = 0; pop_index < populations_.size(); ++pop_index)`
around the third dispatch loop, from `pop_index` on; the populations are given by
their sizes. -/
def calculate_populations_post_input_nest (schedule : Nat → Nat)
    (neurons_per_thread_ fuel : Nat) : List Nat → Nat → DispatchState → Option DispatchState
  | [], _, state => some state
  | population_size :: populations_, pop_index, state =>
    match calculate_populations_post_input_loop schedule pop_index population_size
        neurons_per_thread_ fuel 0 state with
    | none => none
    | some state =>
      calculate_populations_post_input_nest schedule neurons_per_thread_ fuel populations_
        (pop_index + 1) state

/-- The third phase of `calculate_populations`: the third loop nest and the
`calc_pool_.join()` after it. -/
def calculate_populations_post_input (schedule : Nat → Nat) (neurons_per_thread_ fuel : Nat)
    (populations_ : List Nat) : Option DispatchState :=
  (calculate_populations_post_input_nest schedule neurons_per_thread_ fuel populations_ 0
    ⟨[], [], []⟩).map DispatchState.join

end backends.multi_threaded_cpu

/-! ## Sequences of the two operations on the spike-time queues -/

namespace backends.cpu

open core.messaging

/-- One of the two routines that change the spike-time queues: a call of
`append_spike_times` with its arguments, or a call of
`update_projection_weights_additive_stdp`. -/
inductive QueueOperation (F : Type) where
  | append (message : SpikeMessage) (synapse_index_getter : Projection F → Nat → List Nat)
      (spike_queue : SpikeQueue)
  | update

/-- The projection after one of the two routines. -/
def QueueOperation.run {F : Type} [LinearOrderedField F] (exp : F → F)
    (projection : Projection F) : QueueOperation F → Except AssertionFailure (Projection F)
  | .append message synapse_index_getter spike_queue =>
    .ok (append_spike_times projection message synapse_index_getter spike_queue)
  | .update => update_projection_weights_additive_stdp exp projection

/-- The projection after a sequence of the two routines, in order. -/
def run_queue_operations {F : Type} [LinearOrderedField F] (exp : F → F) :
    Projection F → List (QueueOperation F) → Except AssertionFailure (Projection F)
  | projection, [] => .ok projection
  | projection, operation :: operations =>
    match operation.run exp projection with
    | .error e => .error e
    | .ok projection => run_queue_operations exp projection operations

end backends.cpu

/-! ## Auxiliary definitions for the statements -/

namespace backends.cpu

open core.messaging

/-- The weight change in the words of the specification: the sum over every pair
`(t_f ∈ pre, t_n ∈ post)` of the kernel at the signed difference `t_n − t_f`. -/
def stdp_delta_w_signed_spec {F : Type} [LinearOrderedField F] (exp : F → F)
    (formula : STDPFormula F) (pre post : List Nat) : F :=
  (pre.map fun t_f =>
    (post.map fun t_n => formula.stdp_w exp (((t_n : Int) - (t_f : Int) : Int) : F)).sum).sum

/-- The rule with `k` copies of the step `t`, as a `uint32_t`, appended to the
selected queue. -/
def STDPAdditiveRule.extend (rule : STDPAdditiveRule) (spike_queue : SpikeQueue)
    (k t : Nat) : STDPAdditiveRule :=
  match spike_queue with
  | .presynaptic_spike_times_ =>
    { rule with
      presynaptic_spike_times_ := rule.presynaptic_spike_times_ ++ List.replicate k (t % 2 ^ 32) }
  | .postsynaptic_spike_times_ =>
    { rule with
      postsynaptic_spike_times_ := rule.postsynaptic_spike_times_ ++ List.replicate k (t % 2 ^ 32) }

/-- The synapse with `k` copies of the step `t` appended to the selected queue. -/
def Synapse.extend {F : Type} (s : Synapse F) (spike_queue : SpikeQueue) (k t : Nat) :
    Synapse F :=
  { s with params_ := { s.params_ with rule_ := s.params_.rule_.extend spike_queue k t } }

/-- What `append_spike_times` with the postsynaptic index does to one synapse: the
loop over the neuron indexes of the message, restricted to this synapse. -/
def append_spike_times_synapse {F : Type} (message : SpikeMessage) (spike_queue : SpikeQueue)
    (neuron_indexes : List Nat) (s : Synapse F) : Synapse F :=
  neuron_indexes.foldl (fun s neuron_index =>
    if s.params_.post_id = neuron_index then append_spike_time message spike_queue s else s) s

/-- Example: a projection with the single synapse 0 → 1 (`tau_plus = tau_minus = 1`,
empty queues) whose table registers the sender 2 with the given mode. -/
def single_synapse_projection (processing_type : ProcessingType) : Projection ℚ :=
  { uid_ := ⟨1⟩, presynaptic_uid_ := ⟨2⟩, postsynaptic_uid_ := ⟨3⟩
    parameters_ := [⟨⟨0, 1, 1 / 2, 1, ⟨1, 1, [], []⟩⟩⟩]
    stdp_populations_ := [(⟨2⟩, processing_type)] }

/-- Example: a synapse 0 → 0 of weight 1/2 with `tau_plus = tau_minus = 1` and the
given queues. -/
def queue_synapse (F : Type) [LinearOrderedField F] (pre post : List Nat) : Synapse F :=
  ⟨⟨0, 0, 1 / 2, 1, ⟨1, 1, pre, post⟩⟩⟩

/-- Example: a projection of two synapses, the first with the given queues, the
second with the queues `[5]` and `[]`. -/
def two_synapse_projection (F : Type) [LinearOrderedField F] (pre post : List Nat) :
    Projection F :=
  { uid_ := ⟨1⟩, presynaptic_uid_ := ⟨2⟩, postsynaptic_uid_ := ⟨3⟩
    parameters_ := [queue_synapse F pre post, queue_synapse F [5] []]
    stdp_populations_ := [] }

end backends.cpu

namespace backends.multi_threaded_cpu

/-- Example: an endpoint whose inbox for the receiver 1 holds two spike messages of
the sender 2, with the neuron indexes `[0]` and `[1]`; every other inbox is empty. -/
def two_message_endpoint : MessageEndpoint :=
  { spike_inbox := fun uid =>
      if uid = ⟨1⟩ then [⟨⟨⟨2⟩, 5⟩, [0]⟩, ⟨⟨⟨2⟩, 5⟩, [1]⟩] else [] }

end backends.multi_threaded_cpu

namespace core

/-- Example: a string form of UIDs that tells any two UIDs apart (`tag` copies of the
letter `u`). -/
def example_uid_string (uid : UID) : String := String.mk (List.replicate uid.tag 'u')

end core

namespace backends.multi_threaded_cpu

open core.messaging backends.cpu

/-- Example: a projection wrapper with the given UIDs, no synapse and the given
pending queue. -/
def example_wrapper (uid pre_uid post_uid : UID) (messages_ : SynapticMessageQueue) :
    ProjectionWrapper ℚ :=
  { arg_ := { uid_ := uid, presynaptic_uid_ := pre_uid, postsynaptic_uid_ := post_uid
              parameters_ := [], stdp_populations_ := [] }
    messages_ := messages_ }

/-- Example: an impact message of the sender `uid` with the given send time and no
impact. -/
def example_impact_message (uid : UID) (send_time : Nat) : SynapticImpactMessage :=
  { header_ := ⟨uid, send_time⟩, target := ⟨3⟩, impacts_ := [] }

/-- Example: a pending queue with entries for the steps 5 and 6. -/
def example_queue : SynapticMessageQueue :=
  fun key =>
    if key = 5 then some (example_impact_message ⟨1⟩ 5)
    else if key = 6 then some (example_impact_message ⟨1⟩ 6)
    else none

/-- Example: phases of `step` that return and leave the rest of the state as it is. -/
def idle_phases : StepPhases Unit :=
  { calculate_populations := fun _ state => some state
    calculate_projections := fun _ state => some state
    route_messages := fun state => some state
    receive_all_messages := fun state => some state }

end backends.multi_threaded_cpu

namespace backends.cpu

open core.messaging

/-- The synapse list `parameters'` is `parameters` with, at every place, some copies
of the step `t` appended to the selected queue, no more than the room the queue
had below `tau_minus_ + tau_plus_`. -/
def grown_within_capacity {F : Type} (spike_queue : SpikeQueue) (t : Nat)
    (parameters parameters' : List (Synapse F)) : Prop :=
  parameters'.length = parameters.length ∧
  ∀ (j : Nat) (s : Synapse F), parameters[j]? = some s →
    ∃ k, k ≤ s.params_.rule_.tau_minus_ + s.params_.rule_.tau_plus_
          - (s.params_.rule_.queue spike_queue).length ∧
      parameters'[j]? = some (s.extend spike_queue k t)

/-- Both queues of every synapse hold at most `tau_plus_ + tau_minus_` entries. -/
def queues_within_capacity {F : Type} (parameters : List (Synapse F)) : Prop :=
  ∀ s ∈ parameters,
    s.params_.rule_.presynaptic_spike_times_.length
      ≤ s.params_.rule_.tau_plus_ + s.params_.rule_.tau_minus_ ∧
    s.params_.rule_.postsynaptic_spike_times_.length
      ≤ s.params_.rule_.tau_plus_ + s.params_.rule_.tau_minus_

end backends.cpu

end knp

/-! # Theorems -/

namespace knp

open core framework core.messaging backends.cpu backends.multi_threaded_cpu

/-! ## Lemmas on the weight update -/

section update_lemmas

variable {F : Type} [LinearOrderedField F]

/-- A synapse below the update threshold is returned unchanged. -/
theorem update_synapse_below_threshold (exp : F → F) (s : Synapse F)
    (h : s.params_.rule_.presynaptic_spike_times_.length
          < s.params_.rule_.tau_plus_ + s.params_.rule_.tau_minus_ ∨
        s.params_.rule_.postsynaptic_spike_times_.length
          < s.params_.rule_.tau_plus_ + s.params_.rule_.tau_minus_) :
    update_synapse_additive_stdp exp s = .ok s := by
  unfold update_synapse_additive_stdp
  have : ¬ (s.params_.rule_.presynaptic_spike_times_.length
            ≥ s.params_.rule_.tau_plus_ + s.params_.rule_.tau_minus_ ∧
          s.params_.rule_.postsynaptic_spike_times_.length
            ≥ s.params_.rule_.tau_plus_ + s.params_.rule_.tau_minus_) := by omega
  simp only [this, if_false]

/-- A successful run of the synapse loop updates every synapse by the loop body. -/
theorem update_synapses_ok (exp : F → F) (l : List (Synapse F)) :
    ∀ l' : List (Synapse F), update_synapses_additive_stdp exp l = .ok l' →
      l'.length = l.length ∧
      ∀ (i : Nat) (s : Synapse F), l[i]? = some s →
        ∃ s', update_synapse_additive_stdp exp s = .ok s' ∧ l'[i]? = some s' := by
  induction l with
  | nil =>
    intro l' h
    simp only [update_synapses_additive_stdp, Except.ok.injEq] at h
    subst h
    simp
  | cons a l ih =>
    intro l' h
    unfold update_synapses_additive_stdp at h
    cases ha : update_synapse_additive_stdp exp a with
    | error e => simp [ha] at h
    | ok a' =>
      cases hl : update_synapses_additive_stdp exp l with
      | error e => simp [ha, hl] at h
      | ok l'' =>
        simp only [ha, hl, Except.ok.injEq] at h
        subst h
        obtain ⟨hlen, hget⟩ := ih l'' hl
        refine ⟨by simp [hlen], ?_⟩
        intro i s hs
        cases i with
        | zero =>
          simp only [List.getElem?_cons_zero, Option.some.injEq] at hs
          subst hs
          exact ⟨a', ha, by simp⟩
        | succ i =>
          simp only [List.getElem?_cons_succ] at hs ⊢
          exact hget i s hs

/-- The synapse loop succeeds when the loop body succeeds on every synapse. -/
theorem update_synapses_total (exp : F → F) :
    ∀ (l : List (Synapse F)),
      (∀ s ∈ l, ∃ s', update_synapse_additive_stdp exp s = .ok s') →
      ∃ l', update_synapses_additive_stdp exp l = .ok l'
  | [], _ => ⟨[], rfl⟩
  | a :: l, h => by
    obtain ⟨a', ha⟩ := h a (by simp)
    obtain ⟨l', hl⟩ := update_synapses_total exp l (fun s hs => h s (by simp [hs]))
    exact ⟨a' :: l', by simp [update_synapses_additive_stdp, ha, hl]⟩

/-- A successful projection update is a successful synapse loop. -/
theorem update_projection_ok (exp : F → F) (p p' : Projection F)
    (h : update_projection_weights_additive_stdp exp p = .ok p') :
    update_synapses_additive_stdp exp p.parameters_ = .ok p'.parameters_ ∧
    p'.uid_ = p.uid_ ∧ p'.presynaptic_uid_ = p.presynaptic_uid_ ∧
    p'.postsynaptic_uid_ = p.postsynaptic_uid_ ∧
    p'.stdp_populations_ = p.stdp_populations_ := by
  unfold update_projection_weights_additive_stdp at h
  cases hl : update_synapses_additive_stdp exp p.parameters_ with
  | error e => simp [hl] at h
  | ok l =>
    simp only [hl, Except.ok.injEq] at h
    subst h
    simp

/-- The update of a synapse whose queues have the same length at or above the
threshold. -/
theorem update_synapse_fires (exp : F → F) (s : Synapse F)
    (hpre : s.params_.rule_.tau_plus_ + s.params_.rule_.tau_minus_
      ≤ s.params_.rule_.presynaptic_spike_times_.length)
    (hpost : s.params_.rule_.tau_plus_ + s.params_.rule_.tau_minus_
      ≤ s.params_.rule_.postsynaptic_spike_times_.length)
    (heq : s.params_.rule_.presynaptic_spike_times_.length
      = s.params_.rule_.postsynaptic_spike_times_.length) :
    ∃ delta_w,
      (STDPFormula.mk (s.params_.rule_.tau_plus_ : F) (s.params_.rule_.tau_minus_ : F) 1 1).stdp_delta_w
        exp s.params_.rule_.presynaptic_spike_times_ s.params_.rule_.postsynaptic_spike_times_
        = .ok delta_w ∧
      update_synapse_additive_stdp exp s = .ok
        { params_ :=
            { s.params_ with
              weight_ := s.params_.weight_ + delta_w
              rule_ := { s.params_.rule_ with presynaptic_spike_times_ := [],
                                               postsynaptic_spike_times_ := [] } } } := by
  have hne : ¬ (s.params_.rule_.presynaptic_spike_times_.length
      ≠ s.params_.rule_.postsynaptic_spike_times_.length) := by simpa using heq
  unfold update_synapse_additive_stdp STDPFormula.call STDPFormula.stdp_delta_w
  simp only [hne, if_false, ge_iff_le, hpre, hpost, and_self, if_true]
  exact ⟨_, rfl, rfl⟩

end update_lemmas

/-! ## Lemmas on spike registration -/

section register_lemmas

variable {F : Type}

/-- Modifying the element right after a prefix. -/
theorem modify_append_length {α : Type} (f : α → α) (front : List α) (a : α) (l : List α) :
    List.modify f front.length (front ++ a :: l) = front ++ f a :: l := by
  induction front with
  | nil => simp
  | cons b front ih => simp [ih]

/-- Modifying a list at every index that `indexes_from` returns is a map that
changes exactly the elements satisfying the predicate. -/
theorem foldl_modify_indexes_from {α : Type} (f : α → α) (pred : α → Bool) (l : List α) :
    ∀ front : List α,
      (indexes_from pred front.length l).foldl (fun L i => List.modify f i L) (front ++ l)
        = front ++ l.map (fun a => if pred a then f a else a) := by
  induction l with
  | nil => intro front; simp [indexes_from]
  | cons a l ih =>
    intro front
    have hlen : front.length + 1 = (front ++ [f a]).length := by simp
    have hlen' : front.length + 1 = (front ++ [a]).length := by simp
    by_cases hp : pred a = true
    · simp only [indexes_from, hp, if_true, List.foldl_cons, List.map_cons]
      rw [modify_append_length, hlen]
      have := ih (front ++ [f a])
      simpa using this
    · simp only [indexes_from, hp, if_false, List.map_cons, Bool.false_eq_true]
      rw [hlen']
      have := ih (front ++ [a])
      simpa using this

/-- The loop over synapse indexes only touches the synapse list of the projection. -/
theorem foldl_modify_projection (f : Synapse F → Synapse F) (idxs : List Nat) :
    ∀ projection : Projection F,
      idxs.foldl (fun projection synapse_index =>
          { projection with
            parameters_ := List.modify f synapse_index projection.parameters_ }) projection
        = { projection with
            parameters_ := idxs.foldl (fun L i => List.modify f i L) projection.parameters_ } := by
  induction idxs with
  | nil => intro projection; rfl
  | cons i idxs ih => intro projection; simp [ih]

/-- With the postsynaptic index as getter, `append_spike_times` maps every synapse by
the per-synapse loop over the neuron indexes of the message. -/
theorem append_spike_times_postsynaptic_index (message : SpikeMessage)
    (spike_queue : SpikeQueue) (projection : Projection F) :
    append_spike_times projection message Projection.get_by_postsynaptic_neuron spike_queue
      = { projection with
          parameters_ := projection.parameters_.map
            (append_spike_times_synapse message spike_queue message.neuron_indexes_) } := by
  unfold append_spike_times
  generalize message.neuron_indexes_ = ns
  induction ns generalizing projection with
  | nil =>
    have hid : append_spike_times_synapse message spike_queue ([] : List Nat)
        = (id : Synapse F → Synapse F) := by
      funext s; rfl
    simp [hid]
  | cons n ns ih =>
    simp only [List.foldl_cons]
    rw [ih, foldl_modify_projection]
    have h := foldl_modify_indexes_from (append_spike_time message spike_queue)
      (fun s : Synapse F => decide (s.params_.post_id = n)) projection.parameters_ []
    simp only [List.length_nil, List.nil_append] at h
    simp only [Projection.get_by_postsynaptic_neuron, h, List.map_map]
    congr 1
    apply List.map_congr_left
    intro s _
    simp [append_spike_times_synapse]

/-- Appending no copy changes nothing. -/
theorem extend_zero (s : Synapse F) (spike_queue : SpikeQueue) (t : Nat) :
    s.extend spike_queue 0 t = s := by
  cases spike_queue <;> simp [Synapse.extend, STDPAdditiveRule.extend]

/-- Appending `j` and then `k` copies appends `j + k` copies. -/
theorem extend_extend (s : Synapse F) (spike_queue : SpikeQueue) (j k t : Nat) :
    (s.extend spike_queue j t).extend spike_queue k t = s.extend spike_queue (j + k) t := by
  cases spike_queue <;>
    simp only [Synapse.extend, STDPAdditiveRule.extend, List.append_assoc,
      List.append_replicate_replicate]

/-- An extension keeps the ids, the weight, the delay and the window sizes, and
lengthens the selected queue by the number of copies. -/
theorem extend_fields (s : Synapse F) (spike_queue : SpikeQueue) (k t : Nat) :
    (s.extend spike_queue k t).params_.post_id = s.params_.post_id ∧
    (s.extend spike_queue k t).params_.pre_id = s.params_.pre_id ∧
    (s.extend spike_queue k t).params_.weight_ = s.params_.weight_ ∧
    (s.extend spike_queue k t).params_.delay_ = s.params_.delay_ ∧
    (s.extend spike_queue k t).params_.rule_.tau_plus_ = s.params_.rule_.tau_plus_ ∧
    (s.extend spike_queue k t).params_.rule_.tau_minus_ = s.params_.rule_.tau_minus_ ∧
    ((s.extend spike_queue k t).params_.rule_.queue spike_queue).length
      = (s.params_.rule_.queue spike_queue).length + k := by
  cases spike_queue <;>
    simp [Synapse.extend, STDPAdditiveRule.extend, STDPAdditiveRule.queue]

/-- The innermost loop body appends one copy when there is room, none otherwise. -/
theorem append_spike_time_eq (message : SpikeMessage) (spike_queue : SpikeQueue)
    (s : Synapse F) :
    append_spike_time message spike_queue s
      = if (s.params_.rule_.queue spike_queue).length
            < s.params_.rule_.tau_minus_ + s.params_.rule_.tau_plus_
        then s.extend spike_queue 1 message.header_.send_time_ else s := by
  unfold append_spike_time
  cases spike_queue <;>
    simp [Synapse.extend, STDPAdditiveRule.extend, STDPAdditiveRule.push_back]

/-- Closed form of `append_spike_times` on one synapse: the selected queue grows by
as many copies of the send time as the message has neuron indexes equal to
`post_id`, up to the room left below `tau_minus_ + tau_plus_`. -/
theorem append_spike_times_synapse_eq (message : SpikeMessage) (spike_queue : SpikeQueue)
    (ns : List Nat) :
    ∀ s : Synapse F,
      append_spike_times_synapse message spike_queue ns s
        = s.extend spike_queue
            (min (ns.count s.params_.post_id)
              (s.params_.rule_.tau_minus_ + s.params_.rule_.tau_plus_
                - (s.params_.rule_.queue spike_queue).length))
            message.header_.send_time_ := by
  induction ns with
  | nil => intro s; simp [append_spike_times_synapse, extend_zero]
  | cons n ns ih =>
    intro s
    have hstep : append_spike_times_synapse message spike_queue (n :: ns) s
        = append_spike_times_synapse message spike_queue ns
            (if s.params_.post_id = n then append_spike_time message spike_queue s else s) := by
      simp [append_spike_times_synapse]
    rw [hstep]
    by_cases hn : s.params_.post_id = n
    · rw [if_pos hn, append_spike_time_eq]
      by_cases hroom : (s.params_.rule_.queue spike_queue).length
          < s.params_.rule_.tau_minus_ + s.params_.rule_.tau_plus_
      · rw [if_pos hroom, ih]
        obtain ⟨h1, -, -, -, h5, h6, h7⟩ :=
          extend_fields s spike_queue 1 message.header_.send_time_
        rw [h1, h5, h6, h7, extend_extend]
        congr 1
        rw [hn, List.count_cons_self]
        omega
      · rw [if_neg hroom, ih]
        congr 1
        omega
    · rw [if_neg hn, ih]
      congr 2
      rw [List.count_cons_of_ne hn]

/-- The four cases of the loop body of `register_additive_stdp_spikes`. -/
theorem register_message_cases (projection : Projection F) (msg : SpikeMessage) :
    (projection.stdp_populations_.lookup msg.header_.sender_uid_ = none →
      register_additive_stdp_spikes_message projection msg = .ok (projection, msg)) ∧
    (projection.stdp_populations_.lookup msg.header_.sender_uid_ = some .STDPOnly →
      register_additive_stdp_spikes_message projection msg = .ok
        ({ projection with
            parameters_ := projection.parameters_.map
              (append_spike_times_synapse msg .postsynaptic_spike_times_ msg.neuron_indexes_) },
          { msg with neuron_indexes_ := [] })) ∧
    (projection.stdp_populations_.lookup msg.header_.sender_uid_ = some .STDPAndSpike →
      register_additive_stdp_spikes_message projection msg = .ok
        ({ projection with
            parameters_ := (projection.parameters_.map
              (append_spike_times_synapse msg .postsynaptic_spike_times_ msg.neuron_indexes_)).map
              (append_spike_times_synapse msg .presynaptic_spike_times_ msg.neuron_indexes_) },
          msg)) ∧
    (projection.stdp_populations_.lookup msg.header_.sender_uid_ = some .SpikeOnly →
      ∃ e, register_additive_stdp_spikes_message projection msg = .error e) := by
  refine ⟨fun h => ?_, fun h => ?_, fun h => ?_, fun h => ?_⟩
  · simp [register_additive_stdp_spikes_message, h]
  · simp [register_additive_stdp_spikes_message, h, append_spike_times_postsynaptic_index]
  · simp [register_additive_stdp_spikes_message, h, append_spike_times_postsynaptic_index]
  · simp [register_additive_stdp_spikes_message, h]

/-- The loop body keeps the header of the message and the STDP-population table, and
treats the neuron indexes according to the mode of the sender. -/
theorem register_message_frame (projection projection' : Projection F) (msg msg' : SpikeMessage)
    (h : register_additive_stdp_spikes_message projection msg = .ok (projection', msg')) :
    projection'.stdp_populations_ = projection.stdp_populations_ ∧
    projection.stdp_populations_.lookup msg.header_.sender_uid_ ≠ some .SpikeOnly ∧
    msg'.header_ = msg.header_ ∧
    (projection.stdp_populations_.lookup msg.header_.sender_uid_ = some .STDPOnly →
      msg'.neuron_indexes_ = []) ∧
    (projection.stdp_populations_.lookup msg.header_.sender_uid_ = some .STDPAndSpike ∨
      projection.stdp_populations_.lookup msg.header_.sender_uid_ = none →
      msg'.neuron_indexes_ = msg.neuron_indexes_) := by
  obtain ⟨hnone, honly, hboth, hspike⟩ := register_message_cases projection msg
  cases hl : projection.stdp_populations_.lookup msg.header_.sender_uid_ with
  | none =>
    rw [hnone hl] at h
    cases h
    simp
  | some processing_type =>
    cases processing_type with
    | SpikeOnly =>
      obtain ⟨e, he⟩ := hspike hl
      rw [he] at h
      cases h
    | STDPOnly =>
      rw [honly hl] at h
      cases h
      simp
    | STDPAndSpike =>
      rw [hboth hl] at h
      cases h
      simp

/-- The postsynaptic queue is untouched by an extension of the presynaptic queue. -/
theorem append_presynaptic_keeps_postsynaptic (message : SpikeMessage) (ns : List Nat)
    (s : Synapse F) :
    (append_spike_times_synapse message .presynaptic_spike_times_ ns s).params_.post_id
      = s.params_.post_id ∧
    (append_spike_times_synapse message .presynaptic_spike_times_ ns
        s).params_.rule_.postsynaptic_spike_times_
      = s.params_.rule_.postsynaptic_spike_times_ := by
  rw [append_spike_times_synapse_eq]
  simp [Synapse.extend, STDPAdditiveRule.extend]

/-- The postsynaptic queue after an extension of the postsynaptic queue. -/
theorem append_postsynaptic_queue (message : SpikeMessage) (ns : List Nat) (s : Synapse F) :
    (append_spike_times_synapse message .postsynaptic_spike_times_ ns s).params_.post_id
      = s.params_.post_id ∧
    (append_spike_times_synapse message .postsynaptic_spike_times_ ns
        s).params_.rule_.postsynaptic_spike_times_
      = s.params_.rule_.postsynaptic_spike_times_ ++
        List.replicate
          (min (ns.count s.params_.post_id)
            (s.params_.rule_.tau_minus_ + s.params_.rule_.tau_plus_
              - s.params_.rule_.postsynaptic_spike_times_.length))
          (message.header_.send_time_ % 2 ^ 32) := by
  rw [append_spike_times_synapse_eq]
  simp [Synapse.extend, STDPAdditiveRule.extend, STDPAdditiveRule.queue]

end register_lemmas

/-! ## C1: `Subscription::add_senders` -/

/-- C1 (the code departs from the claim): `add_senders` returns 0 and leaves the
subscription as it was for every subscription and every list of UIDs; in
particular a subscription constructed with the sender list `[u]` has no sender,
and adding `[u]` to it reports 0 new senders and still leaves `has_sender u`
false. -/
theorem C1_add_senders_returns_zero_and_inserts_nothing :
    (∀ (T : Type) (s : Subscription T) (senders : List UID),
        s.add_senders senders = (s, 0)) ∧
    (∀ (T : Type) (str : UID → String) (r u : UID),
        (Subscription.ctor r [u] : Subscription T).senders_ = ∅ ∧
        Subscription.has_sender str (Subscription.ctor r [u] : Subscription T) u = false ∧
        ((Subscription.ctor r [] : Subscription T).add_senders [u]).2 = 0 ∧
        Subscription.has_sender str
          ((Subscription.ctor r [] : Subscription T).add_senders [u]).1 u = false) := by
  refine ⟨fun _ _ _ => rfl, fun T str r u => ⟨rfl, ?_, rfl, ?_⟩⟩ <;>
    simp [Subscription.has_sender, Subscription.ctor, Subscription.add_senders]

/-! ## C2: `Model::add_output_channel` -/

/-- C2 (the code departs from the claim): `add_output_channel` throws exactly when
the network has no projection with the UID its guard names, whatever populations
exist.  On a network with the population 1 and no projection it throws for the
population UID 1, whatever UID the guard names; read with the population UID in
the guard, on a network with the projection 2 and no population it does not throw
for the population UID 2 and adds the pair to the output channels. -/
theorem C2_add_output_channel_guard_is_projection_lookup :
    (∀ (str : UID → String) (projection_uid : UID) (m : Model) (channel_uid population_uid : UID),
        (∃ e, m.add_output_channel str projection_uid channel_uid population_uid = .error e) ↔
          m.network_.is_projection_exists projection_uid = false) ∧
    (∀ (str : UID → String) (projection_uid channel_uid : UID),
        (Model.mk ⟨[⟨1⟩], []⟩ 0 0).network_.is_population_exists ⟨1⟩ = true ∧
        ∃ e, (Model.mk ⟨[⟨1⟩], []⟩ 0 0).add_output_channel str projection_uid channel_uid ⟨1⟩
          = .error e) ∧
    (∀ (str : UID → String) (channel_uid : UID),
        (Model.mk ⟨[], [⟨2⟩]⟩ 0 0).network_.is_population_exists ⟨2⟩ = false ∧
        ((Model.mk ⟨[], [⟨2⟩]⟩ 0 0).add_output_channel str ⟨2⟩ channel_uid ⟨2⟩).toOption.map
          Model.get_output_channels = some {(channel_uid, ⟨2⟩)}) := by
  refine ⟨?_, ?_, ?_⟩
  · intro str projection_uid m channel_uid population_uid
    unfold Model.add_output_channel
    cases h : m.network_.is_projection_exists projection_uid <;> simp
  · intro str projection_uid channel_uid
    refine ⟨by decide, ?_⟩
    simp [Model.add_output_channel, Network.is_projection_exists]
  · intro str channel_uid
    refine ⟨by decide, ?_⟩
    simp [Model.add_output_channel, Network.is_projection_exists, Except.toOption,
      Model.get_output_channels]

/-! ## C3: presynaptic history in `register_additive_stdp_spikes` -/

/-- C3 (the code departs from the claim): for a sender with mode `STDPAndSpike` the
presynaptic queue is filled through the postsynaptic index.  With the single
synapse 0 → 1, a spike of neuron 0 at step 7 leaves `presynaptic_spike_times_`
empty although `pre_id = 0`, and a spike of neuron 1 puts 7 into it although
`pre_id ≠ 1`. -/
theorem C3_presynaptic_history_uses_postsynaptic_index :
    (register_additive_stdp_spikes (single_synapse_projection .STDPAndSpike)
        [⟨⟨⟨2⟩, 7⟩, [0]⟩]).map
        (fun r => r.1.parameters_.map fun s => s.params_.rule_.presynaptic_spike_times_)
      = .ok [[]] ∧
    (register_additive_stdp_spikes (single_synapse_projection .STDPAndSpike)
        [⟨⟨⟨2⟩, 7⟩, [1]⟩]).map
        (fun r => r.1.parameters_.map fun s => s.params_.rule_.presynaptic_spike_times_)
      = .ok [[7]] ∧
    (single_synapse_projection .STDPAndSpike).get_by_presynaptic_neuron 0 = [0] ∧
    (single_synapse_projection .STDPAndSpike).get_by_presynaptic_neuron 1 = [] := by
  refine ⟨?_, ?_, ?_, ?_⟩ <;> rfl

/-! ## C4: `STDPFormula::stdp_delta_w` -/

/-- C4 (the code departs from the claim): the difference `t_n - t_f` is taken in
`uint32_t`, so a pair with `t_n < t_f` reaches the kernel as a large positive
number.  In real arithmetic, with `tau_plus = tau_minus = 2` and
`a_plus = a_minus = 1`: for `pre = [1]`, `post = [0]` the code returns
`exp (-4294967295 / 2)` where the sum over the signed difference is
`exp (-1 / 2)`; and for `pre = post = [0, 1, 2, 3]` the value the code returns is
strictly smaller than the sum of the kernel over the signed differences. -/
theorem C4_delta_w_wraps_negative_differences :
    (STDPFormula.mk (2 : ℝ) 2 1 1).stdp_delta_w Real.exp [1] [0]
      = .ok (Real.exp (-4294967295 / 2)) ∧
    stdp_delta_w_signed_spec Real.exp (STDPFormula.mk (2 : ℝ) 2 1 1) [1] [0]
      = Real.exp (-1 / 2) ∧
    Real.exp (-4294967295 / 2) ≠ Real.exp (-1 / 2) ∧
    ∃ v, (STDPFormula.mk (2 : ℝ) 2 1 1).stdp_delta_w Real.exp [0, 1, 2, 3] [0, 1, 2, 3] = .ok v ∧
      v < stdp_delta_w_signed_spec Real.exp (STDPFormula.mk (2 : ℝ) 2 1 1)
            [0, 1, 2, 3] [0, 1, 2, 3] := by
  refine ⟨?_, ?_, ?_, _, rfl, ?_⟩
  · simp [STDPFormula.stdp_delta_w, STDPFormula.stdp_w, uint32_sub]
  · simp [stdp_delta_w_signed_spec, STDPFormula.stdp_w]
  · intro h
    have := Real.exp_injective h
    norm_num at this
  · simp [STDPFormula.stdp_delta_w, STDPFormula.stdp_w, uint32_sub, stdp_delta_w_signed_spec]
    norm_num
    have h1 : Real.exp (-(4294967295 / 2)) < Real.exp (-(1 / 2)) :=
      Real.exp_lt_exp.mpr (by norm_num)
    have h2 : Real.exp (-2147483647) < Real.exp (-1) := Real.exp_lt_exp.mpr (by norm_num)
    have h3 : Real.exp (-(4294967293 / 2)) < Real.exp (-(3 / 2)) :=
      Real.exp_lt_exp.mpr (by norm_num)
    linarith

/-! ## C5: `STDPFormula::stdp_w` -/

/-- C5 (counterexample): with `a_plus = 1` and `a_minus = 2` the kernel at the
difference 0 is 2, the value of `a_minus`, not `a_plus`. -/
theorem C5_kernel_at_zero_is_a_minus_counterexample :
    (STDPFormula.mk (1 : ℝ) 1 1 2).stdp_w Real.exp 0 = 2 ∧
    (STDPFormula.mk (1 : ℝ) 1 1 2).stdp_w Real.exp 0 ≠ (STDPFormula.mk (1 : ℝ) 1 1 2).a_plus_ := by
  constructor <;> simp [STDPFormula.stdp_w]

/-- C5 (amended): in real arithmetic, for `tau_plus, tau_minus > 0`, `stdp_w d` is
`a_plus · exp (−d / tau_plus)` for `d > 0` and `a_minus · exp (d / tau_minus)` for
`d < 0`; at `d = 0` it takes the second branch, so `stdp_w 0 = a_minus`. -/
theorem C5_kernel_branches (formula : STDPFormula ℝ) (d : ℝ) :
    0 < formula.tau_plus_ → 0 < formula.tau_minus_ →
    (0 < d → formula.stdp_w Real.exp d = formula.a_plus_ * Real.exp (-d / formula.tau_plus_)) ∧
    (d < 0 → formula.stdp_w Real.exp d = formula.a_minus_ * Real.exp (d / formula.tau_minus_)) ∧
    formula.stdp_w Real.exp 0 = formula.a_minus_ := by
  intro _ _
  refine ⟨fun h => ?_, fun h => ?_, ?_⟩
  · simp [STDPFormula.stdp_w, h]
  · simp [STDPFormula.stdp_w, not_lt.mpr h.le]
  · simp [STDPFormula.stdp_w]

/-- Witness of C5: the kernel with `tau_plus = tau_minus = 2`, `a_plus = 1`,
`a_minus = 3` at the differences 1, −1 and 0. -/
theorem C5_kernel_branches_witness :
    ((0 : ℝ) < 2 ∧ (0 : ℝ) < 2) ∧
    ((0 : ℝ) < 1 ∧
      (STDPFormula.mk (2 : ℝ) 2 1 3).stdp_w Real.exp 1 = 1 * Real.exp (-1 / 2)) ∧
    ((-1 : ℝ) < 0 ∧
      (STDPFormula.mk (2 : ℝ) 2 1 3).stdp_w Real.exp (-1) = 3 * Real.exp (-1 / 2)) ∧
    (STDPFormula.mk (2 : ℝ) 2 1 3).stdp_w Real.exp 0 = 3 :=
  ⟨⟨by norm_num, by norm_num⟩,
   ⟨by norm_num,
    (C5_kernel_branches ⟨2, 2, 1, 3⟩ 1 (by norm_num) (by norm_num)).1 (by norm_num)⟩,
   ⟨by norm_num,
    (C5_kernel_branches ⟨2, 2, 1, 3⟩ (-1) (by norm_num) (by norm_num)).2.1 (by norm_num)⟩,
   (C5_kernel_branches ⟨2, 2, 1, 3⟩ 0 (by norm_num) (by norm_num)).2.2⟩

/-! ## C6 and C7: `update_projection_weights_additive_stdp` -/

section update_claims

variable {F : Type} [LinearOrderedField F]

/-- C6: a synapse with fewer than `tau_plus + tau_minus` entries in one of its two
queues is returned unchanged by the update (weight and both queues included): the
loop body returns it as it is, and so it stands at its index in every projection
the update returns. -/
theorem C6_synapse_below_threshold_is_unchanged (exp : F → F) (projection : Projection F)
    (i : Nat) (s : Synapse F) (hs : projection.parameters_[i]? = some s)
    (hlt : s.params_.rule_.presynaptic_spike_times_.length
          < s.params_.rule_.tau_plus_ + s.params_.rule_.tau_minus_ ∨
        s.params_.rule_.postsynaptic_spike_times_.length
          < s.params_.rule_.tau_plus_ + s.params_.rule_.tau_minus_) :
    update_synapse_additive_stdp exp s = .ok s ∧
    ∀ projection', update_projection_weights_additive_stdp exp projection = .ok projection' →
      projection'.parameters_[i]? = some s := by
  refine ⟨update_synapse_below_threshold exp s hlt, fun projection' h => ?_⟩
  obtain ⟨s', hs', hget⟩ :=
    (update_synapses_ok exp _ _ (update_projection_ok exp _ _ h).1).2 i s hs
  rw [update_synapse_below_threshold exp s hlt] at hs'
  cases hs'
  exact hget

/-- C7 (amended): take a synapse whose two queues hold at least
`tau_plus + tau_minus` entries.  If the two queues have the same length, the
synapse gets `weight + Δw`, where `Δw` is the value `stdp_delta_w` returns for the
two queues with `a_plus = a_minus = 1`; both queues become empty; `tau_plus`,
`tau_minus`, the delay and the two neuron ids stay; in every projection the update
returns this synapse stands at its index, the number of synapses is the same, and
every synapse below the threshold is unchanged.  If the two queues differ in
length, the update stops at the assertion of `stdp_delta_w` and returns no
projection.  The update returns a projection whenever the two queues of every
synapse that meets the threshold have the same length. -/
theorem C7_update_of_synapse_with_full_queues (exp : F → F) (projection : Projection F)
    (i : Nat) (s : Synapse F) (hs : projection.parameters_[i]? = some s)
    (hpre : s.params_.rule_.tau_plus_ + s.params_.rule_.tau_minus_
      ≤ s.params_.rule_.presynaptic_spike_times_.length)
    (hpost : s.params_.rule_.tau_plus_ + s.params_.rule_.tau_minus_
      ≤ s.params_.rule_.postsynaptic_spike_times_.length) :
    (s.params_.rule_.presynaptic_spike_times_.length
        = s.params_.rule_.postsynaptic_spike_times_.length →
      ∃ (delta_w : F) (s' : Synapse F),
        (STDPFormula.mk (s.params_.rule_.tau_plus_ : F) (s.params_.rule_.tau_minus_ : F)
            1 1).stdp_delta_w exp s.params_.rule_.presynaptic_spike_times_
            s.params_.rule_.postsynaptic_spike_times_ = .ok delta_w ∧
        update_synapse_additive_stdp exp s = .ok s' ∧
        s'.params_.weight_ = s.params_.weight_ + delta_w ∧
        s'.params_.rule_.presynaptic_spike_times_ = [] ∧
        s'.params_.rule_.postsynaptic_spike_times_ = [] ∧
        s'.params_.rule_.tau_plus_ = s.params_.rule_.tau_plus_ ∧
        s'.params_.rule_.tau_minus_ = s.params_.rule_.tau_minus_ ∧
        s'.params_.delay_ = s.params_.delay_ ∧
        s'.params_.pre_id = s.params_.pre_id ∧
        s'.params_.post_id = s.params_.post_id ∧
        ∀ projection', update_projection_weights_additive_stdp exp projection = .ok projection' →
          projection'.parameters_.length = projection.parameters_.length ∧
          projection'.parameters_[i]? = some s' ∧
          ∀ (j : Nat) (t : Synapse F), projection.parameters_[j]? = some t →
            (t.params_.rule_.presynaptic_spike_times_.length
                < t.params_.rule_.tau_plus_ + t.params_.rule_.tau_minus_ ∨
              t.params_.rule_.postsynaptic_spike_times_.length
                < t.params_.rule_.tau_plus_ + t.params_.rule_.tau_minus_) →
            projection'.parameters_[j]? = some t) ∧
    (s.params_.rule_.presynaptic_spike_times_.length
        ≠ s.params_.rule_.postsynaptic_spike_times_.length →
      update_synapse_additive_stdp exp s
        = .error ⟨"presynaptic_spikes.size() == postsynaptic_spikes.size()"⟩ ∧
      ¬ ∃ projection', update_projection_weights_additive_stdp exp projection = .ok projection') ∧
    ((∀ t ∈ projection.parameters_,
        t.params_.rule_.tau_plus_ + t.params_.rule_.tau_minus_
          ≤ t.params_.rule_.presynaptic_spike_times_.length →
        t.params_.rule_.tau_plus_ + t.params_.rule_.tau_minus_
          ≤ t.params_.rule_.postsynaptic_spike_times_.length →
        t.params_.rule_.presynaptic_spike_times_.length
          = t.params_.rule_.postsynaptic_spike_times_.length) →
      ∃ projection', update_projection_weights_additive_stdp exp projection = .ok projection') := by
  refine ⟨fun heq => ?_, fun hne => ?_, fun hall => ?_⟩
  · obtain ⟨delta_w, hdw, hupd⟩ := update_synapse_fires exp s hpre hpost heq
    refine ⟨delta_w, _, hdw, hupd, rfl, rfl, rfl, rfl, rfl, rfl, rfl, rfl, ?_⟩
    intro projection' h
    obtain ⟨hloop, -⟩ := update_projection_ok exp _ _ h
    obtain ⟨hlen, hget⟩ := update_synapses_ok exp _ _ hloop
    refine ⟨hlen, ?_, ?_⟩
    · obtain ⟨s', hs', hget'⟩ := hget i s hs
      rw [hupd] at hs'
      cases hs'
      exact hget'
    · intro j t ht hlt
      obtain ⟨t', ht', hget'⟩ := hget j t ht
      rw [update_synapse_below_threshold exp t hlt] at ht'
      cases ht'
      exact hget'
  · have herr : update_synapse_additive_stdp exp s
        = .error ⟨"presynaptic_spikes.size() == postsynaptic_spikes.size()"⟩ := by
      unfold update_synapse_additive_stdp STDPFormula.call STDPFormula.stdp_delta_w
      simp only [ge_iff_le, hpre, hpost, and_self, if_true, hne, ne_eq, not_false_eq_true]
    refine ⟨herr, ?_⟩
    rintro ⟨projection', h⟩
    obtain ⟨hloop, -⟩ := update_projection_ok exp _ _ h
    obtain ⟨s', hs', -⟩ := (update_synapses_ok exp _ _ hloop).2 i s hs
    rw [herr] at hs'
    cases hs'
  · have htotal : ∀ t ∈ projection.parameters_,
        ∃ t', update_synapse_additive_stdp exp t = .ok t' := by
      intro t ht
      by_cases h1 : t.params_.rule_.tau_plus_ + t.params_.rule_.tau_minus_
          ≤ t.params_.rule_.presynaptic_spike_times_.length
      · by_cases h2 : t.params_.rule_.tau_plus_ + t.params_.rule_.tau_minus_
            ≤ t.params_.rule_.postsynaptic_spike_times_.length
        · obtain ⟨d, -, hd⟩ := update_synapse_fires exp t h1 h2 (hall t ht h1 h2)
          exact ⟨_, hd⟩
        · exact ⟨t, update_synapse_below_threshold exp t (Or.inr (by omega))⟩
      · exact ⟨t, update_synapse_below_threshold exp t (Or.inl (by omega))⟩
    obtain ⟨l', hl'⟩ := update_synapses_total exp _ htotal
    exact ⟨{ projection with parameters_ := l' }, by
      simp [update_projection_weights_additive_stdp, hl']⟩

end update_claims

/-- Witness of C6: the second synapse of the example projection has the queues `[5]`
and `[]`, below the threshold 2. -/
theorem C6_synapse_below_threshold_witness :
    (two_synapse_projection ℝ [0, 1] [0, 1]).parameters_[1]? = some (queue_synapse ℝ [5] []) ∧
    update_synapse_additive_stdp Real.exp (queue_synapse ℝ [5] []) = .ok (queue_synapse ℝ [5] []) ∧
    ∀ projection',
      update_projection_weights_additive_stdp Real.exp (two_synapse_projection ℝ [0, 1] [0, 1])
        = .ok projection' →
      projection'.parameters_[1]? = some (queue_synapse ℝ [5] []) :=
  ⟨rfl, C6_synapse_below_threshold_is_unchanged Real.exp (two_synapse_projection ℝ [0, 1] [0, 1]) 1
    (queue_synapse ℝ [5] []) rfl (Or.inl (by decide))⟩

/-- C7 (counterexample): the first synapse of the example projection has the queues
`[0, 1, 2]` and `[0, 1]`, both with at least `tau_plus + tau_minus = 2` entries;
the update stops at the assertion of `stdp_delta_w` and returns no projection. -/
theorem C7_unequal_queues_counterexample :
    (two_synapse_projection ℝ [0, 1, 2] [0, 1]).parameters_[0]?
      = some (queue_synapse ℝ [0, 1, 2] [0, 1]) ∧
    (queue_synapse ℝ [0, 1, 2] [0, 1]).params_.rule_.tau_plus_
      + (queue_synapse ℝ [0, 1, 2] [0, 1]).params_.rule_.tau_minus_ = 2 ∧
    update_synapse_additive_stdp Real.exp (queue_synapse ℝ [0, 1, 2] [0, 1])
      = .error ⟨"presynaptic_spikes.size() == postsynaptic_spikes.size()"⟩ ∧
    update_projection_weights_additive_stdp Real.exp (two_synapse_projection ℝ [0, 1, 2] [0, 1])
      = .error ⟨"presynaptic_spikes.size() == postsynaptic_spikes.size()"⟩ ∧
    ¬ ∃ projection',
      update_projection_weights_additive_stdp Real.exp (two_synapse_projection ℝ [0, 1, 2] [0, 1])
        = .ok projection' := by
  refine ⟨rfl, rfl, rfl, rfl, ?_⟩
  rintro ⟨projection', h⟩
  have herr : update_projection_weights_additive_stdp Real.exp
      (two_synapse_projection ℝ [0, 1, 2] [0, 1])
      = .error ⟨"presynaptic_spikes.size() == postsynaptic_spikes.size()"⟩ := rfl
  rw [herr] at h
  cases h

/-- Witness of C7: the first synapse of the example projection has the queues
`[0, 1]` and `[0, 1]` with `tau_plus = tau_minus = 1`; its weight 1/2 grows by the
value of `stdp_delta_w` and its queues become empty. -/
theorem C7_update_witness :
    ∃ (delta_w : ℝ) (s' : Synapse ℝ),
      (STDPFormula.mk ((1 : Nat) : ℝ) ((1 : Nat) : ℝ) 1 1).stdp_delta_w Real.exp [0, 1] [0, 1]
        = .ok delta_w ∧
      update_synapse_additive_stdp Real.exp (queue_synapse ℝ [0, 1] [0, 1]) = .ok s' ∧
      s'.params_.weight_ = 1 / 2 + delta_w ∧
      s'.params_.rule_.presynaptic_spike_times_ = [] ∧
      s'.params_.rule_.postsynaptic_spike_times_ = [] := by
  obtain ⟨delta_w, s', h1, h2, h3, h4, h5, -⟩ :=
    (C7_update_of_synapse_with_full_queues Real.exp (two_synapse_projection ℝ [0, 1] [0, 1]) 0
      (queue_synapse ℝ [0, 1] [0, 1]) rfl (by decide) (by decide)).1 rfl
  exact ⟨delta_w, s', h1, h2, h3, h4, h5⟩

/-! ## C8 and C9: `register_additive_stdp_spikes` -/

section register_claims

variable {F : Type}

/-- C8 (amended): for a message whose sender is registered with mode `STDPOnly` or
`STDPAndSpike` the loop body of `register_additive_stdp_spikes` returns, and in the
projection it returns the postsynaptic queue of every synapse is the old queue
followed by copies of the send time reduced modulo `2 ^ 32` (the queue stores
`uint32_t`), one copy for each neuron index of the message equal to the `post_id`
of the synapse, as long as the queue holds fewer than `tau_minus + tau_plus`
entries; a synapse whose `post_id` is not among the neuron indexes gets no copy,
so its postsynaptic queue is unchanged. -/
theorem C8_postsynaptic_history_of_registered_message (projection : Projection F)
    (msg : SpikeMessage) (processing_type : ProcessingType)
    (hfind : projection.stdp_populations_.lookup msg.header_.sender_uid_ = some processing_type)
    (hmode : processing_type = .STDPOnly ∨ processing_type = .STDPAndSpike) :
    ∃ (projection' : Projection F) (msg' : SpikeMessage),
      register_additive_stdp_spikes_message projection msg = .ok (projection', msg') ∧
      (∀ rest : List SpikeMessage,
        register_additive_stdp_spikes projection (msg :: rest)
          = match register_additive_stdp_spikes projection' rest with
            | .error e => .error e
            | .ok (projection'', rest') => .ok (projection'', msg' :: rest')) ∧
      projection'.parameters_.length = projection.parameters_.length ∧
      ∀ (j : Nat) (s : Synapse F), projection.parameters_[j]? = some s →
        ∃ s', projection'.parameters_[j]? = some s' ∧
          s'.params_.post_id = s.params_.post_id ∧
          s'.params_.rule_.postsynaptic_spike_times_
            = s.params_.rule_.postsynaptic_spike_times_ ++
              List.replicate
                (min (msg.neuron_indexes_.count s.params_.post_id)
                  (s.params_.rule_.tau_minus_ + s.params_.rule_.tau_plus_
                    - s.params_.rule_.postsynaptic_spike_times_.length))
                (msg.header_.send_time_ % 2 ^ 32) := by
  obtain ⟨-, honly, hboth, -⟩ := register_message_cases projection msg
  rcases hmode with rfl | rfl
  · refine ⟨_, _, honly hfind, fun rest => ?_, by simp, ?_⟩
    · simp [register_additive_stdp_spikes, honly hfind]
    · intro j s hs
      refine ⟨append_spike_times_synapse msg .postsynaptic_spike_times_ msg.neuron_indexes_ s,
        by simp [List.getElem?_map, hs], ?_⟩
      exact append_postsynaptic_queue msg msg.neuron_indexes_ s
  · refine ⟨_, _, hboth hfind, fun rest => ?_, by simp, ?_⟩
    · simp [register_additive_stdp_spikes, hboth hfind]
    · intro j s hs
      refine ⟨append_spike_times_synapse msg .presynaptic_spike_times_ msg.neuron_indexes_
        (append_spike_times_synapse msg .postsynaptic_spike_times_ msg.neuron_indexes_ s),
        by simp [List.getElem?_map, hs], ?_⟩
      obtain ⟨h1, h2⟩ := append_postsynaptic_queue msg msg.neuron_indexes_ s
      obtain ⟨h3, h4⟩ := append_presynaptic_keeps_postsynaptic msg msg.neuron_indexes_
        (append_spike_times_synapse msg .postsynaptic_spike_times_ msg.neuron_indexes_ s)
      exact ⟨h3.trans h1, h4.trans h2⟩

/-- C9: `register_additive_stdp_spikes` returns exactly when no message has a sender
registered with mode `SpikeOnly`; in what it returns the messages are as many as
before, each with its header, a message of an `STDPOnly` sender has no neuron
index, and a message whose sender is registered with `STDPAndSpike` or is absent
from the table keeps its neuron indexes. -/
theorem C9_messages_after_registration (projection : Projection F)
    (all_messages : List SpikeMessage) :
    ((∃ r, register_additive_stdp_spikes projection all_messages = .ok r) ↔
      ∀ m ∈ all_messages,
        projection.stdp_populations_.lookup m.header_.sender_uid_ ≠ some .SpikeOnly) ∧
    ∀ (projection' : Projection F) (messages' : List SpikeMessage),
      register_additive_stdp_spikes projection all_messages = .ok (projection', messages') →
      messages'.length = all_messages.length ∧
      ∀ (i : Nat) (m : SpikeMessage), all_messages[i]? = some m →
        ∃ m', messages'[i]? = some m' ∧ m'.header_ = m.header_ ∧
          (projection.stdp_populations_.lookup m.header_.sender_uid_ = some .STDPOnly →
            m'.neuron_indexes_ = []) ∧
          (projection.stdp_populations_.lookup m.header_.sender_uid_ = some .STDPAndSpike ∨
            projection.stdp_populations_.lookup m.header_.sender_uid_ = none →
            m'.neuron_indexes_ = m.neuron_indexes_) := by
  induction all_messages generalizing projection with
  | nil =>
    refine ⟨by simp [register_additive_stdp_spikes], ?_⟩
    intro projection' messages' h
    simp only [register_additive_stdp_spikes, Except.ok.injEq, Prod.mk.injEq] at h
    obtain ⟨-, rfl⟩ := h
    simp
  | cons msg rest ih =>
    cases hbody : register_additive_stdp_spikes_message projection msg with
    | error e =>
      have hspike : projection.stdp_populations_.lookup msg.header_.sender_uid_
          = some .SpikeOnly := by
        obtain ⟨hnone, honly, hboth, -⟩ := register_message_cases projection msg
        cases hl : projection.stdp_populations_.lookup msg.header_.sender_uid_ with
        | none => rw [hnone hl] at hbody; cases hbody
        | some processing_type =>
          cases processing_type with
          | SpikeOnly => rfl
          | STDPOnly => rw [honly hl] at hbody; cases hbody
          | STDPAndSpike => rw [hboth hl] at hbody; cases hbody
      refine ⟨?_, ?_⟩
      · simp only [register_additive_stdp_spikes, hbody]
        constructor
        · rintro ⟨r, hr⟩
          cases hr
        · intro hall
          exact absurd hspike (hall msg (by simp))
      · intro projection' messages' h
        simp [register_additive_stdp_spikes, hbody] at h
    | ok r =>
      obtain ⟨p1, msg1⟩ := r
      obtain ⟨htable, hnot, hheader, honly, hkeep⟩ :=
        register_message_frame projection p1 msg msg1 hbody
      obtain ⟨ihret, ihres⟩ := ih p1
      rw [htable] at ihret ihres
      refine ⟨?_, ?_⟩
      · constructor
        · rintro ⟨r, hr⟩
          simp only [register_additive_stdp_spikes, hbody] at hr
          cases hrest : register_additive_stdp_spikes p1 rest with
          | error e => simp [hrest] at hr
          | ok r' =>
            intro m hm
            rcases List.mem_cons.mp hm with rfl | hm
            · exact hnot
            · exact ihret.mp ⟨r', hrest⟩ m hm
        · intro hall
          obtain ⟨r', hr'⟩ := ihret.mpr (fun m hm => hall m (by simp [hm]))
          exact ⟨(r'.1, msg1 :: r'.2), by simp [register_additive_stdp_spikes, hbody, hr']⟩
      · intro projection' messages' h
        simp only [register_additive_stdp_spikes, hbody] at h
        cases hrest : register_additive_stdp_spikes p1 rest with
        | error e => simp [hrest] at h
        | ok r' =>
          obtain ⟨p2, rest2⟩ := r'
          simp only [hrest, Except.ok.injEq, Prod.mk.injEq] at h
          obtain ⟨-, rfl⟩ := h
          obtain ⟨hlen, hget⟩ := ihres p2 rest2 hrest
          refine ⟨by simp [hlen], ?_⟩
          intro i m hm
          cases i with
          | zero =>
            simp only [List.getElem?_cons_zero, Option.some.injEq] at hm
            subst hm
            exact ⟨msg1, by simp, hheader, honly, hkeep⟩
          | succ i =>
            simp only [List.getElem?_cons_succ] at hm ⊢
            exact hget i m hm

end register_claims

/-- C8 (counterexample): a message of an `STDPOnly` sender with send time `2 ^ 32`
and neuron index 1 puts 0, not `2 ^ 32`, into the postsynaptic queue of the
synapse 0 → 1. -/
theorem C8_send_time_is_truncated_counterexample :
    (single_synapse_projection .STDPOnly).stdp_populations_.lookup ⟨2⟩ = some .STDPOnly ∧
    (register_additive_stdp_spikes (single_synapse_projection .STDPOnly)
        [⟨⟨⟨2⟩, 4294967296⟩, [1]⟩]).map
        (fun r => r.1.parameters_.map fun s => s.params_.rule_.postsynaptic_spike_times_)
      = .ok [[0]] ∧
    (register_additive_stdp_spikes (single_synapse_projection .STDPOnly)
        [⟨⟨⟨2⟩, 4294967296⟩, [1]⟩]).map
        (fun r => r.1.parameters_.map fun s => s.params_.rule_.postsynaptic_spike_times_)
      ≠ .ok [[4294967296]] := by
  refine ⟨rfl, rfl, fun h => ?_⟩
  have h0 : (register_additive_stdp_spikes (single_synapse_projection .STDPOnly)
        [⟨⟨⟨2⟩, 4294967296⟩, [1]⟩]).map
        (fun r => r.1.parameters_.map fun s => s.params_.rule_.postsynaptic_spike_times_)
      = .ok [[0]] := rfl
  rw [h0] at h
  exact absurd (Except.ok.inj h) (by decide)

/-- Witness of C8: a message of the `STDPAndSpike` sender 2 with send time 7 and
neuron index 1 puts 7 into the postsynaptic queue of the synapse 0 → 1. -/
theorem C8_postsynaptic_history_witness :
    ∃ (projection' : Projection ℚ) (msg' : SpikeMessage) (s' : Synapse ℚ),
      register_additive_stdp_spikes_message (single_synapse_projection .STDPAndSpike)
        ⟨⟨⟨2⟩, 7⟩, [1]⟩ = .ok (projection', msg') ∧
      projection'.parameters_[0]? = some s' ∧
      s'.params_.rule_.postsynaptic_spike_times_ = [7] := by
  obtain ⟨projection', msg', h1, -, -, h4⟩ :=
    C8_postsynaptic_history_of_registered_message (single_synapse_projection .STDPAndSpike)
      ⟨⟨⟨2⟩, 7⟩, [1]⟩ .STDPAndSpike rfl (Or.inr rfl)
  obtain ⟨s', h5, -, h6⟩ := h4 0 ⟨⟨0, 1, 1 / 2, 1, ⟨1, 1, [], []⟩⟩⟩ rfl
  exact ⟨projection', msg', s', h1, h5, h6⟩

/-- Witness of C9: two messages, one of the `STDPOnly` sender 2 and one of the
unregistered sender 4. -/
theorem C9_messages_after_registration_witness :
    ∃ r, register_additive_stdp_spikes (single_synapse_projection .STDPOnly)
        [⟨⟨⟨2⟩, 7⟩, [1]⟩, ⟨⟨⟨4⟩, 7⟩, [1]⟩] = .ok r ∧
      r.2.length = 2 :=
  have h := C9_messages_after_registration (single_synapse_projection .STDPOnly)
    [⟨⟨⟨2⟩, 7⟩, [1]⟩, ⟨⟨⟨4⟩, 7⟩, [1]⟩]
  have hr := h.1.mpr (by decide)
  ⟨hr.choose, hr.choose_spec, (h.2 hr.choose.1 hr.choose.2 hr.choose_spec).1⟩

/-! ## C10: the effective spike message of `calculate_projections` -/

/-- C10 (counterexample): the inbox of the projection 1 holds two messages with the
neuron indexes `[0]` and `[1]`; the message processed for it is the first one, and
the neuron index 1 of the second is in no processed message. -/
theorem C10_second_message_is_dropped_counterexample :
    two_message_endpoint.spike_inbox ⟨1⟩ = [⟨⟨⟨2⟩, 5⟩, [0]⟩, ⟨⟨⟨2⟩, 5⟩, [1]⟩] ∧
    calculate_projections_messages 5 two_message_endpoint [⟨1⟩] = [⟨⟨⟨2⟩, 5⟩, [0]⟩] ∧
    ¬ ∀ m ∈ two_message_endpoint.spike_inbox ⟨1⟩, ∀ n ∈ m.neuron_indexes_,
        ∀ msg ∈ calculate_projections_messages 5 two_message_endpoint [⟨1⟩], n ∈ msg.neuron_indexes_ := by
  refine ⟨rfl, rfl, ?_⟩
  intro h
  have := h ⟨⟨⟨2⟩, 5⟩, [1]⟩ (by decide) 1 (by decide) ⟨⟨⟨2⟩, 5⟩, [0]⟩ (by decide)
  revert this
  decide

/-- C10 (amended): for a projection whose UID occurs at no earlier position of the
projection list and whose spike inbox is `msg :: rest`, the message processed for
it in this tick is `msg`, the first message of the inbox; the vector of processed
messages has one entry per projection. -/
theorem C10_effective_message_is_first_of_inbox (step_ : Nat) (projections_ : List UID) :
    ∀ (message_endpoint_ : MessageEndpoint) (i : Nat) (uid : UID) (msg : SpikeMessage)
      (rest : List SpikeMessage),
      projections_[i]? = some uid → uid ∉ projections_.take i →
      message_endpoint_.spike_inbox uid = msg :: rest →
      (calculate_projections_messages step_ message_endpoint_ projections_).length
        = projections_.length ∧
      (calculate_projections_messages step_ message_endpoint_ projections_)[i]? = some msg := by
  induction projections_ with
  | nil => intro ep i uid msg rest h; simp at h
  | cons u us ih =>
    intro ep i uid msg rest hi hnot hbox
    have hlen : ∀ (ep : MessageEndpoint) (us : List UID),
        (calculate_projections_messages step_ ep us).length = us.length := by
      intro ep us
      induction us generalizing ep with
      | nil => rfl
      | cons u us ih => simp [calculate_projections_messages, ih]
    refine ⟨hlen _ _, ?_⟩
    cases i with
    | zero =>
      simp only [List.getElem?_cons_zero, Option.some.injEq] at hi
      subst hi
      simp [calculate_projections_messages, MessageEndpoint.unload_messages, hbox]
    | succ i =>
      simp only [List.getElem?_cons_succ] at hi
      simp only [List.take_succ_cons, List.mem_cons, not_or] at hnot
      have hbox' : (ep.unload_messages u).2.spike_inbox uid = msg :: rest := by
        simp [MessageEndpoint.unload_messages, hnot.1, hbox]
      have := (ih (ep.unload_messages u).2 i uid msg rest hi hnot.2 hbox').2
      simpa [calculate_projections_messages] using this

/-- Witness of C10: the projection list `[3, 1]` and the example endpoint; the
message processed for the projection 1 is the first of its two inbox messages. -/
theorem C10_effective_message_witness :
    (calculate_projections_messages 5 two_message_endpoint [⟨3⟩, ⟨1⟩])[1]? = some ⟨⟨⟨2⟩, 5⟩, [0]⟩ :=
  (C10_effective_message_is_first_of_inbox 5 [⟨3⟩, ⟨1⟩] two_message_endpoint 1 ⟨1⟩ ⟨⟨⟨2⟩, 5⟩, [0]⟩ [⟨⟨⟨2⟩, 5⟩, [1]⟩] rfl
    (by decide) rfl).2

/-! ## C11: `MultiThreadedCPUBackend::init` -/

/-- C11 (counterexample): for a projection with UID 1 whose presynaptic UID is the nil
identifier and whose postsynaptic UID is 3, `init` issues the impact subscription
only; no `SpikeMessage` subscription is issued for it. -/
theorem C11_nil_presynaptic_uid_counterexample :
    init [example_wrapper ⟨1⟩ UID.nil ⟨3⟩ example_queue]
      = [⟨.SynapticImpactMessage, ⟨3⟩, [⟨1⟩]⟩] ∧
    (⟨.SpikeMessage, ⟨1⟩, [UID.nil]⟩ : SubscribeCall)
      ∉ init [example_wrapper ⟨1⟩ UID.nil ⟨3⟩ example_queue] := by
  refine ⟨rfl, ?_⟩
  decide

/-- C11 (amended): `init` issues, projection by projection in order, one `SpikeMessage`
subscription (receiver = the UID of the projection, senders = its presynaptic UID)
when the presynaptic UID is not nil, and then one `SynapticImpactMessage`
subscription (receiver = its postsynaptic UID, senders = the UID of the
projection) when the postsynaptic UID is not nil; it issues no other
subscription, and both for every projection when no UID is nil. -/
theorem C11_init_subscriptions {F : Type} (projections_ : List (ProjectionWrapper F)) :
    init projections_ = projections_.flatMap (fun p =>
      (if p.arg_.presynaptic_uid_ ≠ UID.nil
        then [(⟨.SpikeMessage, p.arg_.uid_, [p.arg_.presynaptic_uid_]⟩ : SubscribeCall)]
        else []) ++
      (if p.arg_.postsynaptic_uid_ ≠ UID.nil
        then [(⟨.SynapticImpactMessage, p.arg_.postsynaptic_uid_, [p.arg_.uid_]⟩ : SubscribeCall)]
        else [])) ∧
    (∀ c : SubscribeCall, c ∈ init projections_ ↔
      ∃ p ∈ projections_,
        (p.arg_.presynaptic_uid_ ≠ UID.nil ∧
          c = ⟨.SpikeMessage, p.arg_.uid_, [p.arg_.presynaptic_uid_]⟩) ∨
        (p.arg_.postsynaptic_uid_ ≠ UID.nil ∧
          c = ⟨.SynapticImpactMessage, p.arg_.postsynaptic_uid_, [p.arg_.uid_]⟩)) ∧
    ((∀ p ∈ projections_,
        p.arg_.presynaptic_uid_ ≠ UID.nil ∧ p.arg_.postsynaptic_uid_ ≠ UID.nil) →
      init projections_ = projections_.flatMap (fun p =>
        [⟨.SpikeMessage, p.arg_.uid_, [p.arg_.presynaptic_uid_]⟩,
         ⟨.SynapticImpactMessage, p.arg_.postsynaptic_uid_, [p.arg_.uid_]⟩])) := by
  have hflat : init projections_ = projections_.flatMap (fun p =>
      (if p.arg_.presynaptic_uid_ ≠ UID.nil
        then [(⟨.SpikeMessage, p.arg_.uid_, [p.arg_.presynaptic_uid_]⟩ : SubscribeCall)]
        else []) ++
      (if p.arg_.postsynaptic_uid_ ≠ UID.nil
        then [(⟨.SynapticImpactMessage, p.arg_.postsynaptic_uid_, [p.arg_.uid_]⟩ : SubscribeCall)]
        else [])) := by
    induction projections_ with
    | nil => rfl
    | cons p ps ih =>
      simp only [init, List.flatMap_cons, ih, UID.to_bool, decide_eq_true_eq, List.append_assoc]
  refine ⟨hflat, ?_, ?_⟩
  · intro c
    rw [hflat, List.mem_flatMap]
    constructor
    · rintro ⟨p, hp, hc⟩
      refine ⟨p, hp, ?_⟩
      rcases List.mem_append.mp hc with h | h
      · by_cases hpre : p.arg_.presynaptic_uid_ ≠ UID.nil
        · rw [if_pos hpre] at h
          exact Or.inl ⟨hpre, by simpa using h⟩
        · rw [if_neg hpre] at h
          simp at h
      · by_cases hpost : p.arg_.postsynaptic_uid_ ≠ UID.nil
        · rw [if_pos hpost] at h
          exact Or.inr ⟨hpost, by simpa using h⟩
        · rw [if_neg hpost] at h
          simp at h
    · rintro ⟨p, hp, h | h⟩
      · exact ⟨p, hp, List.mem_append.mpr (Or.inl (by rw [if_pos h.1]; simp [h.2]))⟩
      · exact ⟨p, hp, List.mem_append.mpr (Or.inr (by rw [if_pos h.1]; simp [h.2]))⟩
  · intro hall
    rw [hflat]
    clear hflat
    induction projections_ with
    | nil => rfl
    | cons p ps ih =>
      have hp := hall p (by simp)
      simp only [List.flatMap_cons, if_pos hp.1, if_pos hp.2]
      rw [ih (fun q hq => hall q (by simp [hq]))]
      rfl

/-- Witness of C11: two projections 1 (2 → 3) and 4 (3 → 2) without a nil UID. -/
theorem C11_init_subscriptions_witness :
    init [example_wrapper ⟨1⟩ ⟨2⟩ ⟨3⟩ example_queue, example_wrapper ⟨4⟩ ⟨3⟩ ⟨2⟩ example_queue]
      = [⟨.SpikeMessage, ⟨1⟩, [⟨2⟩]⟩, ⟨.SynapticImpactMessage, ⟨3⟩, [⟨1⟩]⟩,
         ⟨.SpikeMessage, ⟨4⟩, [⟨3⟩]⟩, ⟨.SynapticImpactMessage, ⟨2⟩, [⟨4⟩]⟩] :=
  (C11_init_subscriptions
    [example_wrapper ⟨1⟩ ⟨2⟩ ⟨3⟩ example_queue, example_wrapper ⟨4⟩ ⟨3⟩ ⟨2⟩ example_queue]).2.2
    (by decide)

/-! ## C12: the sending loop of `calculate_projections` -/

section sending_lemmas

variable {F : Type}

/-- The sending loop, projection by projection: the projection keeps its place and
its `arg_`, loses the entry keyed `step_` and keeps every other entry; the
messages sent are the entries keyed `step_`, in projection order. -/
theorem calculate_projections_send_spec (step_ : Nat) (projections_ : List (ProjectionWrapper F)) :
    (calculate_projections_send step_ projections_).1
      = projections_.map (fun p => { p with messages_ := p.messages_.erase step_ }) ∧
    (calculate_projections_send step_ projections_).2
      = projections_.filterMap (fun p => p.messages_ step_) := by
  induction projections_ with
  | nil => exact ⟨rfl, rfl⟩
  | cons p ps ih =>
    cases hp : p.messages_ step_ with
    | none =>
      have herase : p.messages_.erase step_ = p.messages_ := by
        funext key
        by_cases hk : key = step_
        · simp [SynapticMessageQueue.erase, hk, hp]
        · simp [SynapticMessageQueue.erase, hk]
      simp [calculate_projections_send, hp, herase, ih.1, ih.2]
    | some msg =>
      simp [calculate_projections_send, hp, ih.1, ih.2]

end sending_lemmas

/-- C12: in the sending loop at step `step_` the messages passed to `send_message`
are exactly the entries keyed `step_` of the pending queues, one per projection
that has such an entry, in projection order; afterwards every projection stands
at its place with the same `arg_`, its queue has no entry keyed `step_`, and every
entry keyed by another step is as before. -/
theorem C12_sending_loop {F : Type} (step_ : Nat) (projections_ : List (ProjectionWrapper F)) :
    (calculate_projections_send step_ projections_).2
      = projections_.filterMap (fun p => p.messages_ step_) ∧
    (calculate_projections_send step_ projections_).1.length = projections_.length ∧
    ∀ (i : Nat) (p : ProjectionWrapper F), projections_[i]? = some p →
      ∃ p', (calculate_projections_send step_ projections_).1[i]? = some p' ∧
        p'.arg_ = p.arg_ ∧ p'.messages_ step_ = none ∧
        ∀ key, key ≠ step_ → p'.messages_ key = p.messages_ key := by
  obtain ⟨h1, h2⟩ := calculate_projections_send_spec step_ projections_
  refine ⟨h2, by simp [h1], ?_⟩
  intro i p hp
  refine ⟨{ p with messages_ := p.messages_.erase step_ }, by simp [h1, hp], rfl, ?_, ?_⟩
  · simp [SynapticMessageQueue.erase]
  · intro key hkey
    simp [SynapticMessageQueue.erase, hkey]

/-- Witness of C12: two projections at step 5, the first with entries keyed 5 and 6,
the second with an empty queue: one message is sent, and the first projection
keeps its entry keyed 6. -/
theorem C12_sending_loop_witness :
    (calculate_projections_send 5
        [example_wrapper ⟨1⟩ ⟨2⟩ ⟨3⟩ example_queue,
         example_wrapper ⟨4⟩ ⟨3⟩ ⟨2⟩ (fun _ => none)]).2
      = [example_impact_message ⟨1⟩ 5] ∧
    ∃ p', (calculate_projections_send 5
        [example_wrapper ⟨1⟩ ⟨2⟩ ⟨3⟩ example_queue,
         example_wrapper ⟨4⟩ ⟨3⟩ ⟨2⟩ (fun _ => none)]).1[0]? = some p' ∧
      p'.messages_ 5 = none ∧ p'.messages_ 6 = some (example_impact_message ⟨1⟩ 6) := by
  have h := C12_sending_loop 5
    [example_wrapper ⟨1⟩ ⟨2⟩ ⟨3⟩ example_queue, example_wrapper ⟨4⟩ ⟨3⟩ ⟨2⟩ (fun _ => none)]
  refine ⟨h.1, ?_⟩
  obtain ⟨p', h1, -, h3, h4⟩ := h.2.2 0 (example_wrapper ⟨1⟩ ⟨2⟩ ⟨3⟩ example_queue) rfl
  exact ⟨p', h1, h3, (h4 6 (by decide)).trans rfl⟩

/-! ## C13: `Model::add_input_channel` -/

/-- C13: `add_input_channel` throws exactly when the network has no projection with
`projection_uid`, and then it throws before anything is written, so the model
stays as it was; otherwise it returns the model with one more entry
`(channel_uid, projection_uid)` in the input channels (the multiplicity of that
pair and the number of entries grow by one, also when the pair was there), and
with the output channels and the network as before. -/
theorem C13_add_input_channel (str : UID → String) (m : Model) (channel_uid projection_uid : UID) :
    ((∃ e, m.add_input_channel str channel_uid projection_uid = .error e) ↔
      projection_uid ∉ m.network_.projections_) ∧
    (projection_uid ∉ m.network_.projections_ →
      m.add_input_channel str channel_uid projection_uid
        = .error ⟨"Projection with UID = " ++ str projection_uid ++ " doesn't exist."⟩) ∧
    (projection_uid ∈ m.network_.projections_ →
      ∃ m', m.add_input_channel str channel_uid projection_uid = .ok m' ∧
        m'.get_input_channels = (channel_uid, projection_uid) ::ₘ m.get_input_channels ∧
        m'.get_input_channels.count (channel_uid, projection_uid)
          = m.get_input_channels.count (channel_uid, projection_uid) + 1 ∧
        Multiset.card m'.get_input_channels = Multiset.card m.get_input_channels + 1 ∧
        m'.get_output_channels = m.get_output_channels ∧
        m'.network_ = m.network_) := by
  refine ⟨?_, ?_, ?_⟩
  · unfold Model.add_input_channel Network.is_projection_exists
    by_cases h : projection_uid ∈ m.network_.projections_ <;> simp [h]
  · intro h
    simp [Model.add_input_channel, Network.is_projection_exists, h]
  · intro h
    refine ⟨{ m with in_channels_ := (channel_uid, projection_uid) ::ₘ m.in_channels_ }, ?_,
      rfl, ?_, ?_, rfl, rfl⟩
    · simp [Model.add_input_channel, Network.is_projection_exists, h]
    · simp [Model.get_input_channels]
    · simp [Model.get_input_channels]

/-- Witness of C13: a network with the projection 2; the pair (7, 2) is added to
input channels that already hold it. -/
theorem C13_add_input_channel_witness :
    ∃ m', (Model.mk ⟨[], [⟨2⟩]⟩ {(⟨7⟩, ⟨2⟩)} 0).add_input_channel example_uid_string ⟨7⟩ ⟨2⟩
        = .ok m' ∧
      m'.get_input_channels = {(⟨7⟩, ⟨2⟩), (⟨7⟩, ⟨2⟩)} := by
  obtain ⟨m', h1, h2, -⟩ :=
    (C13_add_input_channel example_uid_string (Model.mk ⟨[], [⟨2⟩]⟩ {(⟨7⟩, ⟨2⟩)} 0) ⟨7⟩ ⟨2⟩).2.2
      (by decide)
  exact ⟨m', h1, h2⟩

/-! ## C14 and C15: `Subscription::remove_sender` and `Subscription::add_sender` -/

/-- The example string form is injective. -/
theorem example_uid_string_injective : Function.Injective example_uid_string := by
  intro a b h
  have h1 : List.replicate a.tag 'u' = List.replicate b.tag 'u' := congrArg String.data h
  have h2 := congrArg List.length h1
  simp only [List.length_replicate] at h2
  cases a
  cases b
  simp only [UID.mk.injEq]
  exact h2

/-- C14: `remove_sender u` returns 1 if `u` was a sender and 0 otherwise; afterwards
`has_sender u` is false, `has_sender v` is as before for every `v` whose string
form differs from that of `u` (hence for every `v ≠ u`, the string form of UIDs
being injective), and the receiver and the inbox are as before. -/
theorem C14_remove_sender {T : Type} (str : UID → String) (s : Subscription T) (u : UID) :
    (s.remove_sender str u).2 = (if s.has_sender str u then 1 else 0) ∧
    (s.remove_sender str u).1.has_sender str u = false ∧
    (∀ v, str v ≠ str u → (s.remove_sender str u).1.has_sender str v = s.has_sender str v) ∧
    (Function.Injective str →
      ∀ v, v ≠ u → (s.remove_sender str u).1.has_sender str v = s.has_sender str v) ∧
    (s.remove_sender str u).1.get_receiver_uid = s.get_receiver_uid ∧
    (s.remove_sender str u).1.messages_ = s.messages_ := by
  have hne : ∀ v, str v ≠ str u →
      (s.remove_sender str u).1.has_sender str v = s.has_sender str v := by
    intro v hv
    simp [Subscription.remove_sender, Subscription.has_sender, hv]
  refine ⟨?_, ?_, hne, fun hinj v hv => hne v (fun h => hv (hinj h)), rfl, rfl⟩
  · simp [Subscription.remove_sender, Subscription.has_sender]
  · simp [Subscription.remove_sender, Subscription.has_sender]

/-- Witness of C14: removing the sender 1 from a subscription with the senders 1 and 2
keeps the sender 2. -/
theorem C14_remove_sender_witness :
    ((((Subscription.ctor ⟨9⟩ [] : Subscription Nat).add_sender example_uid_string ⟨1⟩).1.add_sender
        example_uid_string ⟨2⟩).1.remove_sender example_uid_string ⟨1⟩).1.has_sender
        example_uid_string ⟨2⟩
      = (((Subscription.ctor ⟨9⟩ [] : Subscription Nat).add_sender example_uid_string ⟨1⟩).1.add_sender
        example_uid_string ⟨2⟩).1.has_sender example_uid_string ⟨2⟩ :=
  (C14_remove_sender example_uid_string
    (((Subscription.ctor ⟨9⟩ [] : Subscription Nat).add_sender example_uid_string ⟨1⟩).1.add_sender
      example_uid_string ⟨2⟩).1 ⟨1⟩).2.2.2.1 example_uid_string_injective ⟨2⟩ (by decide)

/-- C15: `add_sender u` returns 1 if `u` was not yet a sender and 0 if it was; every
sender stays a sender and `u` is one afterwards; a second call with the same `u`
returns 0 and leaves the subscription of the first call. -/
theorem C15_add_sender {T : Type} (str : UID → String) (s : Subscription T) (u : UID) :
    (s.add_sender str u).2 = (if s.has_sender str u then 0 else 1) ∧
    (∀ v, s.has_sender str v = true → (s.add_sender str u).1.has_sender str v = true) ∧
    (s.add_sender str u).1.has_sender str u = true ∧
    s.get_senders ⊆ (s.add_sender str u).1.get_senders ∧
    ((s.add_sender str u).1.add_sender str u).2 = 0 ∧
    ((s.add_sender str u).1.add_sender str u).1.get_senders = (s.add_sender str u).1.get_senders ∧
    ((s.add_sender str u).1.add_sender str u).1.get_receiver_uid = s.get_receiver_uid ∧
    ((s.add_sender str u).1.add_sender str u).1.messages_ = s.messages_ := by
  refine ⟨?_, ?_, ?_, ?_, ?_, ?_, rfl, rfl⟩
  · simp [Subscription.add_sender, Subscription.has_sender]
  · intro v hv
    simp only [Subscription.has_sender, decide_eq_true_eq] at hv
    simp [Subscription.add_sender, Subscription.has_sender, hv]
  · simp [Subscription.add_sender, Subscription.has_sender]
  · simp [Subscription.add_sender, Subscription.get_senders]
  · simp [Subscription.add_sender]
  · simp [Subscription.add_sender, Subscription.get_senders]

/-- Witness of C15: a sender stays one when another sender is added. -/
theorem C15_add_sender_witness :
    (((Subscription.ctor ⟨9⟩ [] : Subscription Nat).add_sender example_uid_string ⟨1⟩).1.add_sender
      example_uid_string ⟨2⟩).1.has_sender example_uid_string ⟨1⟩ = true :=
  (C15_add_sender example_uid_string
    ((Subscription.ctor ⟨9⟩ [] : Subscription Nat).add_sender example_uid_string ⟨1⟩).1 ⟨2⟩).2.1
    ⟨1⟩ (C15_add_sender example_uid_string (Subscription.ctor ⟨9⟩ []) ⟨1⟩).2.2.1

/-! ## C16: the sending loop of `calculate_populations` -/

/-- C16: at the end of `calculate_populations` at step `step_` the messages passed to
`send_message` are, in population order, one `SpikeMessage` with sender = the UID
of the population, send time = `step_` and neuron indexes = its spike list for
every population whose spike list is not empty, and nothing else. -/
theorem C16_population_spike_messages (step_ : Nat) (populations_ : List (UID × List Nat)) :
    calculate_populations_send step_ populations_
      = (populations_.filter (fun p => decide (p.2 ≠ []))).map
          (fun p => { header_ := ⟨p.1, step_⟩, neuron_indexes_ := p.2 }) ∧
    (calculate_populations_send step_ populations_).length
      = populations_.countP (fun p => decide (p.2 ≠ [])) ∧
    ∀ msg ∈ calculate_populations_send step_ populations_,
      msg.header_.send_time_ = step_ ∧ msg.neuron_indexes_ ≠ [] ∧
      (msg.header_.sender_uid_, msg.neuron_indexes_) ∈ populations_ := by
  have h : calculate_populations_send step_ populations_
      = (populations_.filter (fun p => decide (p.2 ≠ []))).map
          (fun p => { header_ := ⟨p.1, step_⟩, neuron_indexes_ := p.2 }) := by
    induction populations_ with
    | nil => rfl
    | cons p ps ih =>
      obtain ⟨uid, spikes⟩ := p
      cases spikes with
      | nil => simp [calculate_populations_send, ih]
      | cons a l => simp [calculate_populations_send, ih]
  refine ⟨h, ?_, ?_⟩
  · rw [h, List.length_map, List.countP_eq_length_filter]
  · intro msg hmsg
    rw [h, List.mem_map] at hmsg
    obtain ⟨p, hp, rfl⟩ := hmsg
    rw [List.mem_filter] at hp
    exact ⟨rfl, by simpa using hp.2, hp.1⟩

/-- Witness of C16: three populations at step 4, the second without a spike. -/
theorem C16_population_spike_messages_witness :
    calculate_populations_send 4 [(⟨1⟩, [0, 2]), (⟨2⟩, []), (⟨3⟩, [1])]
      = [⟨⟨⟨1⟩, 4⟩, [0, 2]⟩, ⟨⟨⟨3⟩, 4⟩, [1]⟩] :=
  (C16_population_spike_messages 4 [(⟨1⟩, [0, 2]), (⟨2⟩, []), (⟨3⟩, [1])]).1.trans (by decide)

/-! ## C17: `MultiThreadedCPUBackend::step` -/

section step_lemmas

variable {σ : Type}

/-- A call of `step` that returns has run the six routine calls in order with the old
counter and has increased the counter by one. -/
theorem step_returns (phases : StepPhases σ) (self self' : Backend σ)
    (h : step phases self = some self') :
    self'.step_ = self.step_ + 1 ∧
    ∃ s1 s2 s3 s4 s5,
      phases.calculate_populations self.step_ self.state = some s1 ∧
      phases.route_messages s1 = some s2 ∧
      phases.receive_all_messages s2 = some s3 ∧
      phases.calculate_projections self.step_ s3 = some s4 ∧
      phases.route_messages s4 = some s5 ∧
      phases.receive_all_messages s5 = some self'.state := by
  unfold step at h
  cases h1 : phases.calculate_populations self.step_ self.state with
  | none => simp [h1] at h
  | some s1 =>
    cases h2 : phases.route_messages s1 with
    | none => simp [h1, h2] at h
    | some s2 =>
      cases h3 : phases.receive_all_messages s2 with
      | none => simp [h1, h2, h3] at h
      | some s3 =>
        cases h4 : phases.calculate_projections self.step_ s3 with
        | none => simp [h1, h2, h3, h4] at h
        | some s4 =>
          cases h5 : phases.route_messages s4 with
          | none => simp [h1, h2, h3, h4, h5] at h
          | some s5 =>
            cases h6 : phases.receive_all_messages s5 with
            | none => simp [h1, h2, h3, h4, h5, h6] at h
            | some s6 =>
              simp only [h1, h2, h3, h4, h5, h6, Option.some.injEq] at h
              subst h
              exact ⟨rfl, s1, s2, s3, s4, s5, rfl, h2, h3, h4, h5, h6⟩

/-- A call of `step` returns when its routines do. -/
theorem step_total (phases : StepPhases σ) (self : Backend σ)
    (hpop : ∀ t s, ∃ s', phases.calculate_populations t s = some s')
    (hproj : ∀ t s, ∃ s', phases.calculate_projections t s = some s')
    (hroute : ∀ s, ∃ s', phases.route_messages s = some s')
    (hreceive : ∀ s, ∃ s', phases.receive_all_messages s = some s') :
    ∃ self', step phases self = some self' := by
  obtain ⟨s1, h1⟩ := hpop self.step_ self.state
  obtain ⟨s2, h2⟩ := hroute s1
  obtain ⟨s3, h3⟩ := hreceive s2
  obtain ⟨s4, h4⟩ := hproj self.step_ s3
  obtain ⟨s5, h5⟩ := hroute s4
  obtain ⟨s6, h6⟩ := hreceive s5
  exact ⟨{ step_ := self.step_ + 1, state := s6 }, by simp [step, h1, h2, h3, h4, h5, h6]⟩

end step_lemmas

/-- C17: a call of `step` that returns has increased the counter by exactly 1, after
`calculate_populations`, route and receive, `calculate_projections`, route and
receive have run in this order, the two calculations with the old counter; `n`
calls that return take the counter from `s` to `s + n`, so it never decreases;
and the calls return whenever the four routines do. -/
theorem C17_step_counter {σ : Type} (phases : StepPhases σ) :
    (∀ self self' : Backend σ, step phases self = some self' →
      self'.step_ = self.step_ + 1 ∧
      ∃ s1 s2 s3 s4 s5,
        phases.calculate_populations self.step_ self.state = some s1 ∧
        phases.route_messages s1 = some s2 ∧
        phases.receive_all_messages s2 = some s3 ∧
        phases.calculate_projections self.step_ s3 = some s4 ∧
        phases.route_messages s4 = some s5 ∧
        phases.receive_all_messages s5 = some self'.state) ∧
    (∀ (n : Nat) (self self' : Backend σ), steps phases n self = some self' →
      self'.step_ = self.step_ + n ∧ self.step_ ≤ self'.step_) ∧
    ((∀ t s, ∃ s', phases.calculate_populations t s = some s') →
      (∀ t s, ∃ s', phases.calculate_projections t s = some s') →
      (∀ s, ∃ s', phases.route_messages s = some s') →
      (∀ s, ∃ s', phases.receive_all_messages s = some s') →
      ∀ (n : Nat) (self : Backend σ), ∃ self', steps phases n self = some self') := by
  refine ⟨step_returns phases, ?_, ?_⟩
  · intro n
    induction n with
    | zero =>
      intro self self' h
      simp only [steps, Option.some.injEq] at h
      subst h
      exact ⟨rfl, le_refl _⟩
    | succ n ih =>
      intro self self' h
      unfold steps at h
      cases h1 : step phases self with
      | none => simp [h1] at h
      | some mid =>
        simp only [h1] at h
        obtain ⟨hmid, -⟩ := step_returns phases self mid h1
        obtain ⟨hn, -⟩ := ih mid self' h
        constructor <;> omega
  · intro hpop hproj hroute hreceive n
    induction n with
    | zero => intro self; exact ⟨self, rfl⟩
    | succ n ih =>
      intro self
      obtain ⟨mid, hmid⟩ := step_total phases self hpop hproj hroute hreceive
      obtain ⟨self', h⟩ := ih mid
      exact ⟨self', by simp [steps, hmid, h]⟩

/-- Witness of C17: three calls of `step` with routines that return, from the
counter 4. -/
theorem C17_step_counter_witness :
    ∃ self', steps idle_phases 3 ⟨4, ()⟩ = some self' ∧ self'.step_ = 4 + 3 :=
  have h := (C17_step_counter idle_phases).2.2 (fun _ s => ⟨s, rfl⟩) (fun _ s => ⟨s, rfl⟩)
    (fun s => ⟨s, rfl⟩) (fun s => ⟨s, rfl⟩) 3 ⟨4, ()⟩
  ⟨h.choose, h.choose_spec,
    ((C17_step_counter idle_phases).2.1 3 ⟨4, ()⟩ h.choose h.choose_spec).1⟩

/-! ## C18: the assertions of `register_additive_stdp_spikes` -/

section register_total

variable {F : Type}

/-- The loop body fails exactly for a sender registered as `SpikeOnly`, and then with
the final assertion. -/
theorem register_message_fails_iff (projection : Projection F) (msg : SpikeMessage) :
    (projection.stdp_populations_.lookup msg.header_.sender_uid_ = some .SpikeOnly →
      register_additive_stdp_spikes_message projection msg = .error
        ⟨"processing_type == ProcessingType::STDPAndSpike || processing_type == ProcessingType::STDPOnly"⟩) ∧
    (projection.stdp_populations_.lookup msg.header_.sender_uid_ ≠ some .SpikeOnly →
      ∃ projection' msg', register_additive_stdp_spikes_message projection msg
          = .ok (projection', msg') ∧
        projection'.stdp_populations_ = projection.stdp_populations_) := by
  obtain ⟨hnone, honly, hboth, -⟩ := register_message_cases projection msg
  refine ⟨fun h => ?_, fun h => ?_⟩
  · simp [register_additive_stdp_spikes_message, h]
  · cases hl : projection.stdp_populations_.lookup msg.header_.sender_uid_ with
    | none => exact ⟨_, _, hnone hl, rfl⟩
    | some processing_type =>
      cases processing_type with
      | SpikeOnly => exact absurd hl h
      | STDPOnly => exact ⟨_, _, honly hl, rfl⟩
      | STDPAndSpike => exact ⟨_, _, hboth hl, rfl⟩

end register_total

/-- C18 (counterexample): with a table that maps the sender 2 to `SpikeOnly`, a message
of the sender 2 makes `register_additive_stdp_spikes` stop at its final assertion. -/
theorem C18_spike_only_sender_counterexample :
    (single_synapse_projection .SpikeOnly).stdp_populations_.lookup ⟨2⟩ = some .SpikeOnly ∧
    register_additive_stdp_spikes (single_synapse_projection .SpikeOnly) [⟨⟨⟨2⟩, 7⟩, [1]⟩]
      = .error
        ⟨"processing_type == ProcessingType::STDPAndSpike || processing_type == ProcessingType::STDPOnly"⟩ ∧
    ¬ ∃ r, register_additive_stdp_spikes (single_synapse_projection .SpikeOnly)
        [⟨⟨⟨2⟩, 7⟩, [1]⟩] = .ok r := by
  refine ⟨rfl, rfl, ?_⟩
  rintro ⟨r, h⟩
  have herr : register_additive_stdp_spikes (single_synapse_projection .SpikeOnly)
      [⟨⟨⟨2⟩, 7⟩, [1]⟩] = .error
        ⟨"processing_type == ProcessingType::STDPAndSpike || processing_type == ProcessingType::STDPOnly"⟩ :=
    rfl
  rw [herr] at h
  cases h

/-- C18 (amended): `register_additive_stdp_spikes` completes without a failed assertion
when the table maps the sender of no message to `SpikeOnly`; when it maps the
sender of some message to `SpikeOnly` the call stops at the final assertion
`processing_type == STDPAndSpike || processing_type == STDPOnly`. -/
theorem C18_register_completes_unless_spike_only {F : Type} (projection : Projection F)
    (all_messages : List SpikeMessage) :
    ((∀ m ∈ all_messages,
        projection.stdp_populations_.lookup m.header_.sender_uid_ ≠ some .SpikeOnly) →
      ∃ r, register_additive_stdp_spikes projection all_messages = .ok r) ∧
    ((∃ m ∈ all_messages,
        projection.stdp_populations_.lookup m.header_.sender_uid_ = some .SpikeOnly) →
      register_additive_stdp_spikes projection all_messages = .error
        ⟨"processing_type == ProcessingType::STDPAndSpike || processing_type == ProcessingType::STDPOnly"⟩) := by
  induction all_messages generalizing projection with
  | nil =>
    refine ⟨fun _ => ⟨_, rfl⟩, ?_⟩
    rintro ⟨m, hm, -⟩
    simp at hm
  | cons msg rest ih =>
    obtain ⟨hfail, hok⟩ := register_message_fails_iff projection msg
    by_cases hmsg : projection.stdp_populations_.lookup msg.header_.sender_uid_ = some .SpikeOnly
    · refine ⟨fun hall => absurd hmsg (hall msg (by simp)), fun _ => ?_⟩
      simp [register_additive_stdp_spikes, hfail hmsg]
    · obtain ⟨p1, msg1, hbody, htable⟩ := hok hmsg
      obtain ⟨ih1, ih2⟩ := ih p1
      rw [htable] at ih1 ih2
      refine ⟨fun hall => ?_, ?_⟩
      · obtain ⟨r, hr⟩ := ih1 (fun m hm => hall m (by simp [hm]))
        exact ⟨(r.1, msg1 :: r.2), by simp [register_additive_stdp_spikes, hbody, hr]⟩
      · rintro ⟨m, hm, hspike⟩
        rcases List.mem_cons.mp hm with rfl | hm
        · exact absurd hspike hmsg
        · simp [register_additive_stdp_spikes, hbody, ih2 ⟨m, hm, hspike⟩]

/-- Witness of C18: a message of the `STDPAndSpike` sender 2 and one of the
unregistered sender 4. -/
theorem C18_register_completes_witness :
    ∃ r, register_additive_stdp_spikes (single_synapse_projection .STDPAndSpike)
      [⟨⟨⟨2⟩, 7⟩, [1]⟩, ⟨⟨⟨4⟩, 7⟩, [1]⟩] = .ok r :=
  (C18_register_completes_unless_spike_only (single_synapse_projection .STDPAndSpike)
    [⟨⟨⟨2⟩, 7⟩, [1]⟩, ⟨⟨⟨4⟩, 7⟩, [1]⟩]).1 (by decide)

/-! ## C19: a projection with an empty inbox in `calculate_projections` -/

section projections_lemmas

variable {F : Type}

/-- The dispatch loop over an empty range posts nothing, whatever the fuel. -/
theorem dispatch_loop_empty (per_thread fuel index : Nat) :
    dispatch_loop 0 per_thread fuel index = some [] := by
  cases fuel <;> simp [dispatch_loop]

/-- An inbox that is empty stays empty when an inbox is unloaded. -/
theorem unload_keeps_empty (ep : MessageEndpoint) (receiver_uid uid : UID)
    (h : ep.spike_inbox uid = []) :
    (ep.unload_messages receiver_uid).2.spike_inbox uid = [] := by
  by_cases hu : uid = receiver_uid <;> simp [MessageEndpoint.unload_messages, hu, h]

/-- One iteration of the first loop leaves the endpoint with the inbox of the
projection unloaded. -/
theorem calculate_projections_projection_endpoint (calculate_projection_part : ProjectionPart F)
    (fuel step_ spikes_per_thread_ : Nat) (ep : MessageEndpoint) (w : ProjectionWrapper F)
    (r : ProjectionStep F)
    (h : calculate_projections_projection calculate_projection_part fuel step_
      spikes_per_thread_ ep w = some r) :
    r.message_endpoint_ = (ep.unload_messages w.arg_.uid_).2 := by
  unfold calculate_projections_projection at h
  simp only [MessageEndpoint.unload_messages] at h ⊢
  split at h
  · cases h
  · simp only [Option.some.injEq] at h
    rw [← h]

/-- One iteration of the first loop for a projection whose inbox is empty: the
effective message is the sentinel, no task is posted and the projection with its
pending queue is as before. -/
theorem calculate_projections_projection_empty (calculate_projection_part : ProjectionPart F)
    (fuel step_ spikes_per_thread_ : Nat) (ep : MessageEndpoint) (w : ProjectionWrapper F)
    (h : ep.spike_inbox w.arg_.uid_ = []) :
    calculate_projections_projection calculate_projection_part fuel step_
      spikes_per_thread_ ep w
      = some { message_endpoint_ := (ep.unload_messages w.arg_.uid_).2
               projection := w
               msg := { header_ := ⟨UID.nil, step_⟩, neuron_indexes_ := [] }
               posted := [] } := by
  unfold calculate_projections_projection
  simp only [MessageEndpoint.unload_messages, h, List.length_nil, dispatch_loop_empty,
    List.foldl_nil]

/-- What the first loop yields at the place of a projection is what one iteration
yields for it, run on an endpoint in which every inbox that was empty at the
start is still empty. -/
theorem calculate_projections_loop_get (calculate_projection_part : ProjectionPart F)
    (fuel step_ spikes_per_thread_ : Nat) (projections_ : List (ProjectionWrapper F)) :
    ∀ (ep : MessageEndpoint) (l : ProjectionsLoop F),
      calculate_projections_loop calculate_projection_part fuel step_ spikes_per_thread_
        ep projections_ = some l →
      l.projections_.length = projections_.length ∧
      ∀ (i : Nat) (w : ProjectionWrapper F), projections_[i]? = some w →
        ∃ (ep_i : MessageEndpoint) (r : ProjectionStep F),
          (∀ uid, ep.spike_inbox uid = [] → ep_i.spike_inbox uid = []) ∧
          calculate_projections_projection calculate_projection_part fuel step_
            spikes_per_thread_ ep_i w = some r ∧
          l.projections_[i]? = some r.projection ∧
          l.messages[i]? = some r.msg ∧
          l.posted[i]? = some r.posted := by
  induction projections_ with
  | nil =>
    intro ep l h
    simp only [calculate_projections_loop, Option.some.injEq] at h
    subst h
    simp
  | cons p ps ih =>
    intro ep l h
    unfold calculate_projections_loop at h
    cases hp : calculate_projections_projection calculate_projection_part fuel step_
        spikes_per_thread_ ep p with
    | none => simp [hp] at h
    | some r =>
      cases hrest : calculate_projections_loop calculate_projection_part fuel step_
          spikes_per_thread_ r.message_endpoint_ ps with
      | none => simp [hp, hrest] at h
      | some rest =>
        simp only [hp, hrest, Option.some.injEq] at h
        subst h
        obtain ⟨hlen, hget⟩ := ih r.message_endpoint_ rest hrest
        refine ⟨by simp [hlen], ?_⟩
        intro i w hw
        cases i with
        | zero =>
          simp only [List.getElem?_cons_zero, Option.some.injEq] at hw
          subst hw
          exact ⟨ep, r, fun _ hu => hu, hp, by simp, by simp, by simp⟩
        | succ i =>
          simp only [List.getElem?_cons_succ] at hw
          obtain ⟨ep_i, r_i, hempty, hbody, h1, h2, h3⟩ := hget i w hw
          refine ⟨ep_i, r_i, ?_, hbody, by simpa using h1, by simpa using h2,
            by simpa using h3⟩
          intro uid hu
          apply hempty
          rw [calculate_projections_projection_endpoint _ _ _ _ _ _ _ hp]
          exact unload_keeps_empty ep p.arg_.uid_ uid hu

/-- The vector `messages` of the first loop is the one of the message selection
alone. -/
theorem calculate_projections_loop_messages (calculate_projection_part : ProjectionPart F)
    (fuel step_ spikes_per_thread_ : Nat) (projections_ : List (ProjectionWrapper F)) :
    ∀ (ep : MessageEndpoint) (l : ProjectionsLoop F),
      calculate_projections_loop calculate_projection_part fuel step_ spikes_per_thread_
        ep projections_ = some l →
      l.messages = calculate_projections_messages step_ ep
        (projections_.map fun p => p.arg_.uid_) := by
  induction projections_ with
  | nil =>
    intro ep l h
    simp only [calculate_projections_loop, Option.some.injEq] at h
    subst h
    rfl
  | cons p ps ih =>
    intro ep l h
    unfold calculate_projections_loop at h
    cases hp : calculate_projections_projection calculate_projection_part fuel step_
        spikes_per_thread_ ep p with
    | none => simp [hp] at h
    | some r =>
      cases hrest : calculate_projections_loop calculate_projection_part fuel step_
          spikes_per_thread_ r.message_endpoint_ ps with
      | none => simp [hp, hrest] at h
      | some rest =>
        simp only [hp, hrest, Option.some.injEq] at h
        subst h
        have hep := calculate_projections_projection_endpoint _ _ _ _ _ _ _ hp
        have hmsg : r.msg = (match ep.spike_inbox p.arg_.uid_ with
            | [] => { header_ := ⟨UID.nil, step_⟩, neuron_indexes_ := [] }
            | msg :: _ => msg) := by
          unfold calculate_projections_projection at hp
          simp only [MessageEndpoint.unload_messages] at hp
          split at hp
          · cases hp
          · simp only [Option.some.injEq] at hp
            rw [← hp]
        simp only [List.map_cons, calculate_projections_messages, ih _ _ hrest, hep, hmsg,
          MessageEndpoint.unload_messages]

/-- The first loop returns when the inbox of every projection is empty. -/
theorem calculate_projections_loop_empty (calculate_projection_part : ProjectionPart F)
    (fuel step_ spikes_per_thread_ : Nat) (projections_ : List (ProjectionWrapper F)) :
    ∀ ep : MessageEndpoint, (∀ p ∈ projections_, ep.spike_inbox p.arg_.uid_ = []) →
      ∃ l, calculate_projections_loop calculate_projection_part fuel step_
        spikes_per_thread_ ep projections_ = some l := by
  induction projections_ with
  | nil => intro ep _; exact ⟨_, rfl⟩
  | cons p ps ih =>
    intro ep hall
    have hp := calculate_projections_projection_empty calculate_projection_part fuel step_
      spikes_per_thread_ ep p (hall p (by simp))
    obtain ⟨rest, hrest⟩ := ih (ep.unload_messages p.arg_.uid_).2
      (fun q hq => unload_keeps_empty ep _ _ (hall q (by simp [hq])))
    refine ⟨{ message_endpoint_ := rest.message_endpoint_
              projections_ := p :: rest.projections_
              messages := { header_ := ⟨UID.nil, step_⟩, neuron_indexes_ := [] } :: rest.messages
              posted := [] :: rest.posted }, ?_⟩
    simp only [calculate_projections_loop, hp, hrest]

end projections_lemmas

/-- C19: for a projection whose spike inbox is empty, one iteration of the first loop
of `calculate_projections` at step `step_` returns, whatever the fuel and the
chunk size, with the sentinel as effective message (no neuron index, send time
`step_`), no task posted and the projection with its pending queue as before; in
everything `calculate_projections` returns the projection stands at its place
with the sentinel, no posted task, the same `arg_`, no entry that was not there,
and every entry keyed by a step other than `step_` as before; and
`calculate_projections` returns when the inbox of every projection is empty. -/
theorem C19_empty_inbox {F : Type} (calculate_projection_part : ProjectionPart F)
    (fuel step_ spikes_per_thread_ : Nat) (message_endpoint_ : MessageEndpoint)
    (projections_ : List (ProjectionWrapper F)) (i : Nat) (w : ProjectionWrapper F)
    (hw : projections_[i]? = some w)
    (hempty : message_endpoint_.spike_inbox w.arg_.uid_ = []) :
    (∃ r, calculate_projections_projection calculate_projection_part fuel step_
        spikes_per_thread_ message_endpoint_ w = some r ∧
      r.msg = { header_ := ⟨UID.nil, step_⟩, neuron_indexes_ := [] } ∧
      r.posted = [] ∧ r.projection = w) ∧
    (∀ result, calculate_projections calculate_projection_part fuel step_ spikes_per_thread_
        message_endpoint_ projections_ = some result →
      result.messages[i]? = some { header_ := ⟨UID.nil, step_⟩, neuron_indexes_ := [] } ∧
      result.posted[i]? = some [] ∧
      ∃ w', result.projections_[i]? = some w' ∧ w'.arg_ = w.arg_ ∧
        (∀ key msg, w'.messages_ key = some msg → w.messages_ key = some msg) ∧
        (∀ key, key ≠ step_ → w'.messages_ key = w.messages_ key)) ∧
    ((∀ p ∈ projections_, message_endpoint_.spike_inbox p.arg_.uid_ = []) →
      ∃ result, calculate_projections calculate_projection_part fuel step_
        spikes_per_thread_ message_endpoint_ projections_ = some result) := by
  refine ⟨⟨_, calculate_projections_projection_empty calculate_projection_part fuel step_
    spikes_per_thread_ message_endpoint_ w hempty, rfl, rfl, rfl⟩, ?_, ?_⟩
  swap
  · intro hall
    obtain ⟨l, hl⟩ := calculate_projections_loop_empty calculate_projection_part fuel step_
      spikes_per_thread_ projections_ message_endpoint_ hall
    refine ⟨{ message_endpoint_ := l.message_endpoint_
              projections_ := (calculate_projections_send step_ l.projections_).1
              messages := l.messages
              posted := l.posted
              sent := (calculate_projections_send step_ l.projections_).2 }, ?_⟩
    simp only [calculate_projections, hl]
  intro result h
  unfold calculate_projections at h
  cases hloop : calculate_projections_loop calculate_projection_part fuel step_
      spikes_per_thread_ message_endpoint_ projections_ with
  | none => simp [hloop] at h
  | some l =>
    simp only [hloop, Option.some.injEq] at h
    subst h
    obtain ⟨-, hget⟩ := calculate_projections_loop_get calculate_projection_part fuel step_
      spikes_per_thread_ projections_ message_endpoint_ l hloop
    obtain ⟨ep_i, r, hkeep, hbody, h1, h2, h3⟩ := hget i w hw
    rw [calculate_projections_projection_empty calculate_projection_part fuel step_
      spikes_per_thread_ ep_i w (hkeep _ hempty)] at hbody
    simp only [Option.some.injEq] at hbody
    subst hbody
    refine ⟨h2, h3, ?_⟩
    obtain ⟨hsend, -⟩ := calculate_projections_send_spec step_ l.projections_
    refine ⟨{ w with messages_ := w.messages_.erase step_ }, ?_, rfl, ?_, ?_⟩
    · simp only [hsend, List.getElem?_map, h1, Option.map_some']
    · intro key msg hkey
      by_cases hk : key = step_
      · simp [SynapticMessageQueue.erase, hk] at hkey
      · simpa [SynapticMessageQueue.erase, hk] using hkey
    · intro key hkey
      simp [SynapticMessageQueue.erase, hkey]

/-- Witness of C19: a projection with an empty inbox at step 5, with no fuel and the
chunk size 0: the iteration returns the sentinel, posts no task and leaves the
projection as it was. -/
theorem C19_empty_inbox_witness :
    ∃ r, calculate_projections_projection (fun p _ q _ _ _ => (p, q)) 0 5 0
        ⟨fun _ => []⟩ (example_wrapper ⟨1⟩ ⟨2⟩ ⟨3⟩ example_queue) = some r ∧
      r.msg = { header_ := ⟨UID.nil, 5⟩, neuron_indexes_ := [] } ∧
      r.posted = [] ∧ r.projection = example_wrapper ⟨1⟩ ⟨2⟩ ⟨3⟩ example_queue :=
  (C19_empty_inbox (fun p _ q _ _ _ => (p, q)) 0 5 0 ⟨fun _ => []⟩
    [example_wrapper ⟨1⟩ ⟨2⟩ ⟨3⟩ example_queue, example_wrapper ⟨4⟩ ⟨3⟩ ⟨2⟩ (fun _ => none)]
    0 (example_wrapper ⟨1⟩ ⟨2⟩ ⟨3⟩ example_queue) rfl rfl).1

section envelope_lemmas

/-- A field of `width` bytes has `width` bytes. -/
theorem length_encode_le (width : Nat) : ∀ x : Nat, (encode_le width x).length = width := by
  induction width with
  | zero => intro x; rfl
  | succ w ih => intro x; simp [encode_le, ih]

/-- Decoding the bytes of a number that fits the field gives the number back. -/
theorem decode_encode_le (width : Nat) :
    ∀ x : Nat, x < 256 ^ width → decode_le (encode_le width x) = x := by
  induction width with
  | zero => intro x hx; simp at hx; simp [encode_le, decode_le, hx]
  | succ w ih =>
    intro x hx
    have hdiv : x / 256 < 256 ^ w := by
      rw [Nat.div_lt_iff_lt_mul (by norm_num)]
      rw [pow_succ] at hx
      exact hx
    simp only [encode_le, decode_le, ih _ hdiv]
    omega

/-- Reading a field right after it was written. -/
theorem read_le_encode_le (width x : Nat) (rest : List Nat) (hx : x < 256 ^ width) :
    read_le width (encode_le width x ++ rest) = some (x, rest) := by
  have hlen := length_encode_le width x
  unfold read_le
  rw [if_neg (by simp [hlen])]
  have h1 : List.take width (encode_le width x ++ rest) = encode_le width x := by
    have := List.take_left (encode_le width x) rest
    rwa [hlen] at this
  have h2 : List.drop width (encode_le width x ++ rest) = rest := by
    have := List.drop_left (encode_le width x) rest
    rwa [hlen] at this
  rw [h1, h2, decode_encode_le width x hx]

/-- Reading a sequence of records right after it was written. -/
theorem read_many_flatMap {α : Type} (read : List Nat → Option (α × List Nat))
    (write : α → List Nat) (l : List α) (rest : List Nat)
    (h : ∀ a ∈ l, ∀ rest', read (write a ++ rest') = some (a, rest')) :
    read_many read l.length (l.flatMap write ++ rest) = some (l, rest) := by
  induction l with
  | nil => rfl
  | cons a l ih =>
    have ha := h a (by simp) (l.flatMap write ++ rest)
    have hl := ih (fun b hb => h b (by simp [hb]))
    simp [read_many, List.flatMap_cons, List.append_assoc, ha, hl]

/-- Reading an impact right after it was written. -/
theorem read_impact_pack_impact (impact : SynapticImpact) (rest : List Nat)
    (h : impact.pre_index < 2 ^ 32 ∧ impact.post_index < 2 ^ 32 ∧ impact.value < 2 ^ 32 ∧
      impact.kind < 2 ^ 8) :
    read_impact (pack_impact impact ++ rest) = some (impact, rest) := by
  obtain ⟨h1, h2, h3, h4⟩ := h
  unfold read_impact pack_impact
  simp only [List.append_assoc]
  rw [read_le_encode_le 4 _ _ (by norm_num; exact h1)]
  simp only []
  rw [read_le_encode_le 4 _ _ (by norm_num; exact h2)]
  simp only []
  rw [read_le_encode_le 4 _ _ (by norm_num; exact h3)]
  simp only []
  rw [read_le_encode_le 1 _ _ (by norm_num; exact h4)]

end envelope_lemmas

/-! ## C20: the envelope round trip -/

/-- C20: for every message that fits the envelope layout (UIDs below `2 ^ 128`, step
below `2 ^ 64`, fewer than `2 ^ 32` indexes or impacts, every index and impact field
within its width), extracting from the packed envelope gives the message back. -/
theorem C20_envelope_round_trip (v : MessageVariant) (hv : v.valid) :
    extract_from_envelope (pack_to_envelope v) = some v := by
  cases v with
  | spike m =>
    obtain ⟨h1, h2, h3, h4⟩ := hv
    unfold extract_from_envelope pack_to_envelope
    simp only [List.append_assoc]
    rw [read_le_encode_le 16 _ _ (by norm_num; exact h1)]
    simp only []
    rw [read_le_encode_le 8 _ _ (by norm_num; exact h2)]
    simp only [if_true]
    rw [read_le_encode_le 4 _ _ (by norm_num; exact h3)]
    simp only []
    have hmany := read_many_flatMap (read_le 4) (encode_le 4) m.neuron_indexes_ []
      (fun a ha rest' => read_le_encode_le 4 a rest' (by norm_num; exact h4 a ha))
    rw [List.append_nil] at hmany
    rw [hmany]
  | impact m =>
    obtain ⟨h1, h2, h3, h4, h5⟩ := hv
    unfold extract_from_envelope pack_to_envelope
    simp only [List.append_assoc]
    rw [read_le_encode_le 16 _ _ (by norm_num; exact h1)]
    simp only []
    rw [read_le_encode_le 8 _ _ (by norm_num; exact h2)]
    simp only [if_true, one_ne_zero, if_false]
    rw [read_le_encode_le 16 _ _ (by norm_num; exact h3)]
    simp only []
    rw [read_le_encode_le 4 _ _ (by norm_num; exact h4)]
    simp only []
    have hmany := read_many_flatMap read_impact pack_impact m.impacts_ []
      (fun a ha rest' => read_impact_pack_impact a rest' (h5 a ha))
    rw [List.append_nil] at hmany
    rw [hmany]

/-- Witness of C20: an impact message with 1000 impacts, one with none, and a spike
message with three indexes. -/
theorem C20_envelope_round_trip_witness :
    extract_from_envelope (pack_to_envelope
        (.impact ⟨⟨⟨300⟩, 7⟩, ⟨5⟩, List.replicate 1000 ⟨1, 2, 1065353216, 3⟩⟩))
      = some (.impact ⟨⟨⟨300⟩, 7⟩, ⟨5⟩, List.replicate 1000 ⟨1, 2, 1065353216, 3⟩⟩) ∧
    extract_from_envelope (pack_to_envelope (.impact ⟨⟨⟨300⟩, 7⟩, ⟨5⟩, []⟩))
      = some (.impact ⟨⟨⟨300⟩, 7⟩, ⟨5⟩, []⟩) ∧
    extract_from_envelope (pack_to_envelope (.spike ⟨⟨⟨300⟩, 7⟩, [0, 1, 258]⟩))
      = some (.spike ⟨⟨⟨300⟩, 7⟩, [0, 1, 258]⟩) :=
  ⟨C20_envelope_round_trip _
      ⟨by norm_num, by norm_num, by norm_num,
        by show (List.replicate 1000 _).length < 2 ^ 32; rw [List.length_replicate]; norm_num,
        fun i hi => by rw [List.eq_of_mem_replicate hi]; norm_num⟩,
    C20_envelope_round_trip _
      ⟨by norm_num, by norm_num, by norm_num, by simp, fun i hi => by simp at hi⟩,
    C20_envelope_round_trip _
      ⟨by norm_num, by norm_num, by simp, fun i hi => by
        simp at hi; rcases hi with rfl | rfl | rfl <;> norm_num⟩⟩

open neuron_traits

/-! ## C21: the capacity of the spike-time queues in `append_spike_times` -/

section capacity_lemmas

variable {F : Type}

/-- Nothing appended is a growth within capacity. -/
theorem grown_within_capacity_refl (spike_queue : SpikeQueue) (t : Nat)
    (parameters : List (Synapse F)) :
    grown_within_capacity spike_queue t parameters parameters := by
  refine ⟨rfl, fun j s hs => ⟨0, Nat.zero_le _, ?_⟩⟩
  rw [extend_zero]
  exact hs

/-- The innermost loop body keeps a growth within capacity. -/
theorem grown_within_capacity_modify (message : SpikeMessage) (spike_queue : SpikeQueue)
    (synapse_index : Nat) (parameters parameters' : List (Synapse F))
    (h : grown_within_capacity spike_queue message.header_.send_time_ parameters parameters') :
    grown_within_capacity spike_queue message.header_.send_time_ parameters
      (List.modify (append_spike_time message spike_queue) synapse_index parameters') := by
  obtain ⟨hlen, hget⟩ := h
  refine ⟨by rw [List.length_modify, hlen], ?_⟩
  intro j s hs
  obtain ⟨k, hk, hj⟩ := hget j s hs
  rw [List.getElem?_modify, hj]
  by_cases hidx : synapse_index = j
  · simp only [hidx, if_true, Option.map_eq_map, Option.map_some']
    rw [append_spike_time_eq]
    obtain ⟨-, -, -, -, h5, h6, h7⟩ :=
      extend_fields s spike_queue k message.header_.send_time_
    rw [h5, h6, h7]
    by_cases hroom : (s.params_.rule_.queue spike_queue).length + k
        < s.params_.rule_.tau_minus_ + s.params_.rule_.tau_plus_
    · rw [if_pos hroom, extend_extend]
      exact ⟨k + 1, by omega, rfl⟩
    · rw [if_neg hroom]
      exact ⟨k, hk, rfl⟩
  · simp only [hidx, if_false, Option.map_eq_map, Option.map_some']
    exact ⟨k, hk, rfl⟩

/-- The loop over the synapse indexes of one neuron keeps a growth within capacity. -/
theorem grown_within_capacity_indexes (message : SpikeMessage) (spike_queue : SpikeQueue)
    (parameters : List (Synapse F)) (idxs : List Nat) :
    ∀ parameters' : List (Synapse F),
      grown_within_capacity spike_queue message.header_.send_time_ parameters parameters' →
      grown_within_capacity spike_queue message.header_.send_time_ parameters
        (idxs.foldl (fun L i => List.modify (append_spike_time message spike_queue) i L)
          parameters') := by
  induction idxs with
  | nil => intro parameters' h; exact h
  | cons i idxs ih =>
    intro parameters' h
    exact ih _ (grown_within_capacity_modify message spike_queue i parameters parameters' h)

/-- For every index getter `append_spike_times` is a growth within capacity. -/
theorem append_spike_times_grown (message : SpikeMessage)
    (synapse_index_getter : Projection F → Nat → List Nat) (spike_queue : SpikeQueue)
    (parameters : List (Synapse F)) :
    ∀ projection : Projection F,
      grown_within_capacity spike_queue message.header_.send_time_ parameters
        projection.parameters_ →
      grown_within_capacity spike_queue message.header_.send_time_ parameters
        (append_spike_times projection message synapse_index_getter spike_queue).parameters_ := by
  unfold append_spike_times
  generalize message.neuron_indexes_ = ns
  induction ns with
  | nil => intro projection h; exact h
  | cons n ns ih =>
    intro projection h
    simp only [List.foldl_cons]
    apply ih
    rw [foldl_modify_projection]
    exact grown_within_capacity_indexes message spike_queue parameters _ _ h

/-- The selected queue of an extended synapse. -/
theorem extend_queue (s : Synapse F) (spike_queue : SpikeQueue) (k t : Nat) :
    (s.extend spike_queue k t).params_.rule_.queue spike_queue
      = s.params_.rule_.queue spike_queue ++ List.replicate k (t % 2 ^ 32) := by
  cases spike_queue <;> rfl

end capacity_lemmas

/-- C21 (counterexample): a message with send time `2 ^ 32 + 5` and neuron index 1
makes the empty postsynaptic queue of the synapse 0 → 1 grow to `[5]`, which is
not a list of copies of the send time. -/
theorem C21_queue_grows_by_truncated_send_time_counterexample :
    (append_spike_times (single_synapse_projection .STDPOnly) ⟨⟨⟨2⟩, 4294967301⟩, [1]⟩
        Projection.get_by_postsynaptic_neuron .postsynaptic_spike_times_).parameters_.map
        (fun s => s.params_.rule_.postsynaptic_spike_times_) = [[5]] ∧
    ∀ k : Nat, ([5] : List Nat) ≠ [] ++ List.replicate k 4294967301 := by
  refine ⟨rfl, fun k h => ?_⟩
  cases k with
  | zero => simp at h
  | succ k => simp [List.replicate_succ] at h

/-- C21 (amended): for every message, index getter and selected queue,
`append_spike_times` leaves every synapse at its place with its selected queue
followed by some copies of the send time reduced modulo `2 ^ 32` (the queue
stores `uint32_t`) and with everything else as before; a queue with at most
`tau_plus + tau_minus` entries has at most that many afterwards, and a synapse
whose queue has at least that many entries is unchanged. -/
theorem C21_append_spike_times_capacity {F : Type} (projection : Projection F)
    (message : SpikeMessage) (synapse_index_getter : Projection F → Nat → List Nat)
    (spike_queue : SpikeQueue) (j : Nat) (s : Synapse F)
    (hs : projection.parameters_[j]? = some s) :
    (append_spike_times projection message synapse_index_getter spike_queue).parameters_.length
      = projection.parameters_.length ∧
    ∃ (k : Nat) (s' : Synapse F),
      (append_spike_times projection message synapse_index_getter
        spike_queue).parameters_[j]? = some s' ∧
      s' = s.extend spike_queue k message.header_.send_time_ ∧
      s'.params_.rule_.queue spike_queue
        = s.params_.rule_.queue spike_queue ++
          List.replicate k (message.header_.send_time_ % 2 ^ 32) ∧
      ((s.params_.rule_.queue spike_queue).length
          ≤ s.params_.rule_.tau_plus_ + s.params_.rule_.tau_minus_ →
        (s'.params_.rule_.queue spike_queue).length
          ≤ s.params_.rule_.tau_plus_ + s.params_.rule_.tau_minus_) ∧
      (s.params_.rule_.tau_plus_ + s.params_.rule_.tau_minus_
          ≤ (s.params_.rule_.queue spike_queue).length → s' = s) := by
  obtain ⟨hlen, hget⟩ := append_spike_times_grown message synapse_index_getter spike_queue
    projection.parameters_ projection
    (grown_within_capacity_refl spike_queue message.header_.send_time_ projection.parameters_)
  obtain ⟨k, hk, hj⟩ := hget j s hs
  refine ⟨hlen, k, _, hj, rfl, extend_queue s spike_queue k _, ?_, ?_⟩
  · intro hle
    rw [extend_queue, List.length_append, List.length_replicate]
    omega
  · intro hfull
    have hk0 : k = 0 := by omega
    rw [hk0, extend_zero]

/-- Witness of C21: the synapse 0 → 1 with capacity 2 and an empty postsynaptic
queue, and a message with three neuron indexes 1: the queue stays within the
capacity. -/
theorem C21_append_spike_times_capacity_witness :
    ∃ (k : Nat) (s' : Synapse ℚ),
      (append_spike_times (single_synapse_projection .STDPOnly) ⟨⟨⟨2⟩, 7⟩, [1, 1, 1]⟩
        Projection.get_by_postsynaptic_neuron .postsynaptic_spike_times_).parameters_[0]?
        = some s' ∧
      s'.params_.rule_.postsynaptic_spike_times_ = [] ++ List.replicate k (7 % 2 ^ 32) ∧
      s'.params_.rule_.postsynaptic_spike_times_.length ≤ 1 + 1 := by
  obtain ⟨-, k, s', h1, -, h3, h4, -⟩ :=
    C21_append_spike_times_capacity (single_synapse_projection .STDPOnly)
      ⟨⟨⟨2⟩, 7⟩, [1, 1, 1]⟩ Projection.get_by_postsynaptic_neuron .postsynaptic_spike_times_ 0
      ⟨⟨0, 1, 1 / 2, 1, ⟨1, 1, [], []⟩⟩⟩ rfl
  exact ⟨k, s', h1, h3, h4 (by decide)⟩

/-! ## C22: the dispatch loops of `calculate_populations` -/

section dispatch_lemmas

/-- The number of chunks of a range and of the range without its first chunk. -/
theorem chunks_succ (m k : Nat) (hk : 1 ≤ k) (hm : 1 ≤ m) :
    (m + k - 1) / k = (m - k + k - 1) / k + 1 := by
  by_cases h : k ≤ m
  · have h1 : m + k - 1 = (m - 1) + k := by omega
    have h2 : m - k + k - 1 = m - 1 := by omega
    rw [h1, h2, Nat.add_div_right _ (by omega)]
  · have h1 : m - k + k - 1 = k - 1 := by omega
    rw [h1, Nat.div_eq_of_lt (by omega : k - 1 < k)]
    have h2 : m + k - 1 = (m - 1) + k := by omega
    rw [h2, Nat.add_div_right _ (by omega), Nat.div_eq_of_lt (by omega : m - 1 < k)]

/-- With a positive chunk size and enough fuel the dispatch loop ends, and it posts
the indexes `index`, `index + k`, `index + 2 k`, ... below `size`. -/
theorem dispatch_loop_returns (size per_thread : Nat) (hk : 1 ≤ per_thread) :
    ∀ fuel index : Nat, size - index ≤ fuel →
      dispatch_loop size per_thread fuel index
        = some ((List.range ((size - index + per_thread - 1) / per_thread)).map
            (fun j => index + j * per_thread)) := by
  intro fuel
  induction fuel with
  | zero =>
    intro index h
    have hi : ¬ index < size := by omega
    have h0 : size - index = 0 := by omega
    simp [dispatch_loop, hi, h0, Nat.div_eq_of_lt (by omega : per_thread - 1 < per_thread)]
  | succ fuel ih =>
    intro index h
    by_cases hi : index < size
    · have hrec := ih (index + per_thread) (by omega)
      have hchunks := chunks_succ (size - index) per_thread hk (by omega)
      have hsub : size - (index + per_thread) = size - index - per_thread := by omega
      simp only [dispatch_loop, hi, if_true, hrec]
      rw [hchunks, hsub, List.range_succ_eq_map, List.map_cons, List.map_map]
      simp only [Nat.zero_mul, Nat.add_zero, Option.some.injEq, List.cons.injEq, true_and]
      apply List.map_congr_left
      intro j _
      simp only [Function.comp, Nat.succ_mul]
      omega
    · have h0 : size - index = 0 := by omega
      simp [dispatch_loop, hi, h0, Nat.div_eq_of_lt (by omega : per_thread - 1 < per_thread)]

/-- With the chunk size 0 the dispatch loop over a non-empty range does not end. -/
theorem dispatch_loop_zero_chunk (size : Nat) (hsize : 0 < size) :
    ∀ fuel : Nat, dispatch_loop size 0 fuel 0 = none := by
  intro fuel
  induction fuel with
  | zero => simp [dispatch_loop, hsize]
  | succ fuel ih => simp [dispatch_loop, hsize, ih]

end dispatch_lemmas

section dispatch_state_lemmas

/-- Running a task creates and destroys no closure. -/
theorem run_task_closures (state : DispatchState) :
    state.run_task.closures = state.closures := by
  unfold DispatchState.run_task
  split <;> rfl

/-- Running tasks creates and destroys no closure. -/
theorem run_tasks_closures (count : Nat) : ∀ state : DispatchState,
    (DispatchState.run_tasks count state).closures = state.closures := by
  induction count with
  | zero => intro state; rfl
  | succ count ih =>
    intro state
    rw [DispatchState.run_tasks, ih, run_task_closures]

/-- Running a task moves it from the queue to the calls. -/
theorem run_task_count (state : DispatchState) :
    state.run_task.posted.length = state.posted.length - 1 ∧
    state.run_task.posted.length + state.run_task.calls.length
      = state.posted.length + state.calls.length := by
  cases hposted : state.posted with
  | nil => simp [DispatchState.run_task, hposted]
  | cons task posted =>
    simp only [DispatchState.run_task, hposted, List.length_cons, List.length_append,
      List.length_nil]
    omega

/-- Running `count` tasks takes `count` tasks from the queue, as far as there are any,
and every task that was posted is in the queue or has made its call. -/
theorem run_tasks_count (count : Nat) : ∀ state : DispatchState,
    (DispatchState.run_tasks count state).posted.length = state.posted.length - count ∧
    (DispatchState.run_tasks count state).posted.length
        + (DispatchState.run_tasks count state).calls.length
      = state.posted.length + state.calls.length := by
  induction count with
  | zero => intro state; exact ⟨rfl, rfl⟩
  | succ count ih =>
    intro state
    obtain ⟨h1, h2⟩ := ih state.run_task
    obtain ⟨h3, h4⟩ := run_task_count state
    rw [DispatchState.run_tasks]
    exact ⟨by omega, by omega⟩

/-- A task that runs when every closure is destroyed reads no index. -/
theorem dead_closure_read (closures : List (Option Nat)) (hdead : ∀ c ∈ closures, c = none)
    (closure : Nat) : (closures[closure]?).join = none := by
  cases h : closures[closure]? with
  | none => rfl
  | some c =>
    have := hdead c (List.mem_iff_getElem?.mpr ⟨closure, h⟩)
    subst this
    rfl

/-- Tasks that run when every closure is destroyed call the kernel without an index. -/
theorem run_tasks_dead (count : Nat) : ∀ state : DispatchState,
    (∀ c ∈ state.closures, c = none) →
    DispatchState.run_tasks count state
      = ⟨state.closures, state.posted.drop count,
          state.calls ++ (state.posted.take count).map (fun task => ⟨task.pop, none⟩)⟩ := by
  induction count with
  | zero => intro state _; simp [DispatchState.run_tasks]
  | succ count ih =>
    intro state hdead
    rw [DispatchState.run_tasks, ih state.run_task (by rw [run_task_closures]; exact hdead),
      run_task_closures]
    unfold DispatchState.run_task
    cases hposted : state.posted with
    | nil => simp [hposted]
    | cons task posted =>
      simp only [hposted, dead_closure_read state.closures hdead task.closure,
        List.drop_succ_cons, List.take_succ_cons, List.map_cons, List.append_assoc,
        List.singleton_append]

/-- Replacing the last element of a list. -/
theorem set_last {α : Type} (l : List α) (a b : α) : (l ++ [a]).set l.length b = l ++ [b] := by
  induction l with
  | nil => rfl
  | cons x l ih => simp [List.set, ih]

/-- After a `std::visit` call of a dispatch loop its closure is destroyed, the other
closures are as before, and one more task is in the queue or has made its call. -/
theorem visit_frame (state : DispatchState) (running pop neuron_index : Nat) :
    (state.visit running pop neuron_index).closures = state.closures ++ [none] ∧
    (state.visit running pop neuron_index).posted.length
        + (state.visit running pop neuron_index).calls.length
      = state.posted.length + state.calls.length + 1 := by
  unfold DispatchState.visit
  constructor
  · simp only [run_tasks_closures, set_last]
  · have := (run_tasks_count running
      { state with
        closures := state.closures ++ [some neuron_index]
        posted := state.posted ++ [⟨pop, state.closures.length⟩] }).2
    simp only [List.length_append, List.length_singleton] at this ⊢
    omega

/-- A `std::visit` call during which no task runs leaves the task in the queue. -/
theorem visit_lazy (state : DispatchState) (pop neuron_index : Nat) :
    state.visit 0 pop neuron_index
      = ⟨state.closures ++ [none], state.posted ++ [⟨pop, state.closures.length⟩],
          state.calls⟩ := by
  simp [DispatchState.visit, DispatchState.run_tasks, set_last]

/-- A `std::visit` call during which its task runs, the queue being empty before:
the task reads the index of the loop. -/
theorem visit_eager (state : DispatchState) (pop neuron_index : Nat)
    (hposted : state.posted = []) :
    state.visit 1 pop neuron_index
      = ⟨state.closures ++ [none], [], state.calls ++ [⟨pop, some neuron_index⟩]⟩ := by
  simp [DispatchState.visit, DispatchState.run_tasks, DispatchState.run_task, hposted,
    set_last]

/-- The first dispatch loop makes one `std::visit` call for every index of the loop. -/
theorem pre_message_loop_eq (schedule : Nat → Nat) (pop pop_size neurons_per_thread_ : Nat) :
    ∀ (fuel neuron_index : Nat) (state : DispatchState),
      calculate_populations_pre_message_loop schedule pop pop_size neurons_per_thread_ fuel
          neuron_index state
        = (dispatch_loop pop_size neurons_per_thread_ fuel neuron_index).map
            (fun indexes => indexes.foldl
              (fun state index => state.visit (schedule state.closures.length) pop index)
              state) := by
  intro fuel
  induction fuel with
  | zero =>
    intro neuron_index state
    by_cases h : neuron_index < pop_size <;>
      simp [calculate_populations_pre_message_loop, dispatch_loop, h]
  | succ fuel ih =>
    intro neuron_index state
    by_cases h : neuron_index < pop_size
    · simp only [calculate_populations_pre_message_loop, dispatch_loop, h, if_true, ih]
      cases dispatch_loop pop_size neurons_per_thread_ fuel (neuron_index + neurons_per_thread_)
        <;> rfl
    · simp [calculate_populations_pre_message_loop, dispatch_loop, h]

/-- The third dispatch loop does what the first one does. -/
theorem post_input_loop_eq (schedule : Nat → Nat) (pop pop_size neurons_per_thread_ : Nat) :
    ∀ (fuel neuron_index : Nat) (state : DispatchState),
      calculate_populations_post_input_loop schedule pop pop_size neurons_per_thread_ fuel
          neuron_index state
        = calculate_populations_pre_message_loop schedule pop pop_size neurons_per_thread_
            fuel neuron_index state := by
  intro fuel
  induction fuel with
  | zero => intro neuron_index state; rfl
  | succ fuel ih =>
    intro neuron_index state
    simp only [calculate_populations_post_input_loop, calculate_populations_pre_message_loop,
      ih]

/-- The third loop nest does what the first one does. -/
theorem post_input_nest_eq (schedule : Nat → Nat) (neurons_per_thread_ fuel : Nat) :
    ∀ (populations_ : List Nat) (pop : Nat) (state : DispatchState),
      calculate_populations_post_input_nest schedule neurons_per_thread_ fuel populations_
          pop state
        = calculate_populations_pre_message_nest schedule neurons_per_thread_ fuel
            populations_ pop state := by
  intro populations_
  induction populations_ with
  | nil => intro pop state; rfl
  | cons pop_size populations_ ih =>
    intro pop state
    simp only [calculate_populations_post_input_nest, calculate_populations_pre_message_nest,
      post_input_loop_eq, ih]

/-- Whatever the workers do during the calls, after the `std::visit` calls for the
indexes `indexes` every new closure is destroyed and every new task is in the
queue or has made its call. -/
theorem visits_frame (schedule : Nat → Nat) (pop : Nat) (indexes : List Nat) :
    ∀ state : DispatchState,
      (indexes.foldl
          (fun state index => state.visit (schedule state.closures.length) pop index)
          state).closures = state.closures ++ List.replicate indexes.length none ∧
      (indexes.foldl
          (fun state index => state.visit (schedule state.closures.length) pop index)
          state).posted.length +
        (indexes.foldl
          (fun state index => state.visit (schedule state.closures.length) pop index)
          state).calls.length = state.posted.length + state.calls.length + indexes.length := by
  induction indexes with
  | nil => intro state; simp
  | cons index indexes ih =>
    intro state
    obtain ⟨h1, h2⟩ := ih (state.visit (schedule state.closures.length) pop index)
    obtain ⟨h3, h4⟩ := visit_frame state (schedule state.closures.length) pop index
    simp only [List.foldl_cons, List.length_cons]
    refine ⟨?_, by omega⟩
    rw [h1, h3, List.append_assoc]
    rfl

/-- When no task runs during the calls, the `std::visit` calls for the indexes
`indexes` leave one task for every index in the queue. -/
theorem visits_lazy (pop : Nat) (indexes : List Nat) :
    ∀ state : DispatchState,
      indexes.foldl
          (fun state index => state.visit ((fun _ => 0) state.closures.length) pop index) state
        = ⟨state.closures ++ List.replicate indexes.length none,
            state.posted ++ (List.range indexes.length).map
              (fun j => ⟨pop, state.closures.length + j⟩),
            state.calls⟩ := by
  induction indexes with
  | nil => intro state; simp
  | cons index indexes ih =>
    intro state
    rw [List.foldl_cons, ih, visit_lazy]
    simp only [List.length_cons, List.append_assoc, List.length_append, List.length_singleton,
      List.range_succ_eq_map, List.map_cons, List.map_map, DispatchState.mk.injEq,
      List.singleton_append, Nat.add_zero, and_true]
    refine ⟨rfl, ?_⟩
    congr 2
    apply List.map_congr_left
    intro j _
    simp only [Function.comp, List.length_nil]
    congr 1
    omega

/-- When every task runs during the call that posts it, the tasks read the indexes
of the loop. -/
theorem visits_eager (pop : Nat) (indexes : List Nat) :
    ∀ state : DispatchState, state.posted = [] →
      indexes.foldl
          (fun state index => state.visit ((fun _ => 1) state.closures.length) pop index) state
        = ⟨state.closures ++ List.replicate indexes.length none, [],
            state.calls ++ indexes.map (fun index => ⟨pop, some index⟩)⟩ := by
  induction indexes with
  | nil => intro state h; cases state; simp_all
  | cons index indexes ih =>
    intro state h
    rw [List.foldl_cons, visit_eager state pop index h, ih _ rfl]
    simp only [List.length_cons, List.append_assoc, List.map_cons, List.singleton_append,
      DispatchState.mk.injEq, and_true, true_and]
    rfl

end dispatch_state_lemmas

/-- C22 (the code departs from the claim): for a population of size `n` and a chunk
size `k ≥ 1` both dispatch loops of `calculate_populations` end (fuel `n` is
enough) and post `⌈n / k⌉` tasks, which have all run after the join, whenever the
workers run them; but a task holds a reference to the index kept in the temporary
closure of its `std::visit` call, not the index.  When the workers start the tasks
after the calls have returned, every task reads its index from a destroyed
closure, so no task has a defined start index; the tasks read the indexes
`0, k, 2k, ...` when each of them runs before the call that posted it returns.
The third loop nest behaves as the first one. -/
theorem C22_posted_tasks_read_destroyed_closure (n k fuel : Nat) (hk : 1 ≤ k)
    (hfuel : n ≤ fuel) :
    (∀ schedule : Nat → Nat, ∃ state,
      calculate_populations_pre_message schedule k fuel [n] = some state ∧
      state.closures = List.replicate ((n + k - 1) / k) none ∧
      state.posted = [] ∧
      state.calls.length = (n + k - 1) / k) ∧
    calculate_populations_pre_message (fun _ => 0) k fuel [n]
      = some ⟨List.replicate ((n + k - 1) / k) none, [],
          List.replicate ((n + k - 1) / k) ⟨0, none⟩⟩ ∧
    calculate_populations_pre_message (fun _ => 1) k fuel [n]
      = some ⟨List.replicate ((n + k - 1) / k) none, [],
          (List.range ((n + k - 1) / k)).map (fun j => ⟨0, some (j * k)⟩)⟩ ∧
    (∀ (schedule : Nat → Nat) (populations_ : List Nat),
      calculate_populations_post_input schedule k fuel populations_
        = calculate_populations_pre_message schedule k fuel populations_) := by
  have hloop := dispatch_loop_returns n k hk fuel 0 (by omega)
  simp only [Nat.sub_zero, Nat.zero_add] at hloop
  have hpre : ∀ schedule : Nat → Nat,
      calculate_populations_pre_message schedule k fuel [n]
        = some (DispatchState.join
            (((List.range ((n + k - 1) / k)).map (fun j => j * k)).foldl
              (fun (state : DispatchState) index =>
                state.visit (schedule state.closures.length) 0 index)
              ⟨[], [], []⟩)) := by
    intro schedule
    simp only [calculate_populations_pre_message, calculate_populations_pre_message_nest,
      pre_message_loop_eq, hloop, Option.map_some']
  refine ⟨fun schedule => ⟨_, hpre schedule, ?_, ?_, ?_⟩, ?_, ?_, ?_⟩
  · obtain ⟨h1, -⟩ := visits_frame schedule 0
      ((List.range ((n + k - 1) / k)).map (fun j => j * k)) ⟨[], [], []⟩
    rw [DispatchState.join, run_tasks_closures, h1]
    simp
  · apply List.length_eq_zero.mp
    rw [DispatchState.join, (run_tasks_count _ _).1]
    omega
  · obtain ⟨-, h2⟩ := visits_frame schedule 0
      ((List.range ((n + k - 1) / k)).map (fun j => j * k)) ⟨[], [], []⟩
    have h3 := run_tasks_count
      (((List.range ((n + k - 1) / k)).map (fun j => j * k)).foldl
        (fun (state : DispatchState) index =>
          state.visit (schedule state.closures.length) 0 index)
        ⟨[], [], []⟩).posted.length
      (((List.range ((n + k - 1) / k)).map (fun j => j * k)).foldl
        (fun (state : DispatchState) index =>
          state.visit (schedule state.closures.length) 0 index)
        ⟨[], [], []⟩)
    simp only [List.length_nil, List.length_map, List.length_range, Nat.zero_add] at h2
    rw [DispatchState.join]
    omega
  · rw [hpre, visits_lazy, DispatchState.join, run_tasks_dead]
    · simp [Function.comp_def]
    · intro c hc
      simp only [List.nil_append] at hc
      exact List.eq_of_mem_replicate hc
  · rw [hpre, visits_eager _ _ _ rfl, DispatchState.join]
    simp [DispatchState.run_tasks, Function.comp_def]
  · intro schedule populations_
    simp only [calculate_populations_post_input, calculate_populations_pre_message,
      post_input_nest_eq]

/-- Witness of C22: a population of 10 neurons with chunks of 4.  Three tasks are
posted; run after their `std::visit` calls have returned, none of them reads a
defined index; run during these calls, they read 0, 4 and 8. -/
theorem C22_posted_tasks_read_destroyed_closure_witness :
    calculate_populations_pre_message (fun _ => 0) 4 10 [10]
      = some ⟨[none, none, none], [], [⟨0, none⟩, ⟨0, none⟩, ⟨0, none⟩]⟩ ∧
    calculate_populations_pre_message (fun _ => 1) 4 10 [10]
      = some ⟨[none, none, none], [], [⟨0, some 0⟩, ⟨0, some 4⟩, ⟨0, some 8⟩]⟩ ∧
    calculate_populations_post_input (fun _ => 0) 4 10 [10]
      = some ⟨[none, none, none], [], [⟨0, none⟩, ⟨0, none⟩, ⟨0, none⟩]⟩ :=
  have h := C22_posted_tasks_read_destroyed_closure 10 4 10 (by decide) (by decide)
  ⟨h.2.1.trans (by decide), h.2.2.1.trans (by decide),
    (h.2.2.2 (fun _ => 0) [10]).trans (h.2.1.trans (by decide))⟩

/-! ## C23: the assertion of `stdp_delta_w` under the two queue routines -/

section invariant_lemmas

variable {F : Type}

/-- A growth within capacity keeps both queues of every synapse within capacity. -/
theorem queues_within_capacity_of_grown (spike_queue : SpikeQueue) (t : Nat)
    (parameters parameters' : List (Synapse F))
    (hq : queues_within_capacity parameters)
    (hg : grown_within_capacity spike_queue t parameters parameters') :
    queues_within_capacity parameters' := by
  obtain ⟨hlen, hget⟩ := hg
  intro s' hs'
  obtain ⟨j, hj⟩ := List.mem_iff_getElem?.mp hs'
  have hjlt : j < parameters.length := by
    rw [← hlen]
    by_contra hcon
    rw [List.getElem?_eq_none (by omega)] at hj
    cases hj
  obtain ⟨k, hk, hj'⟩ := hget j parameters[j] (List.getElem?_eq_getElem hjlt)
  rw [hj] at hj'
  cases hj'
  have hs := hq parameters[j] (List.getElem_mem hjlt)
  cases spike_queue <;>
    simp only [Synapse.extend, STDPAdditiveRule.extend, STDPAdditiveRule.queue,
      List.length_append, List.length_replicate] at hk ⊢ <;> omega

variable [LinearOrderedField F]

/-- Under the capacity invariant the update of one synapse returns, keeps the
invariant, and fires only when both queues hold exactly `tau_plus_ + tau_minus_`
entries. -/
theorem update_synapse_within_capacity (exp : F → F) (s : Synapse F)
    (hs : s.params_.rule_.presynaptic_spike_times_.length
        ≤ s.params_.rule_.tau_plus_ + s.params_.rule_.tau_minus_ ∧
      s.params_.rule_.postsynaptic_spike_times_.length
        ≤ s.params_.rule_.tau_plus_ + s.params_.rule_.tau_minus_) :
    ∃ s', update_synapse_additive_stdp exp s = .ok s' ∧
      s'.params_.rule_.presynaptic_spike_times_.length
        ≤ s'.params_.rule_.tau_plus_ + s'.params_.rule_.tau_minus_ ∧
      s'.params_.rule_.postsynaptic_spike_times_.length
        ≤ s'.params_.rule_.tau_plus_ + s'.params_.rule_.tau_minus_ := by
  by_cases hfire : s.params_.rule_.tau_plus_ + s.params_.rule_.tau_minus_
        ≤ s.params_.rule_.presynaptic_spike_times_.length ∧
      s.params_.rule_.tau_plus_ + s.params_.rule_.tau_minus_
        ≤ s.params_.rule_.postsynaptic_spike_times_.length
  · obtain ⟨d, -, hd⟩ := update_synapse_fires exp s hfire.1 hfire.2 (by omega)
    exact ⟨_, hd, by simp, by simp⟩
  · exact ⟨s, update_synapse_below_threshold exp s (by omega), hs.1, hs.2⟩

/-- Under the capacity invariant the loop over the synapses returns and keeps the
invariant. -/
theorem update_synapses_within_capacity (exp : F → F) (l : List (Synapse F))
    (hq : queues_within_capacity l) :
    ∃ l', update_synapses_additive_stdp exp l = .ok l' ∧ queues_within_capacity l' := by
  induction l with
  | nil => exact ⟨[], rfl, fun s hs => by simp at hs⟩
  | cons a l ih =>
    obtain ⟨a', ha, ha1, ha2⟩ := update_synapse_within_capacity exp a (hq a (by simp))
    obtain ⟨l', hl, hl'⟩ := ih (fun s hs => hq s (by simp [hs]))
    refine ⟨a' :: l', by simp [update_synapses_additive_stdp, ha, hl], ?_⟩
    intro s hs
    rcases List.mem_cons.mp hs with rfl | hs
    · exact ⟨ha1, ha2⟩
    · exact hl' s hs

/-- Each of the two routines returns under the capacity invariant and keeps it. -/
theorem queue_operation_within_capacity (exp : F → F) (projection : Projection F)
    (operation : QueueOperation F) (hq : queues_within_capacity projection.parameters_) :
    ∃ projection', operation.run exp projection = .ok projection' ∧
      queues_within_capacity projection'.parameters_ := by
  cases operation with
  | append message synapse_index_getter spike_queue =>
    refine ⟨_, rfl, ?_⟩
    exact queues_within_capacity_of_grown spike_queue message.header_.send_time_ _ _ hq
      (append_spike_times_grown message synapse_index_getter spike_queue
        projection.parameters_ projection
        (grown_within_capacity_refl spike_queue message.header_.send_time_ _))
  | update =>
    obtain ⟨l', hl, hl'⟩ := update_synapses_within_capacity exp projection.parameters_ hq
    exact ⟨{ projection with parameters_ := l' },
      by simp [QueueOperation.run, update_projection_weights_additive_stdp, hl], hl'⟩

/-- Every sequence of the two routines returns under the capacity invariant and keeps
it. -/
theorem run_queue_operations_within_capacity (exp : F → F)
    (operations : List (QueueOperation F)) :
    ∀ projection : Projection F, queues_within_capacity projection.parameters_ →
      ∃ projection', run_queue_operations exp projection operations = .ok projection' ∧
        queues_within_capacity projection'.parameters_ := by
  induction operations with
  | nil => intro projection hq; exact ⟨projection, rfl, hq⟩
  | cons operation operations ih =>
    intro projection hq
    obtain ⟨p1, h1, hq1⟩ := queue_operation_within_capacity exp projection operation hq
    obtain ⟨p2, h2, hq2⟩ := ih p1 hq1
    exact ⟨p2, by simp [run_queue_operations, h1, h2], hq2⟩

end invariant_lemmas

/-- C23: start from a projection whose spike-time queues are all empty and apply any
sequence of calls of `append_spike_times` (with any message, index getter and
queue) and of `update_projection_weights_additive_stdp`.  No call stops at an
assertion; in the projection reached, every synapse for which the update would
call `stdp_delta_w` (both queues hold at least `tau_plus + tau_minus` entries) has
exactly `tau_plus + tau_minus` entries in both queues, `stdp_delta_w` returns for
it, and a further update returns. -/
theorem C23_size_assertion_never_fails {F : Type} [LinearOrderedField F] (exp : F → F)
    (projection : Projection F) (operations : List (QueueOperation F))
    (hempty : ∀ s ∈ projection.parameters_,
      s.params_.rule_.presynaptic_spike_times_ = [] ∧
      s.params_.rule_.postsynaptic_spike_times_ = []) :
    ∃ projection', run_queue_operations exp projection operations = .ok projection' ∧
      (∀ s ∈ projection'.parameters_,
        s.params_.rule_.tau_plus_ + s.params_.rule_.tau_minus_
          ≤ s.params_.rule_.presynaptic_spike_times_.length →
        s.params_.rule_.tau_plus_ + s.params_.rule_.tau_minus_
          ≤ s.params_.rule_.postsynaptic_spike_times_.length →
        s.params_.rule_.presynaptic_spike_times_.length
          = s.params_.rule_.tau_plus_ + s.params_.rule_.tau_minus_ ∧
        s.params_.rule_.postsynaptic_spike_times_.length
          = s.params_.rule_.tau_plus_ + s.params_.rule_.tau_minus_ ∧
        ∃ delta_w,
          (STDPFormula.mk (s.params_.rule_.tau_plus_ : F) (s.params_.rule_.tau_minus_ : F)
              1 1).stdp_delta_w exp s.params_.rule_.presynaptic_spike_times_
              s.params_.rule_.postsynaptic_spike_times_ = .ok delta_w) ∧
      ∃ projection'', update_projection_weights_additive_stdp exp projection'
        = .ok projection'' := by
  have hq : queues_within_capacity projection.parameters_ := by
    intro s hs
    obtain ⟨h1, h2⟩ := hempty s hs
    simp [h1, h2]
  obtain ⟨p', hrun, hq'⟩ := run_queue_operations_within_capacity exp operations projection hq
  refine ⟨p', hrun, ?_, ?_⟩
  · intro s hs hpre hpost
    obtain ⟨h1, h2⟩ := hq' s hs
    have e1 : s.params_.rule_.presynaptic_spike_times_.length
        = s.params_.rule_.tau_plus_ + s.params_.rule_.tau_minus_ := by omega
    have e2 : s.params_.rule_.postsynaptic_spike_times_.length
        = s.params_.rule_.tau_plus_ + s.params_.rule_.tau_minus_ := by omega
    obtain ⟨d, hd, -⟩ := update_synapse_fires exp s hpre hpost (by omega)
    exact ⟨e1, e2, d, hd⟩
  · obtain ⟨p'', h, -⟩ := queue_operation_within_capacity exp p' .update hq'
    exact ⟨p'', h⟩

/-- Witness of C23: the synapse 0 → 1 with capacity 2, two registrations of a spike
of neuron 1 in each queue (through the postsynaptic index, as the source does),
an update, and one more registration. -/
theorem C23_size_assertion_never_fails_witness :
    ∃ projection', run_queue_operations Real.exp
        { uid_ := ⟨1⟩, presynaptic_uid_ := ⟨2⟩, postsynaptic_uid_ := ⟨3⟩,
          parameters_ := [queue_synapse ℝ [] []], stdp_populations_ := [] }
        [.append ⟨⟨⟨2⟩, 7⟩, [0, 0, 0]⟩ Projection.get_by_postsynaptic_neuron
            .postsynaptic_spike_times_,
         .append ⟨⟨⟨2⟩, 7⟩, [0, 0, 0]⟩ Projection.get_by_postsynaptic_neuron
            .presynaptic_spike_times_,
         .update,
         .append ⟨⟨⟨2⟩, 8⟩, [0]⟩ Projection.get_by_postsynaptic_neuron
            .postsynaptic_spike_times_] = .ok projection' := by
  obtain ⟨projection', h, -⟩ := C23_size_assertion_never_fails Real.exp
    { uid_ := ⟨1⟩, presynaptic_uid_ := ⟨2⟩, postsynaptic_uid_ := ⟨3⟩,
      parameters_ := [queue_synapse ℝ [] []], stdp_populations_ := [] }
    [.append ⟨⟨⟨2⟩, 7⟩, [0, 0, 0]⟩ Projection.get_by_postsynaptic_neuron
        .postsynaptic_spike_times_,
     .append ⟨⟨⟨2⟩, 7⟩, [0, 0, 0]⟩ Projection.get_by_postsynaptic_neuron
        .presynaptic_spike_times_,
     .update,
     .append ⟨⟨⟨2⟩, 8⟩, [0]⟩ Projection.get_by_postsynaptic_neuron
        .postsynaptic_spike_times_]
    (by
      intro s hs
      simp only [List.mem_singleton] at hs
      subst hs
      exact ⟨rfl, rfl⟩)
  exact ⟨projection', h⟩

/-! ## C24: the default of `n_time_steps_since_last_firing_` -/

/-- C24 (the code departs from the claim): the default
`n_time_steps_since_last_firing_` of a BLIFAT neuron is
`numeric_limits<size_t>::infinity()`, which is 0 and not the largest `size_t`;
hence a default-constructed neuron with `absolute_refractory_period_ = p`
satisfies the refractory condition for every `p > 0`, for instance for `p = 1`. -/
theorem C24_default_steps_since_last_firing_is_zero :
    ({} : neuron_parameters ℚ).n_time_steps_since_last_firing_ = 0 ∧
    ({} : neuron_parameters ℚ).n_time_steps_since_last_firing_ ≠ numeric_limits_size_t_max ∧
    ({ absolute_refractory_period_ := 1 } : neuron_parameters ℚ).is_refractory = true ∧
    (∀ p : Nat, 0 < p →
      ({ absolute_refractory_period_ := p } : neuron_parameters ℚ).is_refractory = true) ∧
    ({} : neuron_parameters ℚ).total_blocking_period_ = 2 ^ 63 - 1 := by
  refine ⟨rfl, by decide, by decide, fun p hp => ?_, rfl⟩
  simpa [neuron_parameters.is_refractory, default_values.steps_before_firing_,
    numeric_limits_size_t_infinity] using hp

/-! ## C25: the sign of the additive STDP update -/

section potentiation_lemmas

/-- A loop whose steps never decrease the accumulator does not decrease it. -/
theorem foldl_monotone {α : Type} (step : ℝ → α → ℝ) (hstep : ∀ w a, w ≤ step w a)
    (l : List α) : ∀ w : ℝ, w ≤ l.foldl step w := by
  induction l with
  | nil => intro w; exact le_refl w
  | cons a l ih => intro w; exact le_trans (hstep w a) (ih (step w a))

/-- A non-empty loop whose steps increase the accumulator increases it. -/
theorem foldl_strict_monotone {α : Type} (step : ℝ → α → ℝ) (hstep : ∀ w a, w < step w a)
    (l : List α) (hl : l ≠ []) : ∀ w : ℝ, w < l.foldl step w := by
  intro w
  cases l with
  | nil => exact absurd rfl hl
  | cons a l =>
    exact lt_of_lt_of_le (hstep w a) (foldl_monotone step (fun w a => (hstep w a).le) l _)

/-- The kernel wired with `a_plus = a_minus = 1` is positive in real arithmetic. -/
theorem stdp_w_pos (tau_plus tau_minus d : ℝ) :
    0 < (STDPFormula.mk tau_plus tau_minus 1 1).stdp_w Real.exp d := by
  unfold STDPFormula.stdp_w
  split <;> simp [Real.exp_pos]

/-- The weight change of the wired formula is not negative, and it is positive for
non-empty queues. -/
theorem stdp_delta_w_sign (tau_plus tau_minus : ℝ) (pre post : List Nat) (delta_w : ℝ)
    (h : (STDPFormula.mk tau_plus tau_minus 1 1).stdp_delta_w Real.exp pre post
      = .ok delta_w) :
    0 ≤ delta_w ∧ (pre ≠ [] → post ≠ [] → 0 < delta_w) := by
  unfold STDPFormula.stdp_delta_w at h
  split at h
  · cases h
  · simp only [Except.ok.injEq] at h
    subst h
    refine ⟨foldl_monotone _ (fun w t_f => foldl_monotone _ (fun w t_n => ?_) post w) pre 0,
      fun hpre hpost =>
        foldl_strict_monotone _ (fun w t_f =>
          foldl_strict_monotone _ (fun w t_n => ?_) post hpost w) pre hpre 0⟩
    · have := stdp_w_pos tau_plus tau_minus ((uint32_sub t_n t_f : Nat) : ℝ)
      linarith
    · have := stdp_w_pos tau_plus tau_minus ((uint32_sub t_n t_f : Nat) : ℝ)
      linarith

/-- The update of one synapse does not decrease its weight, and increases it when the
update fires with non-empty queues. -/
theorem update_synapse_weight (s s' : Synapse ℝ)
    (h : update_synapse_additive_stdp Real.exp s = .ok s') :
    s.params_.weight_ ≤ s'.params_.weight_ ∧
    (s.params_.rule_.tau_plus_ + s.params_.rule_.tau_minus_
        ≤ s.params_.rule_.presynaptic_spike_times_.length →
      s.params_.rule_.tau_plus_ + s.params_.rule_.tau_minus_
        ≤ s.params_.rule_.postsynaptic_spike_times_.length →
      s.params_.rule_.presynaptic_spike_times_ ≠ [] →
      s.params_.rule_.postsynaptic_spike_times_ ≠ [] →
      s.params_.weight_ < s'.params_.weight_) := by
  by_cases hfire : s.params_.rule_.tau_plus_ + s.params_.rule_.tau_minus_
        ≤ s.params_.rule_.presynaptic_spike_times_.length ∧
      s.params_.rule_.tau_plus_ + s.params_.rule_.tau_minus_
        ≤ s.params_.rule_.postsynaptic_spike_times_.length
  · by_cases heq : s.params_.rule_.presynaptic_spike_times_.length
        = s.params_.rule_.postsynaptic_spike_times_.length
    · obtain ⟨d, hd, hupd⟩ := update_synapse_fires Real.exp s hfire.1 hfire.2 heq
      rw [hupd] at h
      cases h
      obtain ⟨h0, hpos⟩ := stdp_delta_w_sign _ _ _ _ d hd
      refine ⟨by simp only; linarith, fun _ _ hpre hpost => ?_⟩
      have := hpos hpre hpost
      simp only
      linarith
    · have herr : update_synapse_additive_stdp Real.exp s
          = .error ⟨"presynaptic_spikes.size() == postsynaptic_spikes.size()"⟩ := by
        unfold update_synapse_additive_stdp STDPFormula.call STDPFormula.stdp_delta_w
        simp only [ge_iff_le, hfire.1, hfire.2, and_self, if_true, heq, ne_eq,
          not_false_eq_true]
      rw [herr] at h
      cases h
  · rw [update_synapse_below_threshold Real.exp s (by omega)] at h
    cases h
    exact ⟨le_refl _, fun h1 h2 => absurd ⟨h1, h2⟩ hfire⟩

end potentiation_lemmas

/-- C25: in real arithmetic the kernel wired with `a_plus = a_minus = 1` is positive,
and for a projection whose synapses all have `tau_plus, tau_minus > 0` every
projection the update returns has every synapse at its place with a weight
greater than or equal to the one before, strictly greater for a synapse whose
update fires (both queues hold at least `tau_plus + tau_minus` entries, which
makes them non-empty); the update returns whenever both queues of every synapse
hold at most `tau_plus + tau_minus` entries. -/
theorem C25_update_only_potentiates (projection : Projection ℝ)
    (htau : ∀ s ∈ projection.parameters_,
      0 < s.params_.rule_.tau_plus_ ∧ 0 < s.params_.rule_.tau_minus_) :
    (∀ tau_plus tau_minus d : ℝ,
      0 < (STDPFormula.mk tau_plus tau_minus 1 1).stdp_w Real.exp d) ∧
    (∀ projection', update_projection_weights_additive_stdp Real.exp projection
        = .ok projection' →
      ∀ (i : Nat) (s : Synapse ℝ), projection.parameters_[i]? = some s →
        ∃ s', projection'.parameters_[i]? = some s' ∧
          s.params_.weight_ ≤ s'.params_.weight_ ∧
          (s.params_.rule_.tau_plus_ + s.params_.rule_.tau_minus_
              ≤ s.params_.rule_.presynaptic_spike_times_.length →
            s.params_.rule_.tau_plus_ + s.params_.rule_.tau_minus_
              ≤ s.params_.rule_.postsynaptic_spike_times_.length →
            s.params_.weight_ < s'.params_.weight_)) ∧
    (queues_within_capacity projection.parameters_ →
      ∃ projection', update_projection_weights_additive_stdp Real.exp projection
        = .ok projection') := by
  refine ⟨stdp_w_pos, ?_, ?_⟩
  · intro projection' h i s hs
    obtain ⟨hloop, -⟩ := update_projection_ok Real.exp _ _ h
    obtain ⟨s', hs', hget⟩ := (update_synapses_ok Real.exp _ _ hloop).2 i s hs
    obtain ⟨hle, hlt⟩ := update_synapse_weight s s' hs'
    refine ⟨s', hget, hle, fun hpre hpost => hlt hpre hpost ?_ ?_⟩
    · obtain ⟨h1, h2⟩ := htau s (List.mem_iff_getElem?.mpr ⟨i, hs⟩)
      intro hnil
      rw [hnil] at hpre
      simp at hpre
      omega
    · obtain ⟨h1, h2⟩ := htau s (List.mem_iff_getElem?.mpr ⟨i, hs⟩)
      intro hnil
      rw [hnil] at hpost
      simp at hpost
      omega
  · intro hq
    obtain ⟨l', hl, -⟩ := update_synapses_within_capacity Real.exp projection.parameters_ hq
    exact ⟨{ projection with parameters_ := l' },
      by simp [update_projection_weights_additive_stdp, hl]⟩

/-- Witness of C25: the example projection with the queues `[0, 1]` and `[0, 1]` in
its first synapse (`tau_plus = tau_minus = 1`): the update returns and the weight
of the first synapse grows. -/
theorem C25_update_only_potentiates_witness :
    ∃ projection' s',
      update_projection_weights_additive_stdp Real.exp (two_synapse_projection ℝ [0, 1] [0, 1])
        = .ok projection' ∧
      projection'.parameters_[0]? = some s' ∧
      (queue_synapse ℝ [0, 1] [0, 1]).params_.weight_ < s'.params_.weight_ := by
  have h := C25_update_only_potentiates (two_synapse_projection ℝ [0, 1] [0, 1])
    (by
      intro s hs
      simp only [two_synapse_projection, List.mem_cons, List.mem_singleton,
        List.not_mem_nil, or_false] at hs
      rcases hs with rfl | rfl <;> exact ⟨by decide, by decide⟩)
  obtain ⟨projection', hp⟩ := h.2.2 (by
    intro s hs
    simp only [two_synapse_projection, List.mem_cons, List.mem_singleton,
      List.not_mem_nil, or_false] at hs
    rcases hs with rfl | rfl <;> exact ⟨by decide, by decide⟩)
  obtain ⟨s', h1, -, h3⟩ := h.2.1 projection' hp 0 (queue_synapse ℝ [0, 1] [0, 1]) rfl
  exact ⟨projection', s', hp, h1, h3 (by decide) (by decide)⟩

end knp
